import Mathlib

/-!
# CVFS: a shallow embedding of `CVFS.cpp`

The three global objects of the program (`SUPERBLOCKobj`, the inode list that
starts at `head`, and the descriptor array `UFDTArr[50]`) form an explicit
`State`; every operation of the source is a function from a state to
`Option (result × State)`.

Conventions of the embedding

* `none` stands for an execution with undefined behaviour in C: a
  dereferenced `NULL`, an index outside `UFDTArr[0..49]`, a copy that runs
  outside an allocated block, a negative count handed to `strncpy`.
* `int` is `Int`.  The sums that `LseekFile` and `WriteFile` form out of an
  offset, a size and an argument are sums of `int`s: when the value of such a
  sum lies outside `INT_MIN..INT_MAX` the addition overflows, which is
  undefined behaviour, so the call is `none`.  The counters (`FreeInode`,
  `LinkCount`, `ReferenceCount`) move by one per call and are not bounded.
* A `char*` that the source compares with `NULL` is an `Option (List Char)`;
  a C string is the list of its characters before the terminating NUL.
* A pointer to an inode is the position of that inode in the list.
* `malloc` always succeeds.  The content of a fresh block is not written by
  `malloc`; the operations that read or keep parts of a fresh block take that
  content as an extra argument (`raw`).
* The content of a block of memory is a function from offsets to characters,
  next to the size of the block.
-/

namespace CVFS

/-! ## Constants (`#define`s of the source) -/

def MAXINODE : Nat := 50
def READ : Int := 1
def WRITE : Int := 2
def MAXFILESIZE : Int := 2048
def REGULAR : Int := 1
def SPECIAL : Int := 2
def START : Int := 0
def CURRENT : Int := 1
def END : Int := 2

/-- The NUL character that terminates a C string. -/
def NUL : Char := Char.ofNat 0

/-- The largest value of the 32-bit `int` of the program. -/
def INT_MAX : Int := 2147483647

/-- The smallest value of the 32-bit `int` of the program. -/
def INT_MIN : Int := -2147483648

/-- Whether `v` is a value of `int`.  An `int` sum whose value is not one is a
signed overflow. -/
def inInt (v : Int) : Prop := INT_MIN ≤ v ∧ v ≤ INT_MAX

instance (v : Int) : Decidable (inInt v) :=
  inferInstanceAs (Decidable (INT_MIN ≤ v ∧ v ≤ INT_MAX))

/-! ## Data model -/

/-- `struct superblock`. -/
structure SUPERBLOCK where
  TotalInodes : Int
  FreeInode : Int
deriving DecidableEq, Repr

/-- The field `char *Buffer` of an inode: `NULL`, a block of `size` bytes
obtained from `malloc` (`bytes j` is the byte at offset `j < size`), or a block
that was handed to `free`. -/
inductive BufferPtr where
  | null : BufferPtr
  | live (size : Nat) (bytes : Nat → Char) : BufferPtr
  | freed : BufferPtr

/-- `struct inode`, without the `next` link (the list order plays that role). -/
structure INODE where
  FileName : List Char
  InodeNumber : Int
  FileSize : Int
  FileActualSize : Int
  FileType : Int
  Buffer : BufferPtr
  LinkCount : Int
  ReferenceCount : Int
  permission : Int

/-- `struct filetable`; `ptrinode` is the position of the inode in the list. -/
structure FILETABLE where
  readoffset : Int
  writeoffset : Int
  count : Int
  mode : Int
  ptrinode : Nat
deriving DecidableEq, Repr

/-- The global state: `SUPERBLOCKobj`, the list at `head`, and `UFDTArr`
(only the indices `0..49` exist in the source; `none` is a `NULL` slot). -/
structure State where
  SUPERBLOCKobj : SUPERBLOCK
  head : List INODE
  UFDTArr : Nat → Option FILETABLE

/-! ## Helpers for memory -/

/-- The `n` characters that `strncpy(dest, src, n)` stores in `dest`, where
`src` points at offset `off` of an object of `size` bytes with content `mem`:
the characters from `off` up to the first NUL, then NULs up to `n`.  `none`
when the object ends before `n` characters and before a NUL (the copy would
read past the object). -/
def strncpy (mem : Nat → Char) (size : Nat) : Nat → Nat → Option (List Char)
  | _, 0 => some []
  | off, n + 1 =>
    if off < size then
      if mem off = NUL then some (List.replicate (n + 1) NUL)
      else (strncpy mem size (off + 1) n).map (fun w => mem off :: w)
    else none

/-- The content of the object a caller passes as `char *arr`. -/
def memOf (arr : List Char) : Nat → Char := fun j => arr.getD j NUL

/-- The bytes of a block after `w` has been stored at offset `off`. -/
def storeAt (bytes : Nat → Char) (off : Nat) (w : List Char) : Nat → Char :=
  fun j => if off ≤ j ∧ j < off + w.length then w.getD (j - off) NUL else bytes j

/-- `UFDTArr[fd].ptrfiletable` for an `int fd`: `none` when `fd` is outside
`0..49` (undefined behaviour), else the slot. -/
def slotAt (s : State) (fd : Int) : Option (Option FILETABLE) :=
  if 0 ≤ fd ∧ fd < 50 then some (s.UFDTArr fd.toNat) else none

/-- The state after `UFDTArr[i].ptrfiletable = v`. -/
def setSlot (s : State) (i : Nat) (v : Option FILETABLE) : State :=
  { s with UFDTArr := fun j => if j = i then v else s.UFDTArr j }

/-- The state after the inode at position `k` has been overwritten. -/
def setInode (s : State) (k : Nat) (ino : INODE) : State :=
  { s with head := s.head.set k ino }

/-- The state after `(SUPERBLOCKobj.FreeInode)--`. -/
def decFree (s : State) : State :=
  { s with SUPERBLOCKobj :=
      { s.SUPERBLOCKobj with FreeInode := s.SUPERBLOCKobj.FreeInode - 1 } }

/-- The state after `(SUPERBLOCKobj.FreeInode)++`. -/
def incFree (s : State) : State :=
  { s with SUPERBLOCKobj :=
      { s.SUPERBLOCKobj with FreeInode := s.SUPERBLOCKobj.FreeInode + 1 } }

/-! ## Lookups -/

/-- The loop of `Get_Inode` (and of `stat_file`): position of the first inode
whose `FileName` equals `name`. -/
def findName : List INODE → List Char → Option Nat
  | [], _ => none
  | x :: t, name =>
    if x.FileName = name then some 0 else (findName t name).map (fun k => k + 1)

/-- `Get_Inode`: `NULL` for a `NULL` name, else the first inode with that
name, whatever its type. -/
def Get_Inode (s : State) (name : Option (List Char)) : Option Nat :=
  match name with
  | none => none
  | some nm => findName s.head nm

/-- The first loop of `CreateFile`: position of the first inode with
`FileType == 0`, `none` when `temp` ends as `NULL`. -/
def firstFree : List INODE → Option Nat
  | [] => none
  | x :: t => if x.FileType = 0 then some 0 else (firstFree t).map (fun k => k + 1)

/-- The loop `while (i < 50) { if (UFDTArr[i].ptrfiletable == NULL) break; i++; }`
started at `i` with `n` slots left to look at; the value of `i` after it. -/
def scanNull (u : Nat → Option FILETABLE) : Nat → Nat → Nat
  | 0, i => i
  | n + 1, i => if (u i).isNone then i else scanNull u n (i + 1)

/-- Index of the first `NULL` slot of `UFDTArr`, or `50`. -/
def firstNull (s : State) : Nat := scanNull s.UFDTArr 50 0

/-- Whether slot `i` is occupied by a handle on an inode named `name`. -/
def slotNamed (s : State) (name : List Char) (i : Nat) : Bool :=
  match s.UFDTArr i with
  | none => false
  | some ft =>
    match s.head[ft.ptrinode]? with
    | none => false
    | some ino => decide (ino.FileName = name)

/-- The loop of `GetFDFromName` started at `i` with `n` slots left. -/
def scanName (s : State) (name : List Char) : Nat → Nat → Nat
  | 0, i => i
  | n + 1, i => if slotNamed s name i then i else scanName s name n (i + 1)

/-- `GetFDFromName`: `none` is the result `-1`. -/
def GetFDFromName (s : State) (name : List Char) : Option Nat :=
  let i := scanName s name 50 0
  if i = 50 then none else some i

/-! ## Initialisation -/

/-- The globals before `main` runs (static storage is zero). -/
def boot : State :=
  { SUPERBLOCKobj := { TotalInodes := 0, FreeInode := 0 }
    head := []
    UFDTArr := fun _ => none }

/-- `InitialiseSuperBlock`. -/
def InitialiseSuperBlock (s : State) : State :=
  { s with
    UFDTArr := fun j => if j < MAXINODE then none else s.UFDTArr j
    SUPERBLOCKobj := { TotalInodes := MAXINODE, FreeInode := MAXINODE } }

/-- One node built by the loop body of `CreateDILB` out of the fresh block
`raw`: `FileName`, `FileActualSize` and `permission` are not assigned. -/
def newInode (raw : INODE) (i : Int) : INODE :=
  { raw with
    LinkCount := 0
    ReferenceCount := 0
    FileType := 0
    FileSize := 0
    Buffer := BufferPtr.null
    InodeNumber := i }

/-- `CreateDILB`: 50 nodes numbered `1..50`; `raw k` is the content of the
block that the `k`-th `malloc` returns.  (With a non-empty list at `head` the
source links the new nodes right after the first node.) -/
def CreateDILB (raw : Nat → INODE) (s : State) : State :=
  let nodes := (List.range MAXINODE).map (fun k => newInode (raw k) ((k : Int) + 1))
  match s.head with
  | [] => { s with head := nodes }
  | h :: _ => { s with head := h :: nodes }

/-- The state in which `main` enters its command loop. -/
def initState (raw : Nat → INODE) : State :=
  CreateDILB raw (InitialiseSuperBlock boot)

/-- A block whose bytes are all zero. -/
def zeroInode : INODE :=
  { FileName := [], InodeNumber := 0, FileSize := 0, FileActualSize := 0, FileType := 0
    Buffer := BufferPtr.null, LinkCount := 0, ReferenceCount := 0, permission := 0 }

/-- Fresh heap memory that is zero throughout. -/
def zeroRaw : Nat → INODE := fun _ => zeroInode

/-- A fresh data block whose bytes are all zero. -/
def zeroBytes : Nat → Char := fun _ => NUL

/-- A zero-filled `struct filetable` block. -/
def zeroTable : FILETABLE :=
  { readoffset := 0, writeoffset := 0, count := 0, mode := 0, ptrinode := 0 }

/-! ## Operations -/

/-- The inode a handle points to (`ft.ptrinode` dereferenced). -/
def inodeOf (s : State) (ft : FILETABLE) : Option INODE := s.head[ft.ptrinode]?

/-- The `struct filetable` that `CreateFile` fills in for the inode at `t`. -/
def createdTable (permission : Int) (t : Nat) : FILETABLE :=
  { count := 1, mode := permission, readoffset := 0, writeoffset := 0, ptrinode := t }

/-- The inode after the assignments of `CreateFile` (lines 403 to 410). -/
def createdInode (ino : INODE) (nm : List Char) (permission : Int) (raw : Nat → Char) : INODE :=
  { ino with
    FileName := nm
    FileType := REGULAR
    ReferenceCount := 1
    LinkCount := 1
    FileSize := MAXFILESIZE
    FileActualSize := 0
    permission := permission
    Buffer := BufferPtr.live MAXFILESIZE.toNat raw }

/-- `CreateFile(name, permission)`; `raw` is what the fresh 2048-byte block
holds, byte by byte.  Undefined when no inode has `FileType == 0` (`temp` is `NULL`), when
no slot is `NULL` (`i` is 50), and when `strcpy` overruns `FileName[50]`. -/
def CreateFile (s : State) (name : Option (List Char)) (permission : Int)
    (raw : Nat → Char) : Option (Int × State) :=
  match name with
  | none => some (-1, s)
  | some nm =>
    if permission = 0 ∨ permission > 3 then some (-1, s)
    else if s.SUPERBLOCKobj.FreeInode = 0 then some (-2, s)
    else
      let s1 := decFree s
      match Get_Inode s1 (some nm) with
      | some _ => some (-3, s1)
      | none =>
        match firstFree s1.head with
        | none => none
        | some t =>
          let i := firstNull s1
          if i < 50 ∧ nm.length < 50 then
            match s1.head[t]? with
            | none => none
            | some ino =>
              some ((i : Int),
                setInode (setSlot s1 i (some (createdTable permission t))) t
                  (createdInode ino nm permission raw))
          else none

/-- What `free(Buffer)` leaves in the field: `free(NULL)` does nothing, a live
block becomes a freed one, a second `free` of the same block is undefined. -/
def freeBuffer : BufferPtr → Option BufferPtr
  | BufferPtr.null => some BufferPtr.null
  | BufferPtr.live _ _ => some BufferPtr.freed
  | BufferPtr.freed => none

/-- `rm_File(name)`. -/
def rm_File (s : State) (name : List Char) : Option (Int × State) :=
  match GetFDFromName s name with
  | none => some (-1, s)
  | some fd =>
    match s.UFDTArr fd with
    | none => none
    | some ft =>
      match inodeOf s ft with
      | none => none
      | some ino =>
        let link := ino.LinkCount - 1
        if link = 0 then
          match freeBuffer ino.Buffer with
          | none => none
          | some b =>
            some (0, incFree (setSlot
              (setInode s ft.ptrinode { ino with LinkCount := link, FileType := 0, Buffer := b })
              fd none))
        else
          some (0,
            incFree (setSlot (setInode s ft.ptrinode { ino with LinkCount := link }) fd none))

/-- `ReadFile(fd, arr, isize)`: the result, the characters stored in `arr`
(taken to be large enough), and the new state. -/
def ReadFile (s : State) (fd : Int) (isize : Int) : Option (Int × List Char × State) :=
  match slotAt s fd with
  | none => none
  | some none => some (-1, [], s)
  | some (some ft) =>
    if ft.mode ≠ READ ∧ ft.mode ≠ READ + WRITE then some (-2, [], s)
    else
      match inodeOf s ft with
      | none => none
      | some ino =>
        if ino.permission ≠ READ ∧ ino.permission ≠ READ + WRITE then some (-2, [], s)
        else if ft.readoffset = ino.FileActualSize then some (-3, [], s)
        else if ino.FileType ≠ REGULAR then some (-4, [], s)
        else
          let read_size := ino.FileActualSize - ft.readoffset
          let n := if read_size < isize then read_size else isize
          match ino.Buffer with
          | BufferPtr.live size bytes =>
            if 0 ≤ n ∧ 0 ≤ ft.readoffset ∧ ft.readoffset ≤ size then
              match strncpy bytes size ft.readoffset.toNat n.toNat with
              | none => none
              | some out =>
                some (isize, out,
                  setSlot s fd.toNat (some { ft with readoffset := ft.readoffset + n }))
            else none
          | _ => none

/-- `WriteFile(fd, arr, isize)`; `arr` is the content of the object the
caller passes.  The slot is dereferenced without a `NULL` test.  The two
assignments `writeoffset = writeoffset + isize` and
`FileActualSize = FileActualSize + isize` are `int` additions, undefined when
they overflow. -/
def WriteFile (s : State) (fd : Int) (arr : List Char) (isize : Int) : Option (Int × State) :=
  match slotAt s fd with
  | none => none
  | some none => none
  | some (some ft) =>
    if ft.mode ≠ WRITE ∧ ft.mode ≠ READ + WRITE then some (-1, s)
    else
      match inodeOf s ft with
      | none => none
      | some ino =>
        if ino.permission ≠ WRITE ∧ ino.permission ≠ READ + WRITE then some (-1, s)
        else if ft.writeoffset = MAXFILESIZE then some (-2, s)
        else if ino.FileType ≠ REGULAR then some (-3, s)
        else
          match ino.Buffer with
          | BufferPtr.live size bytes =>
            if 0 ≤ isize ∧ 0 ≤ ft.writeoffset ∧ ft.writeoffset + isize ≤ size then
              match strncpy (memOf arr) arr.length 0 isize.toNat with
              | none => none
              | some w =>
                if inInt (ft.writeoffset + isize) ∧ inInt (ino.FileActualSize + isize) then
                  some (isize,
                    setInode
                      (setSlot s fd.toNat
                        (some { ft with writeoffset := ft.writeoffset + isize }))
                      ft.ptrinode
                      { ino with
                        Buffer := BufferPtr.live size (storeAt bytes ft.writeoffset.toNat w)
                        FileActualSize := ino.FileActualSize + isize })
                else none
            else none
          | _ => none

/-- The `struct filetable` that `OpenFile` fills in out of the fresh block
`raw`: an offset that the mode does not reset keeps the content of the block. -/
def openedTable (raw : FILETABLE) (mode : Int) (t : Nat) : FILETABLE :=
  { raw with
    count := 1
    mode := mode
    readoffset := if mode = READ + WRITE ∨ mode = READ then 0 else raw.readoffset
    writeoffset := if mode = READ + WRITE ∨ mode = WRITE then 0 else raw.writeoffset
    ptrinode := t }

/-- `OpenFile(name, mode)`; `raw` is what the fresh `struct filetable` block
holds (an offset that the mode does not reset keeps that content). -/
def OpenFile (s : State) (name : Option (List Char)) (mode : Int)
    (raw : FILETABLE) : Option (Int × State) :=
  match name with
  | none => some (-1, s)
  | some nm =>
    if mode ≤ 0 then some (-1, s)
    else
      match Get_Inode s (some nm) with
      | none => some (-2, s)
      | some t =>
        match s.head[t]? with
        | none => none
        | some ino =>
          if ino.permission < mode then some (-3, s)
          else
            let i := firstNull s
            if i < 50 then
              some ((i : Int),
                setInode (setSlot s i (some (openedTable raw mode t))) t
                  { ino with ReferenceCount := ino.ReferenceCount + 1 })
            else none

/-- The three assignments shared by the close operations, on slot `i`. -/
def closeSlot (s : State) (i : Nat) : Option State :=
  match s.UFDTArr i with
  | none => none
  | some ft =>
    match inodeOf s ft with
    | none => none
    | some ino =>
      some (setInode (setSlot s i (some { ft with readoffset := 0, writeoffset := 0 }))
        ft.ptrinode { ino with ReferenceCount := ino.ReferenceCount - 1 })

/-- `CloseFileByName(char *name)`. -/
def CloseFileByName (s : State) (name : List Char) : Option (Int × State) :=
  match GetFDFromName s name with
  | none => some (-1, s)
  | some i => (closeSlot s i).map (fun t => ((0 : Int), t))

/-- `CloseFileByName(int fd)`, the overload that takes a descriptor; it
returns nothing. -/
def CloseFileByFd (s : State) (fd : Int) : Option State :=
  if 0 ≤ fd ∧ fd < 50 then closeSlot s fd.toNat else none

/-- The loop of `CloseAllFile` started at `i` with `n` slots left: index of
the first occupied slot, if any. -/
def scanOpen (u : Nat → Option FILETABLE) : Nat → Nat → Option Nat
  | 0, _ => none
  | n + 1, i => if (u i).isSome then some i else scanOpen u n (i + 1)

/-- `CloseAllFile`: the loop leaves at its first occupied slot. -/
def CloseAllFile (s : State) : Option State :=
  match scanOpen s.UFDTArr 50 0 with
  | none => some s
  | some i => closeSlot s i

/-- The branch of `LseekFile` for a handle in mode READ or READ+WRITE (source
lines 676 to 699): it moves `readoffset`.  Each test and assignment is made on
an `int` sum (`readoffset + size` or `FileActualSize + size`); a sum is
undefined when it overflows, and it is formed only when the tests before it let
the execution get there. -/
def seekRead (s : State) (fd : Int) (ft : FILETABLE) (size frm : Int) :
    Option (Int × State) :=
  if frm = CURRENT then
    match inodeOf s ft with
    | none => none
    | some ino =>
      if inInt (ft.readoffset + size) then
        if ft.readoffset + size > ino.FileActualSize then some (-1, s)
        else if ft.readoffset + size < 0 then some (-1, s)
        else some (0, setSlot s fd.toNat (some { ft with readoffset := ft.readoffset + size }))
      else none
  else if frm = START then
    match inodeOf s ft with
    | none => none
    | some ino =>
      if size > ino.FileActualSize then some (-1, s)
      else if size < 0 then some (-1, s)
      else some (0, setSlot s fd.toNat (some { ft with readoffset := size }))
  else if frm = END then
    match inodeOf s ft with
    | none => none
    | some ino =>
      if inInt (ino.FileActualSize + size) then
        if ino.FileActualSize + size > MAXFILESIZE then some (-1, s)
        else if inInt (ft.readoffset + size) then
          if ft.readoffset + size < 0 then some (-1, s)
          else
            some (0, setSlot s fd.toNat
              (some { ft with readoffset := ino.FileActualSize + size }))
        else none
      else none
  else some (0, s)

/-- The branch of `LseekFile` for a handle in mode WRITE (source lines 703 to
730): it moves `writeoffset`, and from CURRENT and START it raises
`FileActualSize` to the new offset.  The sums are `int` sums as in `seekRead`. -/
def seekWrite (s : State) (fd : Int) (ft : FILETABLE) (size frm : Int) :
    Option (Int × State) :=
  if frm = CURRENT then
    if inInt (ft.writeoffset + size) then
      if ft.writeoffset + size > MAXFILESIZE then some (-1, s)
      else if ft.writeoffset + size < 0 then some (-1, s)
      else
        match inodeOf s ft with
        | none => none
        | some ino =>
          let s1 := setSlot s fd.toNat (some { ft with writeoffset := ft.writeoffset + size })
          if ft.writeoffset + size > ino.FileActualSize then
            some (0, setInode s1 ft.ptrinode
              { ino with FileActualSize := ft.writeoffset + size })
          else some (0, s1)
    else none
  else if frm = START then
    if size > MAXFILESIZE then some (-1, s)
    else if size < 0 then some (-1, s)
    else
      match inodeOf s ft with
      | none => none
      | some ino =>
        let s1 := setSlot s fd.toNat (some { ft with writeoffset := size })
        if size > ino.FileActualSize then
          some (0, setInode s1 ft.ptrinode { ino with FileActualSize := size })
        else some (0, s1)
  else if frm = END then
    match inodeOf s ft with
    | none => none
    | some ino =>
      if inInt (ino.FileActualSize + size) then
        if ino.FileActualSize + size > MAXFILESIZE then some (-1, s)
        else if inInt (ft.writeoffset + size) then
          if ft.writeoffset + size < 0 then some (-1, s)
          else
            some (0, setSlot s fd.toNat
              (some { ft with writeoffset := ino.FileActualSize + size }))
        else none
      else none
  else some (0, s)

/-- `LseekFile(fd, size, from)`. -/
def LseekFile (s : State) (fd : Int) (size : Int) (frm : Int) : Option (Int × State) :=
  if fd < 0 ∨ frm > 2 then some (-1, s)
  else
    match slotAt s fd with
    | none => none
    | some none => some (-1, s)
    | some (some ft) =>
      if ft.mode = READ ∨ ft.mode = READ + WRITE then seekRead s fd ft size frm
      else if ft.mode = WRITE then seekWrite s fd ft size frm
      else some (0, s)

/-- `truncate_File(name)`: `memset(Buffer, 0, 1024)` needs a live block of at
least 1024 bytes. -/
def truncate_File (s : State) (name : List Char) : Option (Int × State) :=
  match GetFDFromName s name with
  | none => some (-1, s)
  | some fd =>
    match s.UFDTArr fd with
    | none => none
    | some ft =>
      match inodeOf s ft with
      | none => none
      | some ino =>
        match ino.Buffer with
        | BufferPtr.live size bytes =>
          if 1024 ≤ size then
            some (0,
              setInode (setSlot s fd (some { ft with readoffset := 0, writeoffset := 0 }))
                ft.ptrinode
                { ino with
                  Buffer := BufferPtr.live size (fun j => if j < 1024 then NUL else bytes j)
                  FileActualSize := 0 })
          else none
        | _ => none

/-- The lines `stat_file` and `fstat_file` print for one inode. -/
structure StatReport where
  name : List Char
  inodeNumber : Int
  fileSize : Int
  actualSize : Int
  linkCount : Int
  referenceCount : Int
  permission : Int
deriving DecidableEq, Repr

/-- The report printed for an inode. -/
def report (ino : INODE) : StatReport :=
  { name := ino.FileName, inodeNumber := ino.InodeNumber, fileSize := ino.FileSize
    actualSize := ino.FileActualSize, linkCount := ino.LinkCount
    referenceCount := ino.ReferenceCount, permission := ino.permission }

/-- `stat_file(name)`: the result and what is printed. -/
def stat_file (s : State) (name : Option (List Char)) : Int × Option StatReport :=
  match name with
  | none => (-1, none)
  | some nm =>
    match findName s.head nm with
    | none => (-2, none)
    | some t =>
      match s.head[t]? with
      | none => (-2, none)
      | some ino => (0, some (report ino))

/-- `fstat_file(fd)`: the result and what is printed. -/
def fstat_file (s : State) (fd : Int) : Option (Int × Option StatReport) :=
  if fd < 0 then some (-1, none)
  else
    match slotAt s fd with
    | none => none
    | some none => some (-2, none)
    | some (some ft) =>
      match inodeOf s ft with
      | none => none
      | some ino => some (0, some (report ino))

/-- One row of `ls_file`: name, inode number, actual size, link count. -/
def lsRow (ino : INODE) : List Char × Int × Int × Int :=
  (ino.FileName, ino.InodeNumber, ino.FileActualSize, ino.LinkCount)

/-- `ls_file`: `none` is the message "There are no files", else the rows. -/
def ls_file (s : State) : Option (List (List Char × Int × Int × Int)) :=
  if s.SUPERBLOCKobj.FreeInode = MAXINODE then none
  else some ((s.head.filter (fun ino => decide (ino.FileType ≠ 0))).map lsRow)

/-! ## The state machine -/

/-- A call of one of the state-changing operations, with its arguments. -/
inductive Op where
  | create (name : Option (List Char)) (permission : Int) (raw : Nat → Char) : Op
  | openf (name : Option (List Char)) (mode : Int) (raw : FILETABLE) : Op
  | read (fd : Int) (isize : Int) : Op
  | write (fd : Int) (arr : List Char) (isize : Int) : Op
  | lseek (fd : Int) (size : Int) (frm : Int) : Op
  | closeName (name : List Char) : Op
  | closeFd (fd : Int) : Op
  | closeAll : Op
  | rm (name : List Char) : Op
  | truncate (name : List Char) : Op

/-- The result value and the state after one call (`0` stands for `void`). -/
def step (s : State) : Op → Option (Int × State)
  | Op.create name p raw => CreateFile s name p raw
  | Op.openf name m raw => OpenFile s name m raw
  | Op.read fd n => (ReadFile s fd n).map (fun r => (r.1, r.2.2))
  | Op.write fd arr n => WriteFile s fd arr n
  | Op.lseek fd size frm => LseekFile s fd size frm
  | Op.closeName name => CloseFileByName s name
  | Op.closeFd fd => (CloseFileByFd s fd).map (fun t => ((0 : Int), t))
  | Op.closeAll => (CloseAllFile s).map (fun t => ((0 : Int), t))
  | Op.rm name => rm_File s name
  | Op.truncate name => truncate_File s name

/-- The states the program can be in: `initState` on any heap content, then
any number of calls, each with defined behaviour. -/
inductive Reachable : State → Prop where
  | init (raw : Nat → INODE) : Reachable (initState raw)
  | step {s t : State} {r : Int} (op : Op) : Reachable s → step s op = some (r, t) → Reachable t

/-- The state after a list of calls, `none` as soon as one is undefined. -/
def run (s : State) : List Op → Option State
  | [] => some s
  | op :: rest =>
    match step s op with
    | none => none
    | some (_, t) => run t rest

/-- The result values of a list of calls, in order. -/
def results (s : State) : List Op → Option (List Int)
  | [] => some []
  | op :: rest =>
    match step s op with
    | none => none
    | some (r, t) => (results t rest).map (fun l => r :: l)

/-- Whether a call keeps within the capacity of the file: for a `WriteFile` on
an occupied slot, `FileActualSize + isize ≤ MAXFILESIZE`; every other call
does. -/
def fitsWrite (s : State) : Op → Bool
  | Op.write fd _ isize =>
    match slotAt s fd with
    | some (some ft) =>
      match inodeOf s ft with
      | some ino => decide (ino.FileActualSize + isize ≤ MAXFILESIZE)
      | none => true
    | _ => true
  | _ => true

/-- The states reached by calls that all keep within the capacity of the file
they write to. -/
inductive ReachableFit : State → Prop where
  | init (raw : Nat → INODE) : ReachableFit (initState raw)
  | step {s t : State} {r : Int} (op : Op) :
      ReachableFit s → fitsWrite s op = true → step s op = some (r, t) → ReachableFit t

/-- The size bounds of one inode: a REGULAR inode has a size that is not
negative and a capacity of `MAXFILESIZE`, (when `b` is set) a size within that
capacity, and in any case a size that is a value of `int`. -/
def sizeInv (b : Bool) (ino : INODE) : Prop :=
  ino.FileType = REGULAR →
    0 ≤ ino.FileActualSize ∧ ino.FileSize = MAXFILESIZE ∧
      (b = true → ino.FileActualSize ≤ MAXFILESIZE) ∧ ino.FileActualSize ≤ INT_MAX

/-- `CreateFile` called for each entry (name, permission, content of the fresh
block) in turn, every call returning a descriptor; `none` as soon as a call is
undefined or returns an error code. -/
def createAll (s : State) : List (List Char × Int × (Nat → Char)) → Option State
  | [] => some s
  | c :: rest =>
    match CreateFile s (some c.1) c.2.1 c.2.2 with
    | none => none
    | some (r, t) => if 0 ≤ r then createAll t rest else none

/-- `rm_File` called for each name in turn, every call returning 0; `none` as
soon as a call is undefined or returns `-1`. -/
def rmAll (s : State) : List (List Char) → Option State
  | [] => some s
  | nm :: rest =>
    match rm_File s nm with
    | none => none
    | some (r, t) => if r = 0 then rmAll t rest else none

/-! ## Inputs used in the closed statements -/

/-- The file name `"a"`. -/
def nameA : List Char := ['a']

/-- The file name `"b"`. -/
def nameB : List Char := ['b']

/-- The data `"hello"` as the `char` array of a C string literal. -/
def hello : List Char := ['h', 'e', 'l', 'l', 'o', NUL]

/-- The state after `CreateFile("a", p)` on the initial state with a zeroed
heap: inode 1 and descriptor 0 are taken. -/
def afterCreateA (p : Int) : State :=
  setInode (setSlot (decFree (initState zeroRaw)) 0 (some (createdTable p 0))) 0
    (createdInode (newInode zeroInode 1) nameA p zeroBytes)

/-- The characters `hello` without the terminator. -/
def hello5 : List Char := ['h', 'e', 'l', 'l', 'o']

/-- The state after `CreateFile("a", p)` and a `WriteFile(0, w, len w)` of the
NUL-free characters `w` on the initial state with a zeroed heap. -/
def afterWriteA (p : Int) (w : List Char) : State :=
  setInode
    (setSlot (afterCreateA p) 0
      (some { createdTable p 0 with writeoffset := (w.length : Int) }))
    0
    { createdInode (newInode zeroInode 1) nameA p zeroBytes with
      Buffer := BufferPtr.live 2048 (storeAt zeroBytes 0 w)
      FileActualSize := (w.length : Int) }

/-- The bytes at the offsets `offs` of the buffer of the inode at position `k`
(nothing when that inode has no live buffer). -/
def bufferAt (s : State) (k : Nat) (offs : List Nat) : List Char :=
  match s.head[k]? with
  | none => []
  | some ino =>
    match ino.Buffer with
    | BufferPtr.live _ bytes => offs.map bytes
    | _ => []

/-- The two offsets and the mode of the handle in slot `i`, when occupied. -/
def offsetsAt (s : State) (i : Nat) : Option (Int × Int × Int) :=
  (s.UFDTArr i).map (fun ft => (ft.readoffset, ft.writeoffset, ft.mode))

/-- Type, actual size, link count and reference count of the inode at
position `k`. -/
def countsAt (s : State) (k : Nat) : Option (Int × Int × Int × Int) :=
  (s.head[k]?).map (fun ino =>
    (ino.FileType, ino.FileActualSize, ino.LinkCount, ino.ReferenceCount))

/-- The link count of an inode is at most 1, and an inode with link count 1
has a live buffer. -/
def linkInv (ino : INODE) : Prop :=
  ino.LinkCount ≤ 1 ∧
  (ino.LinkCount = 1 → ∃ size bytes, ino.Buffer = BufferPtr.live size bytes)

/-! ## Predicates used in the invariants -/

/-- Every occupied slot of `u` is occupied in `v` by a handle on the same
inode. -/
def keepsSlots (u v : Nat → Option FILETABLE) : Prop :=
  ∀ j ft, u j = some ft → ∃ ft2, v j = some ft2 ∧ ft2.ptrinode = ft.ptrinode

/-- The inode `y` has the name, type, link count and `FileSize` of `x`, and a
live buffer of the same size when `x` has one. -/
def sameKind (x y : INODE) : Prop :=
  y.FileName = x.FileName ∧ y.FileType = x.FileType ∧ y.LinkCount = x.LinkCount ∧
  y.FileSize = x.FileSize ∧
  ∀ size bytes, x.Buffer = BufferPtr.live size bytes → ∃ b, y.Buffer = BufferPtr.live size b

/-- A call that overwrites at most one inode by one of the same kind and
leaves every occupied slot occupied on its inode. -/
def benign (s t : State) : Prop :=
  (t.head = s.head ∨
    ∃ k x y, s.head[k]? = some x ∧ t.head = s.head.set k y ∧ sameKind x y) ∧
  keepsSlots s.UFDTArr t.UFDTArr

/-- The REGULAR inodes have link count 1, `FileSize` 2048 and a live buffer of
2048 bytes; the inodes of type 0 have a link count of at most 0. -/
def inodeInv (x : INODE) : Prop :=
  (x.FileType = REGULAR →
    x.LinkCount = 1 ∧ x.FileSize = MAXFILESIZE ∧
      ∃ bytes, x.Buffer = BufferPtr.live 2048 bytes) ∧
  (x.FileType = 0 → x.LinkCount ≤ 0)

/-- No inode bears the name of a REGULAR inode at another position. -/
def uniqueNames (l : List INODE) : Prop :=
  ∀ (k j : Nat) (x y : INODE), l[k]? = some x → l[j]? = some y → x.FileType = REGULAR →
    y.FileName = x.FileName → j = k

/-- Every REGULAR inode is pointed to by the handle of an occupied slot. -/
def hasHandle (s : State) : Prop :=
  ∀ (k : Nat) (x : INODE), s.head[k]? = some x → x.FileType = REGULAR →
    ∃ i ft, i < 50 ∧ s.UFDTArr i = some ft ∧ ft.ptrinode = k

/-- The three facts together. -/
def fileInv (s : State) : Prop :=
  (∀ x ∈ s.head, inodeInv x) ∧ uniqueNames s.head ∧ hasHandle s

/-! ## Further inputs and observers -/

/-- The state after `CreateFile("a", 3)` and `CreateFile("b", 3)` on the
initial state with a zeroed heap: inodes 1 and 2 and descriptors 0 and 1 are
taken. -/
def afterCreateAB : State :=
  setInode (setSlot (decFree (afterCreateA 3)) 1 (some (createdTable 3 1))) 1
    (createdInode (newInode zeroInode 2) nameB 3 zeroBytes)

/-- `CreateFile("a", 3)` followed by 49 calls of `OpenFile("a", 1)`. -/
def fillSlots : List Op :=
  Op.create (some nameA) 3 zeroBytes :: List.replicate 49 (Op.openf (some nameA) 1 zeroTable)

/-- Whether the slots `0..49` are all occupied. -/
def allOccupied (s : State) : Bool :=
  (List.range 50).all (fun i => (s.UFDTArr i).isSome)

/-- The name of the inode at position `k`. -/
def nameAt (s : State) (k : Nat) : Option (List Char) :=
  (s.head[k]?).map (fun ino => ino.FileName)

/-- The reference count of the inode that the handle in slot `i` points to. -/
def refCountOfSlot (s : State) (i : Nat) : Option Int :=
  (s.UFDTArr i).bind (fun ft => (inodeOf s ft).map (fun ino => ino.ReferenceCount))

/-! ## Basic facts about the state updates -/

@[simp] theorem setSlot_head (s : State) (i : Nat) (v : Option FILETABLE) :
    (setSlot s i v).head = s.head := rfl

@[simp] theorem setSlot_super (s : State) (i : Nat) (v : Option FILETABLE) :
    (setSlot s i v).SUPERBLOCKobj = s.SUPERBLOCKobj := rfl

@[simp] theorem setSlot_same (s : State) (i : Nat) (v : Option FILETABLE) :
    (setSlot s i v).UFDTArr i = v := by
  simp [setSlot]

theorem setSlot_other (s : State) (i j : Nat) (v : Option FILETABLE) (h : j ≠ i) :
    (setSlot s i v).UFDTArr j = s.UFDTArr j := by
  simp [setSlot, h]

@[simp] theorem decFree_head (s : State) : (decFree s).head = s.head := rfl

@[simp] theorem decFree_UFDTArr (s : State) : (decFree s).UFDTArr = s.UFDTArr := rfl

@[simp] theorem decFree_free (s : State) :
    (decFree s).SUPERBLOCKobj.FreeInode = s.SUPERBLOCKobj.FreeInode - 1 := rfl

@[simp] theorem decFree_total (s : State) :
    (decFree s).SUPERBLOCKobj.TotalInodes = s.SUPERBLOCKobj.TotalInodes := rfl

@[simp] theorem incFree_head (s : State) : (incFree s).head = s.head := rfl

@[simp] theorem incFree_UFDTArr (s : State) : (incFree s).UFDTArr = s.UFDTArr := rfl

@[simp] theorem incFree_free (s : State) :
    (incFree s).SUPERBLOCKobj.FreeInode = s.SUPERBLOCKobj.FreeInode + 1 := rfl

@[simp] theorem incFree_total (s : State) :
    (incFree s).SUPERBLOCKobj.TotalInodes = s.SUPERBLOCKobj.TotalInodes := rfl

@[simp] theorem firstNull_decFree (s : State) : firstNull (decFree s) = firstNull s := rfl

@[simp] theorem setInode_head (s : State) (k : Nat) (ino : INODE) :
    (setInode s k ino).head = s.head.set k ino := rfl

@[simp] theorem setInode_super (s : State) (k : Nat) (ino : INODE) :
    (setInode s k ino).SUPERBLOCKobj = s.SUPERBLOCKobj := rfl

@[simp] theorem setInode_UFDTArr (s : State) (k : Nat) (ino : INODE) :
    (setInode s k ino).UFDTArr = s.UFDTArr := rfl

/-- A list of calls run from a reachable state ends in a reachable state. -/
theorem run_reachable {s t : State} (ops : List Op) (hs : Reachable s)
    (h : run s ops = some t) : Reachable t := by
  induction ops generalizing s with
  | nil =>
    simp only [run, Option.some.injEq] at h
    exact h ▸ hs
  | cons op rest ih =>
    simp only [run] at h
    split at h
    · exact absurd h (by simp)
    · next r u hu => exact ih (Reachable.step op hs hu) h

/-- A state that a closed run ends in, with a property checked by evaluation. -/
theorem run_check {s0 : State} {ops : List Op} (p : State → Bool)
    (h : (run s0 ops).map p = some true) : ∃ s, run s0 ops = some s ∧ p s = true := by
  cases hr : run s0 ops with
  | none => simp [hr] at h
  | some s => exact ⟨s, rfl, by simpa [hr] using h⟩

/-! ## Facts about the lookups -/

theorem findName_some_of_mem {l : List INODE} {name : List Char}
    (h : ∃ x ∈ l, x.FileName = name) : ∃ k, findName l name = some k := by
  induction l with
  | nil => simp at h
  | cons x t ih =>
    by_cases hx : x.FileName = name
    · exact ⟨0, by simp [findName, hx]⟩
    · have ht : ∃ y ∈ t, y.FileName = name := by
        obtain ⟨y, hy, hyn⟩ := h
        rcases List.mem_cons.mp hy with rfl | hy
        · exact absurd hyn hx
        · exact ⟨y, hy, hyn⟩
      obtain ⟨k, hk⟩ := ih ht
      exact ⟨k + 1, by simp [findName, hx, hk]⟩

/-- What `findName` returns is a position in the list, its inode bears the
name, and no earlier inode does. -/
theorem findName_spec {l : List INODE} {name : List Char} {k : Nat}
    (h : findName l name = some k) :
    ∃ x, l[k]? = some x ∧ x.FileName = name ∧
      ∀ j y, j < k → l[j]? = some y → y.FileName ≠ name := by
  induction l generalizing k with
  | nil => simp [findName] at h
  | cons x t ih =>
    by_cases hx : x.FileName = name
    · simp only [findName, hx, if_true, Option.some.injEq] at h
      subst h
      exact ⟨x, by simp, hx, fun j y hj => absurd hj (Nat.not_lt_zero j)⟩
    · simp only [findName, hx, if_false, Option.map_eq_some'] at h
      obtain ⟨k0, hk0, rfl⟩ := h
      obtain ⟨y, hy, hyn, hmin⟩ := ih hk0
      refine ⟨y, by simpa using hy, hyn, ?_⟩
      intro j z hj hz
      cases j with
      | zero =>
        simp only [List.getElem?_cons_zero, Option.some.injEq] at hz
        exact hz ▸ hx
      | succ j =>
        simp only [List.getElem?_cons_succ] at hz
        exact hmin j z (by omega) hz

theorem findName_none_iff {l : List INODE} {name : List Char} :
    findName l name = none ↔ ∀ x ∈ l, x.FileName ≠ name := by
  induction l with
  | nil => simp [findName]
  | cons x t ih =>
    by_cases hx : x.FileName = name
    · simp [findName, hx]
    · simp [findName, hx, ih]

/-- The first inode that bears the name, when no earlier one does. -/
theorem findName_eq_of_first {l : List INODE} {name : List Char} {k : Nat} {x : INODE}
    (hk : l[k]? = some x) (hx : x.FileName = name)
    (hmin : ∀ j y, j < k → l[j]? = some y → y.FileName ≠ name) :
    findName l name = some k := by
  induction l generalizing k with
  | nil => simp at hk
  | cons y t ih =>
    cases k with
    | zero =>
      simp only [List.getElem?_cons_zero, Option.some.injEq] at hk
      subst hk
      simp [findName, hx]
    | succ k =>
      have hy : y.FileName ≠ name := hmin 0 y (Nat.succ_pos k) (by simp)
      simp only [List.getElem?_cons_succ] at hk
      have := ih hk (fun j z hj hz => hmin (j + 1) z (by omega) (by simpa using hz))
      simp [findName, hy, this]

theorem firstFree_spec {l : List INODE} {k : Nat} (h : firstFree l = some k) :
    ∃ x, l[k]? = some x ∧ x.FileType = 0 := by
  induction l generalizing k with
  | nil => simp [firstFree] at h
  | cons x t ih =>
    by_cases hx : x.FileType = 0
    · simp only [firstFree, hx, if_true, Option.some.injEq] at h
      subst h
      exact ⟨x, by simp, hx⟩
    · simp only [firstFree, hx, if_false, Option.map_eq_some'] at h
      obtain ⟨k0, hk0, rfl⟩ := h
      obtain ⟨y, hy, hyt⟩ := ih hk0
      exact ⟨y, by simpa using hy, hyt⟩

theorem scanNull_ge (u : Nat → Option FILETABLE) (n i : Nat) : i ≤ scanNull u n i := by
  induction n generalizing i with
  | zero => simp [scanNull]
  | succ n ih =>
    simp only [scanNull]
    split
    · exact Nat.le_refl i
    · exact Nat.le_trans (Nat.le_succ i) (ih (i + 1))

theorem scanNull_le (u : Nat → Option FILETABLE) (n i : Nat) : scanNull u n i ≤ i + n := by
  induction n generalizing i with
  | zero => simp [scanNull]
  | succ n ih =>
    simp only [scanNull]
    split
    · omega
    · have := ih (i + 1)
      omega

/-- When the loop stops before its bound it stops on a `NULL` slot. -/
theorem scanNull_none (u : Nat → Option FILETABLE) (n i : Nat)
    (h : scanNull u n i < i + n) : u (scanNull u n i) = none := by
  induction n generalizing i with
  | zero => simp [scanNull] at h
  | succ n ih =>
    simp only [scanNull] at h ⊢
    split
    · next hi => simpa using hi
    · next hi =>
      rw [if_neg hi] at h
      exact ih (i + 1) (by omega)

/-- Every slot the loop passes is occupied. -/
theorem scanNull_passed (u : Nat → Option FILETABLE) (n i j : Nat)
    (hij : i ≤ j) (hj : j < scanNull u n i) : u j ≠ none := by
  induction n generalizing i with
  | zero =>
    simp only [scanNull] at hj
    omega
  | succ n ih =>
    simp only [scanNull] at hj
    split at hj
    · omega
    · next hi =>
      rcases Nat.eq_or_lt_of_le hij with rfl | hlt
      · simpa using hi
      · exact ih (i + 1) hlt hj

/-- A `NULL` slot in range makes the loop stop at or before it. -/
theorem scanNull_le_of_none (u : Nat → Option FILETABLE) (n i j : Nat)
    (hij : i ≤ j) (hj : u j = none) : scanNull u n i ≤ j := by
  by_contra hcon
  exact scanNull_passed u n i j hij (by omega) hj

theorem firstNull_lt_of_none (s : State) (j : Nat) (hj : j < 50) (h : s.UFDTArr j = none) :
    firstNull s < 50 := by
  have := scanNull_le_of_none s.UFDTArr 50 0 j (Nat.zero_le j) h
  unfold firstNull
  omega

theorem initState_head (heap : Nat → INODE) :
    ∃ rest, (initState heap).head = newInode (heap 0) 1 :: rest := ⟨_, rfl⟩

theorem initState_free (heap : Nat → INODE) : (initState heap).SUPERBLOCKobj.FreeInode = 50 := rfl

theorem initState_slot (heap : Nat → INODE) (j : Nat) :
    (initState heap).UFDTArr j = none := by
  simp [initState, CreateDILB, InitialiseSuperBlock, boot]

/-- `CreateFile` on a name that some inode bears, with free inodes left. -/
theorem CreateFile_existing (s : State) (n : List Char) (p : Int) (raw : Nat → Char)
    (hfree : 0 < s.SUPERBLOCKobj.FreeInode) (hex : ∃ ino ∈ s.head, ino.FileName = n)
    (hp : p = 1 ∨ p = 2 ∨ p = 3) :
    CreateFile s (some n) p raw = some (-3, decFree s) := by
  obtain ⟨k, hk⟩ := findName_some_of_mem hex
  have hp0 : ¬ (p = 0 ∨ p > 3) := by omega
  have hf0 : ¬ s.SUPERBLOCKobj.FreeInode = 0 := by omega
  simp [CreateFile, hp0, hf0, Get_Inode, hk]

theorem initState_head_eq (heap : Nat → INODE) :
    (initState heap).head
      = (List.range 50).map (fun k => newInode (heap k) ((k : Int) + 1)) := rfl

/-- No inode of the initial state bears a name that the fresh heap does not
hold in its first 50 blocks. -/
theorem findName_initState (heap : Nat → INODE) (nm : List Char)
    (h : ∀ k, k < 50 → (heap k).FileName ≠ nm) :
    findName (initState heap).head nm = none := by
  rw [findName_none_iff, initState_head_eq]
  intro x hx
  obtain ⟨k, hk, rfl⟩ := List.mem_map.mp hx
  exact h k (List.mem_range.mp hk)

/-- `CreateFile` on the initial state, for a name that no inode bears: inode 1
and descriptor 0 are taken. -/
theorem CreateFile_init_fresh (heap : Nat → INODE) (nm : List Char) (p : Int)
    (raw : Nat → Char) (hp : ¬ (p = 0 ∨ p > 3)) (hlen : nm.length < 50)
    (hfn : findName (initState heap).head nm = none) :
    CreateFile (initState heap) (some nm) p raw = some (0,
      setInode (setSlot (decFree (initState heap)) 0 (some (createdTable p 0))) 0
        (createdInode (newInode (heap 0) 1) nm p raw)) := by
  obtain ⟨rest, hrest⟩ := initState_head heap
  have hff : firstFree (initState heap).head = some 0 := by
    rw [hrest]
    simp [firstFree, newInode]
  have h0 : (initState heap).head[0]? = some (newInode (heap 0) 1) := by
    rw [hrest]
    simp
  have hnull : firstNull (initState heap) = 0 := by
    have := scanNull_le_of_none (initState heap).UFDTArr 50 0 0 (Nat.le_refl 0)
      (initState_slot heap 0)
    unfold firstNull
    omega
  simp only [CreateFile, hp, Get_Inode, decFree_head, hfn, hff, firstNull_decFree, hnull,
    h0, initState_free, hlen]
  rfl

/-- The first `CreateFile("a", p)` from the initial state returns, and leaves
an inode named `"a"` and 49 free inodes. -/
theorem CreateFile_init (heap : Nat → INODE) (p : Int) (raw : Nat → Char)
    (hp : p = 1 ∨ p = 2 ∨ p = 3) :
    ∃ r s1, CreateFile (initState heap) (some nameA) p raw = some (r, s1) ∧
      s1.SUPERBLOCKobj.FreeInode = 49 ∧ ∃ ino ∈ s1.head, ino.FileName = nameA := by
  obtain ⟨rest, hrest⟩ := initState_head heap
  have hp0 : ¬ (p = 0 ∨ p > 3) := by omega
  cases hfn : findName (initState heap).head nameA with
  | some k =>
    refine ⟨-3, decFree (initState heap), ?_, rfl, ?_⟩
    · simp [CreateFile, hp0, Get_Inode, hfn, initState_free]
    · obtain ⟨x, hx, hxn, -⟩ := findName_spec hfn
      exact ⟨x, List.getElem?_mem hx, hxn⟩
  | none =>
    refine ⟨0, setInode (setSlot (decFree (initState heap)) 0 (some (createdTable p 0))) 0
      (createdInode (newInode (heap 0) 1) nameA p raw),
      CreateFile_init_fresh heap nameA p raw hp0 (by decide) hfn, rfl, ?_⟩
    · exact ⟨_, List.mem_set _ 0 (by rw [setSlot_head, decFree_head, hrest]; simp) _, rfl⟩

/-- What a successful `CreateFile` did: no inode bore the name, the first
inode with `FileType == 0` and the first `NULL` slot were taken. -/
theorem CreateFile_success {s s1 : State} {nm : List Char} {p : Int} {raw : Nat → Char}
    {fd : Int} (hc : CreateFile s (some nm) p raw = some (fd, s1)) (hfd : 0 ≤ fd) :
    ∃ t ino, findName s.head nm = none ∧ firstFree s.head = some t ∧ s.head[t]? = some ino ∧
      firstNull s < 50 ∧ fd = (firstNull s : Int) ∧ nm.length < 50 ∧
      s.SUPERBLOCKobj.FreeInode ≠ 0 ∧ ¬ (p = 0 ∨ p > 3) ∧
      s1 = setInode (setSlot (decFree s) (firstNull s) (some (createdTable p t))) t
        (createdInode ino nm p raw) := by
  simp only [CreateFile] at hc
  split at hc
  · simp only [Option.some.injEq, Prod.mk.injEq] at hc
    omega
  · next hp =>
    split at hc
    · simp only [Option.some.injEq, Prod.mk.injEq] at hc
      omega
    · next hfree =>
      simp only [Get_Inode, decFree_head, firstNull_decFree] at hc
      split at hc
      · simp only [Option.some.injEq, Prod.mk.injEq] at hc
        omega
      · next hfn =>
        split at hc
        · exact absurd hc (by simp)
        · next t ht =>
          split at hc
          · next hi =>
            split at hc
            · exact absurd hc (by simp)
            · next ino hino =>
              simp only [Option.some.injEq, Prod.mk.injEq] at hc
              exact ⟨t, ino, hfn, ht, hino, hi.1, hc.1.symm, hi.2, hfree, hp, hc.2.symm⟩
          · exact absurd hc (by simp)

/-- After a successful `CreateFile(name, p)` the lookup of `name` finds the
inode that was taken, and its permission is `p`. -/
theorem findName_after_create (ino1 : INODE) {s : State} {nm : List Char} {t : Nat}
    {ino : INODE}
    (hfn : findName s.head nm = none) (hino : s.head[t]? = some ino)
    (hname : ino1.FileName = nm) :
    findName (s.head.set t ino1) nm = some t ∧ (s.head.set t ino1)[t]? = some ino1 := by
  have hlt : t < s.head.length := by
    by_contra hcon
    rw [List.getElem?_eq_none (by omega)] at hino
    exact absurd hino (by simp)
  have hget : (s.head.set t ino1)[t]? = some ino1 := by
    simp [List.getElem?_set_self hlt]
  refine ⟨findName_eq_of_first hget hname ?_, hget⟩
  intro j y hj hy
  rw [List.getElem?_set_ne (by omega)] at hy
  exact (findName_none_iff.mp hfn) y (List.getElem?_mem hy)

/-! ## Facts about `strncpy`, `ReadFile` and `WriteFile` -/

/-- A copy of `n` characters out of a region that holds no NUL and lies inside
the object is the region itself. -/
theorem strncpy_of_no_nul (mem : Nat → Char) (size : Nat) (n off : Nat)
    (hfit : off + n ≤ size) (hnn : ∀ j, off ≤ j → j < off + n → mem j ≠ NUL) :
    strncpy mem size off n = some ((List.range n).map (fun j => mem (off + j))) := by
  induction n generalizing off with
  | zero => simp [strncpy]
  | succ n ih =>
    have h1 : off < size := by omega
    have h2 : mem off ≠ NUL := hnn off (Nat.le_refl off) (by omega)
    have h3 := ih (off + 1) (by omega) (fun j hj1 hj2 => hnn j (by omega) (by omega))
    simp only [strncpy, h1, h2, h3, if_true, if_false, Option.map_some', List.range_succ_eq_map,
      List.map_cons, List.map_map, Nat.add_zero, Option.some.injEq, List.cons.injEq, true_and]
    apply List.map_congr_left
    intro j _
    simp only [Function.comp_apply]
    congr 1
    omega

/-- A list is the table of its own entries. -/
theorem range_map_eq (B : List Char) (f : Nat → Char)
    (h : ∀ j (hj : j < B.length), f j = B[j]) : (List.range B.length).map f = B := by
  apply List.ext_getElem
  · simp
  · intro j h1 h2
    simp only [List.getElem_map, List.getElem_range]
    exact h j h2

/-- Copying `B.length` characters out of an object that starts with the
NUL-free characters `B` gives `B`. -/
theorem strncpy_prefix (B rest : List Char) (hnul : NUL ∉ B) :
    strncpy (memOf (B ++ rest)) (B ++ rest).length 0 B.length = some B := by
  have hmem : ∀ j (hj : j < B.length), memOf (B ++ rest) j = B[j] := by
    intro j hj
    simp [memOf, List.getD_eq_getElem?_getD, List.getElem?_append_left hj,
      List.getElem?_eq_getElem hj]
  rw [strncpy_of_no_nul _ _ _ _ (by simp)]
  · simp only [Nat.zero_add]
    rw [range_map_eq B _ hmem]
  · intro j _ hj
    have hj2 : j < B.length := by omega
    rw [hmem j hj2]
    exact fun hcon => hnul (hcon ▸ List.getElem_mem hj2)

/-- The stored characters are read back from the block. -/
theorem storeAt_get (bytes : Nat → Char) (off : Nat) (w : List Char) (j : Nat)
    (hj : j < w.length) : storeAt bytes off w (off + j) = w[j] := by
  simp [storeAt, hj, List.getD_eq_getElem?_getD, List.getElem?_eq_getElem hj]

theorem slotAt_cast (s : State) (i : Nat) (hi : i < 50) :
    slotAt s (i : Int) = some (s.UFDTArr i) := by
  have h : (0 : Int) ≤ (i : Int) ∧ (i : Int) < 50 := ⟨Int.ofNat_nonneg i, by omega⟩
  simp [slotAt, h]

/-- `WriteFile` on an occupied slot whose checks all pass. -/
theorem WriteFile_ok (arr w : List Char) (isize : Int) {s : State} {fd : Int}
    {ft : FILETABLE} {ino : INODE} {size : Nat} {bytes : Nat → Char}
    (hslot : slotAt s fd = some (some ft)) (hino : inodeOf s ft = some ino)
    (hmode : ft.mode = WRITE ∨ ft.mode = READ + WRITE)
    (hperm : ino.permission = WRITE ∨ ino.permission = READ + WRITE)
    (hwo : ft.writeoffset ≠ MAXFILESIZE) (htype : ino.FileType = REGULAR)
    (hbuf : ino.Buffer = BufferPtr.live size bytes)
    (hrange : 0 ≤ isize ∧ 0 ≤ ft.writeoffset ∧ ft.writeoffset + isize ≤ size)
    (hint : inInt (ft.writeoffset + isize) ∧ inInt (ino.FileActualSize + isize))
    (hcpy : strncpy (memOf arr) arr.length 0 isize.toNat = some w) :
    WriteFile s fd arr isize = some (isize,
      setInode (setSlot s fd.toNat (some { ft with writeoffset := ft.writeoffset + isize }))
        ft.ptrinode
        { ino with
          Buffer := BufferPtr.live size (storeAt bytes ft.writeoffset.toNat w)
          FileActualSize := ino.FileActualSize + isize }) := by
  have h1 : ¬ (ft.mode ≠ WRITE ∧ ft.mode ≠ READ + WRITE) := by
    rcases hmode with h | h <;> simp [h]
  have h2 : ¬ (ino.permission ≠ WRITE ∧ ino.permission ≠ READ + WRITE) := by
    rcases hperm with h | h <;> simp [h]
  simp only [WriteFile, hslot, hino, h1, h2, hwo, htype, if_false, ne_eq, not_true_eq_false]
  rw [hbuf]
  simp only [hrange, and_self, if_true, hcpy]
  rw [if_pos hint]

/-- `ReadFile` on an occupied slot whose checks all pass. -/
theorem ReadFile_ok (out : List Char) (isize : Int) {s : State} {fd : Int}
    {ft : FILETABLE} {ino : INODE} {size : Nat} {bytes : Nat → Char}
    (hslot : slotAt s fd = some (some ft)) (hino : inodeOf s ft = some ino)
    (hmode : ft.mode = READ ∨ ft.mode = READ + WRITE)
    (hperm : ino.permission = READ ∨ ino.permission = READ + WRITE)
    (heof : ft.readoffset ≠ ino.FileActualSize) (htype : ino.FileType = REGULAR)
    (hbuf : ino.Buffer = BufferPtr.live size bytes)
    (hrange : 0 ≤ (if ino.FileActualSize - ft.readoffset < isize
        then ino.FileActualSize - ft.readoffset else isize) ∧
      0 ≤ ft.readoffset ∧ ft.readoffset ≤ size)
    (hcpy : strncpy bytes size ft.readoffset.toNat
      (if ino.FileActualSize - ft.readoffset < isize
        then ino.FileActualSize - ft.readoffset else isize).toNat = some out) :
    ReadFile s fd isize = some (isize, out,
      setSlot s fd.toNat (some { ft with readoffset := ft.readoffset +
        (if ino.FileActualSize - ft.readoffset < isize
          then ino.FileActualSize - ft.readoffset else isize) })) := by
  have h1 : ¬ (ft.mode ≠ READ ∧ ft.mode ≠ READ + WRITE) := by
    rcases hmode with h | h <;> simp [h]
  have h2 : ¬ (ino.permission ≠ READ ∧ ino.permission ≠ READ + WRITE) := by
    rcases hperm with h | h <;> simp [h]
  simp only [ReadFile, hslot, hino, h1, h2, heof, htype, if_false, ne_eq, not_true_eq_false]
  rw [hbuf]
  simp only [hrange, and_self, if_true, hcpy]

theorem getElem?_set_of_some {l : List INODE} {k : Nat} {x : INODE} (y : INODE)
    (h : l[k]? = some x) : (l.set k y)[k]? = some y := by
  have hlt : k < l.length := by
    by_contra hcon
    rw [List.getElem?_eq_none (by omega)] at h
    exact absurd h (by simp)
  simp [List.getElem?_set_self hlt]

theorem MAXFILESIZE_toNat : MAXFILESIZE.toNat = 2048 := rfl

/-! ## The free-inode counter -/

/-- A successful `CreateFile` lowers `FreeInode` by one. -/
theorem CreateFile_free {s t : State} {nm : List Char} {p : Int} {raw : Nat → Char} {r : Int}
    (h : CreateFile s (some nm) p raw = some (r, t)) (hr : 0 ≤ r) :
    t.SUPERBLOCKobj.FreeInode = s.SUPERBLOCKobj.FreeInode - 1 := by
  obtain ⟨k, ino, -, -, -, -, -, -, -, -, ht⟩ := CreateFile_success h hr
  rw [ht]
  rfl

/-- A successful `rm_File` raises `FreeInode` by one. -/
theorem rm_File_free {s t : State} {nm : List Char}
    (h : rm_File s nm = some (0, t)) :
    t.SUPERBLOCKobj.FreeInode = s.SUPERBLOCKobj.FreeInode + 1 := by
  simp only [rm_File] at h
  split at h
  · simp at h
  · split at h
    · exact absurd h (by simp)
    · split at h
      · exact absurd h (by simp)
      · split at h
        · split at h
          · exact absurd h (by simp)
          · simp only [Option.some.injEq, Prod.mk.injEq, true_and] at h
            rw [← h]
            rfl
        · simp only [Option.some.injEq, Prod.mk.injEq, true_and] at h
          rw [← h]
          rfl

theorem createAll_free {s t : State} (cs : List (List Char × Int × (Nat → Char)))
    (h : createAll s cs = some t) :
    t.SUPERBLOCKobj.FreeInode = s.SUPERBLOCKobj.FreeInode - cs.length := by
  induction cs generalizing s with
  | nil =>
    simp only [createAll, Option.some.injEq] at h
    simp [h]
  | cons c rest ih =>
    simp only [createAll] at h
    split at h
    · exact absurd h (by simp)
    · next r u hu =>
      split at h
      · next hr =>
        rw [ih h, CreateFile_free hu hr, List.length_cons]
        push_cast
        omega
      · exact absurd h (by simp)

theorem rmAll_free {s t : State} (names : List (List Char)) (h : rmAll s names = some t) :
    t.SUPERBLOCKobj.FreeInode = s.SUPERBLOCKobj.FreeInode + names.length := by
  induction names generalizing s with
  | nil =>
    simp only [rmAll, Option.some.injEq] at h
    simp [h]
  | cons nm rest ih =>
    simp only [rmAll] at h
    split at h
    · exact absurd h (by simp)
    · next r u hu =>
      split at h
      · next hr =>
        subst hr
        rw [ih h, rm_File_free hu, List.length_cons]
        push_cast
        omega
      · exact absurd h (by simp)

/-! ## How each operation changes the inode list -/

theorem CreateFile_head {s t : State} {name : Option (List Char)} {p r : Int}
    {raw : Nat → Char} (h : CreateFile s name p raw = some (r, t)) :
    t.head = s.head ∨ ∃ k ino nm, s.head[k]? = some ino ∧
      t.head = s.head.set k (createdInode ino nm p raw) := by
  simp only [CreateFile] at h
  repeat' split at h
  all_goals cases h
  all_goals first
    | (left; rfl)
    | (right; exact ⟨_, _, _, by assumption, rfl⟩)

theorem OpenFile_head {s t : State} {name : Option (List Char)} {m r : Int}
    {raw : FILETABLE} (h : OpenFile s name m raw = some (r, t)) :
    t.head = s.head ∨ ∃ k ino, s.head[k]? = some ino ∧
      t.head = s.head.set k { ino with ReferenceCount := ino.ReferenceCount + 1 } := by
  simp only [OpenFile] at h
  repeat' split at h
  all_goals cases h
  all_goals first
    | (left; rfl)
    | (right; exact ⟨_, _, by assumption, rfl⟩)

theorem ReadFile_head {s t : State} {fd isize r : Int} {out : List Char}
    (h : ReadFile s fd isize = some (r, out, t)) : t.head = s.head := by
  simp only [ReadFile] at h
  repeat' split at h
  all_goals cases h
  all_goals rfl

theorem WriteFile_head {s t : State} {fd isize r : Int} {arr : List Char}
    (h : WriteFile s fd arr isize = some (r, t)) :
    t.head = s.head ∨ ∃ ft ino size bytes w, slotAt s fd = some (some ft) ∧
      inodeOf s ft = some ino ∧ ino.FileType = REGULAR ∧ 0 ≤ isize ∧
      ino.FileActualSize + isize ≤ INT_MAX ∧
      t.head = s.head.set ft.ptrinode
        { ino with
          Buffer := BufferPtr.live size (storeAt bytes ft.writeoffset.toNat w)
          FileActualSize := ino.FileActualSize + isize } := by
  simp only [WriteFile] at h
  repeat' split at h
  all_goals cases h
  all_goals first
    | (left; rfl)
    | (right
       exact ⟨_, _, _, _, _, by assumption, by assumption, by
         simp only [REGULAR] at *
         omega, by omega, by
         simp only [inInt] at *
         omega, rfl⟩)

theorem seekRead_shape {s t : State} {fd size frm r : Int} {ft : FILETABLE}
    (h : seekRead s fd ft size frm = some (r, t)) :
    t = s ∨ ∃ v, t = setSlot s fd.toNat (some { ft with readoffset := v }) := by
  simp only [seekRead] at h
  repeat' split at h
  all_goals cases h
  all_goals first
    | exact Or.inl rfl
    | exact Or.inr ⟨_, rfl⟩

theorem seekWrite_shape {s t : State} {fd size frm r : Int} {ft : FILETABLE}
    (h : seekWrite s fd ft size frm = some (r, t)) :
    t = s ∨ (∃ v, t = setSlot s fd.toNat (some { ft with writeoffset := v })) ∨
      ∃ ino v, inodeOf s ft = some ino ∧ ino.FileActualSize < v ∧ v ≤ MAXFILESIZE ∧
        t = setInode (setSlot s fd.toNat (some { ft with writeoffset := v })) ft.ptrinode
          { ino with FileActualSize := v } := by
  simp only [seekWrite] at h
  repeat' split at h
  all_goals cases h
  all_goals first
    | exact Or.inl rfl
    | exact Or.inr (Or.inl ⟨_, rfl⟩)
    | (right
       right
       simp only [MAXFILESIZE] at *
       exact ⟨_, _, by assumption, by omega, by omega, rfl⟩)

/-- What a call of `LseekFile` that returns does to the state: nothing, or it
replaces one offset of the handle in slot `fd`, and for a handle in mode WRITE
it may raise `FileActualSize` of the inode to the new write offset. -/
theorem LseekFile_shape {s t : State} {fd size frm r : Int}
    (h : LseekFile s fd size frm = some (r, t)) :
    t = s ∨ ∃ ft, slotAt s fd = some (some ft) ∧
      ((∃ v, t = setSlot s fd.toNat (some { ft with readoffset := v })) ∨
       (∃ v, t = setSlot s fd.toNat (some { ft with writeoffset := v })) ∨
       ∃ ino v, inodeOf s ft = some ino ∧ ino.FileActualSize < v ∧ v ≤ MAXFILESIZE ∧
        t = setInode (setSlot s fd.toNat (some { ft with writeoffset := v })) ft.ptrinode
          { ino with FileActualSize := v }) := by
  simp only [LseekFile] at h
  split at h
  · cases h
    exact Or.inl rfl
  · split at h
    · cases h
    · cases h
      exact Or.inl rfl
    · next ft hft =>
      split at h
      · rcases seekRead_shape h with h1 | h1
        · exact Or.inl h1
        · exact Or.inr ⟨ft, hft, Or.inl h1⟩
      · split at h
        · rcases seekWrite_shape h with h1 | h1 | h1
          · exact Or.inl h1
          · exact Or.inr ⟨ft, hft, Or.inr (Or.inl h1)⟩
          · exact Or.inr ⟨ft, hft, Or.inr (Or.inr h1)⟩
        · cases h
          exact Or.inl rfl

theorem LseekFile_head {s t : State} {fd size frm r : Int}
    (h : LseekFile s fd size frm = some (r, t)) :
    t.head = s.head ∨ ∃ k ino v, s.head[k]? = some ino ∧ ino.FileActualSize < v ∧
      v ≤ MAXFILESIZE ∧ t.head = s.head.set k { ino with FileActualSize := v } := by
  rcases LseekFile_shape h with
    rfl | ⟨ft, -, ⟨v, rfl⟩ | ⟨v, rfl⟩ | ⟨ino, v, hi, h1, h2, rfl⟩⟩
  · exact Or.inl rfl
  · exact Or.inl rfl
  · exact Or.inl rfl
  · exact Or.inr ⟨_, _, _, hi, h1, h2, rfl⟩

theorem closeSlot_head {s t : State} {i : Nat} (h : closeSlot s i = some t) :
    ∃ k ino, s.head[k]? = some ino ∧
      t.head = s.head.set k { ino with ReferenceCount := ino.ReferenceCount - 1 } := by
  simp only [closeSlot] at h
  repeat' split at h
  all_goals cases h
  exact ⟨_, _, by assumption, rfl⟩

theorem rm_File_head {s t : State} {name : List Char} {r : Int}
    (h : rm_File s name = some (r, t)) :
    t.head = s.head ∨ ∃ k ino, s.head[k]? = some ino ∧
      (t.head = s.head.set k { ino with LinkCount := ino.LinkCount - 1 } ∨
       ∃ b, t.head = s.head.set k
        { ino with LinkCount := ino.LinkCount - 1, FileType := 0, Buffer := b }) := by
  simp only [rm_File] at h
  repeat' split at h
  all_goals cases h
  all_goals first
    | (left; rfl)
    | (right; exact ⟨_, _, by assumption, Or.inl rfl⟩)
    | (right; exact ⟨_, _, by assumption, Or.inr ⟨_, rfl⟩⟩)

theorem truncate_File_head {s t : State} {name : List Char} {r : Int}
    (h : truncate_File s name = some (r, t)) :
    t.head = s.head ∨ ∃ k ino b, s.head[k]? = some ino ∧
      t.head = s.head.set k { ino with Buffer := b, FileActualSize := 0 } := by
  simp only [truncate_File] at h
  repeat' split at h
  all_goals cases h
  all_goals first
    | (left; rfl)
    | (right; exact ⟨_, _, _, by assumption, rfl⟩)

/-- A property of all inodes survives the overwriting of one inode by an
inode that has the property. -/
theorem forall_mem_set {P : INODE → Prop} {l : List INODE} {k : Nat} {y : INODE}
    (h : ∀ x ∈ l, P x) (hy : P y) : ∀ x ∈ l.set k y, P x := by
  intro x hx
  rcases List.mem_or_eq_of_mem_set hx with hmem | rfl
  · exact h x hmem
  · exact hy

/-! ## The size bounds are kept by every call -/

theorem sizeInv_initState (b : Bool) (heap : Nat → INODE) :
    ∀ x ∈ (initState heap).head, sizeInv b x := by
  rw [initState_head_eq]
  intro x hx
  obtain ⟨k, -, rfl⟩ := List.mem_map.mp hx
  intro hreg
  exact absurd hreg (by simp [newInode, REGULAR])

theorem sizeInv_step (b : Bool) {s t : State} {r : Int} (op : Op)
    (h : step s op = some (r, t)) (hfit : b = true → fitsWrite s op = true)
    (hI : ∀ x ∈ s.head, sizeInv b x) : ∀ x ∈ t.head, sizeInv b x := by
  have hclose : ∀ {i : Nat} {u : State}, closeSlot s i = some u →
      ∀ x ∈ u.head, sizeInv b x := by
    intro i u hu
    obtain ⟨k, ino, hk, hhead⟩ := closeSlot_head hu
    rw [hhead]
    exact forall_mem_set hI (hI ino (List.getElem?_mem hk))
  cases op with
  | create name p raw =>
    rcases CreateFile_head h with hh | ⟨k, ino, nm, -, hh⟩
    · rw [hh]; exact hI
    · rw [hh]
      refine forall_mem_set hI ?_
      intro _
      exact ⟨Int.le_refl 0, rfl, fun _ => show (0 : Int) ≤ 2048 by decide,
        show (0 : Int) ≤ 2147483647 by decide⟩
  | openf name m raw =>
    rcases OpenFile_head h with hh | ⟨k, ino, hk, hh⟩
    · rw [hh]; exact hI
    · rw [hh]
      exact forall_mem_set hI (hI ino (List.getElem?_mem hk))
  | read fd n =>
    simp only [step, Option.map_eq_some'] at h
    obtain ⟨⟨r0, out, t0⟩, h0, heq⟩ := h
    simp only [Prod.mk.injEq] at heq
    obtain ⟨-, rfl⟩ := heq
    rw [ReadFile_head h0]
    exact hI
  | write fd arr n =>
    rcases WriteFile_head h with
      hh | ⟨ft, ino, size, bytes, w, hslot, hino, hreg, hn, hmax, hh⟩
    · rw [hh]; exact hI
    · rw [hh]
      refine forall_mem_set hI ?_
      have hold := hI ino (List.getElem?_mem hino) hreg
      intro _
      refine ⟨by show 0 ≤ ino.FileActualSize + n; omega, hold.2.1, ?_, hmax⟩
      intro hb
      have hf := hfit hb
      simp only [fitsWrite, hslot, hino, decide_eq_true_eq] at hf
      exact hf
  | lseek fd size frm =>
    rcases LseekFile_head h with hh | ⟨k, ino, v, hk, hlt, hle, hh⟩
    · rw [hh]; exact hI
    · rw [hh]
      refine forall_mem_set hI ?_
      intro hreg
      have hold := hI ino (List.getElem?_mem hk) hreg
      exact ⟨by show 0 ≤ v; omega, hold.2.1, fun _ => hle, by
        show v ≤ INT_MAX
        simp only [MAXFILESIZE, INT_MAX] at *
        omega⟩
  | closeName name =>
    simp only [step, CloseFileByName] at h
    split at h
    · cases h
      exact hI
    · simp only [Option.map_eq_some'] at h
      obtain ⟨u, hu, heq⟩ := h
      cases heq
      exact hclose hu
  | closeFd fd =>
    simp only [step, CloseFileByFd, Option.map_eq_some'] at h
    obtain ⟨u, hu, heq⟩ := h
    cases heq
    split at hu
    · exact hclose hu
    · exact absurd hu (by simp)
  | closeAll =>
    simp only [step, CloseAllFile, Option.map_eq_some'] at h
    obtain ⟨u, hu, heq⟩ := h
    cases heq
    split at hu
    · cases hu
      exact hI
    · exact hclose hu
  | rm name =>
    rcases rm_File_head h with hh | ⟨k, ino, hk, hh | ⟨b0, hh⟩⟩
    · rw [hh]; exact hI
    · rw [hh]
      exact forall_mem_set hI (hI ino (List.getElem?_mem hk))
    · rw [hh]
      refine forall_mem_set hI ?_
      intro hreg
      exact absurd hreg (by simp [REGULAR])
  | truncate name =>
    rcases truncate_File_head h with hh | ⟨k, ino, b0, hk, hh⟩
    · rw [hh]; exact hI
    · rw [hh]
      refine forall_mem_set hI ?_
      intro hreg
      have hold := hI ino (List.getElem?_mem hk) hreg
      exact ⟨Int.le_refl 0, hold.2.1, fun _ => show (0 : Int) ≤ 2048 by decide,
        show (0 : Int) ≤ 2147483647 by decide⟩

/-! ## The free-inode counter never goes below zero -/

/-- Every call leaves the superblock alone, or lowers a non-zero `FreeInode`
by one, or raises it by one. -/
theorem step_super {s t : State} {r : Int} (op : Op) (h : step s op = some (r, t)) :
    t.SUPERBLOCKobj = s.SUPERBLOCKobj ∨
    (s.SUPERBLOCKobj.FreeInode ≠ 0 ∧ t.SUPERBLOCKobj = (decFree s).SUPERBLOCKobj) ∨
    t.SUPERBLOCKobj = (incFree s).SUPERBLOCKobj := by
  have hclose : ∀ {i : Nat} {u : State}, closeSlot s i = some u →
      u.SUPERBLOCKobj = s.SUPERBLOCKobj := by
    intro i u hu
    simp only [closeSlot] at hu
    repeat' split at hu
    all_goals cases hu
    rfl
  cases op with
  | create name p raw =>
    simp only [step, CreateFile] at h
    repeat' split at h
    all_goals cases h
    all_goals first
      | (left; rfl)
      | (right; left; exact ⟨by assumption, rfl⟩)
  | openf name m raw =>
    simp only [step, OpenFile] at h
    repeat' split at h
    all_goals cases h
    all_goals (left; rfl)
  | read fd n =>
    simp only [step, Option.map_eq_some'] at h
    obtain ⟨⟨r0, out, t0⟩, h0, heq⟩ := h
    cases heq
    simp only [ReadFile] at h0
    repeat' split at h0
    all_goals cases h0
    all_goals (left; rfl)
  | write fd arr n =>
    simp only [step, WriteFile] at h
    repeat' split at h
    all_goals cases h
    all_goals (left; rfl)
  | lseek fd size frm =>
    rcases LseekFile_shape h with
      rfl | ⟨ft, -, ⟨v, rfl⟩ | ⟨v, rfl⟩ | ⟨ino, v, -, -, -, rfl⟩⟩
    all_goals (left; rfl)
  | closeName name =>
    simp only [step, CloseFileByName] at h
    split at h
    · cases h
      exact Or.inl rfl
    · simp only [Option.map_eq_some'] at h
      obtain ⟨u, hu, heq⟩ := h
      cases heq
      exact Or.inl (hclose hu)
  | closeFd fd =>
    simp only [step, CloseFileByFd, Option.map_eq_some'] at h
    obtain ⟨u, hu, heq⟩ := h
    cases heq
    split at hu
    · exact Or.inl (hclose hu)
    · exact absurd hu (by simp)
  | closeAll =>
    simp only [step, CloseAllFile, Option.map_eq_some'] at h
    obtain ⟨u, hu, heq⟩ := h
    cases heq
    split at hu
    · cases hu
      exact Or.inl rfl
    · exact Or.inl (hclose hu)
  | rm name =>
    simp only [step, rm_File] at h
    repeat' split at h
    all_goals cases h
    all_goals first
      | (left; rfl)
      | (right; right; rfl)
  | truncate name =>
    simp only [step, truncate_File] at h
    repeat' split at h
    all_goals cases h
    all_goals (left; rfl)

/-- In every reachable state `FreeInode` is not negative and `TotalInodes` is 50. -/
theorem FreeInode_nonneg {s : State} (hs : Reachable s) :
    0 ≤ s.SUPERBLOCKobj.FreeInode ∧ s.SUPERBLOCKobj.TotalInodes = 50 := by
  induction hs with
  | init raw => exact ⟨show (0 : Int) ≤ 50 by decide, rfl⟩
  | step op _ hstep ih =>
    rcases step_super op hstep with h | ⟨hne, h⟩ | h
    · rw [h]; exact ih
    · rw [h]
      exact ⟨by simp only [decFree_free]; omega, ih.2⟩
    · rw [h]
      exact ⟨by simp only [incFree_free]; omega, ih.2⟩

/-! ## The first inode with `FileType == 0` -/

theorem firstFree_some_of_mem {l : List INODE} (h : ∃ x ∈ l, x.FileType = 0) :
    ∃ k, firstFree l = some k := by
  induction l with
  | nil => simp at h
  | cons x t ih =>
    by_cases hx : x.FileType = 0
    · exact ⟨0, by simp [firstFree, hx]⟩
    · have ht : ∃ y ∈ t, y.FileType = 0 := by
        obtain ⟨y, hy, hy0⟩ := h
        rcases List.mem_cons.mp hy with rfl | hy
        · exact absurd hy0 hx
        · exact ⟨y, hy, hy0⟩
      obtain ⟨k, hk⟩ := ih ht
      exact ⟨k + 1, by simp [firstFree, hx, hk]⟩

/-- No inode before the one `firstFree` returns has `FileType == 0`. -/
theorem firstFree_min {l : List INODE} {k : Nat} (h : firstFree l = some k) :
    ∀ j y, j < k → l[j]? = some y → y.FileType ≠ 0 := by
  induction l generalizing k with
  | nil => simp [firstFree] at h
  | cons x t ih =>
    by_cases hx : x.FileType = 0
    · simp only [firstFree, hx, if_true, Option.some.injEq] at h
      subst h
      intro j y hj
      exact absurd hj (Nat.not_lt_zero j)
    · simp only [firstFree, hx, if_false, Option.map_eq_some'] at h
      obtain ⟨k0, hk0, rfl⟩ := h
      intro j y hj hy
      cases j with
      | zero =>
        simp only [List.getElem?_cons_zero, Option.some.injEq] at hy
        exact hy ▸ hx
      | succ j =>
        simp only [List.getElem?_cons_succ] at hy
        exact ih hk0 j y (by omega) hy

/-- The first `NULL` slot, when there is one among the 50: it is `NULL` and
every slot below it is occupied. -/
theorem firstNull_spec (s : State) (h : ∃ j, j < 50 ∧ s.UFDTArr j = none) :
    firstNull s < 50 ∧ s.UFDTArr (firstNull s) = none ∧
      ∀ j, j < firstNull s → s.UFDTArr j ≠ none := by
  obtain ⟨j, hj, hjn⟩ := h
  have hlt := firstNull_lt_of_none s j hj hjn
  refine ⟨hlt, ?_, ?_⟩
  · exact scanNull_none s.UFDTArr 50 0 (by unfold firstNull at hlt; omega)
  · intro i hi
    exact scanNull_passed s.UFDTArr 50 0 i (Nat.zero_le i) hi

/-! ## More on descriptors and `strncpy` -/

theorem slotAt_of_range (s : State) (fd : Int) (hfd : 0 ≤ fd ∧ fd < 50) :
    slotAt s fd = some (s.UFDTArr fd.toNat) := by
  simp [slotAt, hfd]

theorem strncpy_length (mem : Nat → Char) (size : Nat) (n off : Nat) (w : List Char)
    (h : strncpy mem size off n = some w) : w.length = n := by
  induction n generalizing off w with
  | zero =>
    simp only [strncpy, Option.some.injEq] at h
    simp [← h]
  | succ n ih =>
    simp only [strncpy] at h
    split at h
    · split at h
      · simp only [Option.some.injEq] at h
        simp [← h]
      · simp only [Option.map_eq_some'] at h
        obtain ⟨w0, hw0, rfl⟩ := h
        simp [ih _ _ hw0]
    · exact absurd h (by simp)

/-- What `strncpy` stores at position `j`: the source character as long as no
NUL has been met, NUL from the first NUL of the source on. -/
theorem strncpy_get (mem : Nat → Char) (size : Nat) (n off : Nat) (w : List Char)
    (h : strncpy mem size off n = some w) (j : Nat) (hj : j < n) :
    ((∀ i, i ≤ j → mem (off + i) ≠ NUL) → w[j]? = some (mem (off + j))) ∧
    ((∃ i, i ≤ j ∧ mem (off + i) = NUL) → w[j]? = some NUL) := by
  induction n generalizing off w j with
  | zero => exact absurd hj (Nat.not_lt_zero j)
  | succ n ih =>
    simp only [strncpy] at h
    split at h
    · split at h
      · next h0 =>
        simp only [Option.some.injEq] at h
        subst h
        constructor
        · intro hall
          exact absurd h0 (by simpa using hall 0 (Nat.zero_le j))
        · intro _
          simp [List.getElem?_replicate, hj]
      · next h0 =>
        simp only [Option.map_eq_some'] at h
        obtain ⟨w0, hw0, rfl⟩ := h
        cases j with
        | zero =>
          constructor
          · intro _
            simp
          · rintro ⟨i, hi, hnul⟩
            have : i = 0 := by omega
            subst this
            exact absurd hnul (by simpa using h0)
        | succ j =>
          have hrec := ih (off + 1) w0 hw0 j (by omega)
          constructor
          · intro hall
            have := hrec.1 (fun i hi => by
              have := hall (i + 1) (by omega)
              rwa [show off + (i + 1) = off + 1 + i by omega] at this)
            simp only [List.getElem?_cons_succ, this]
            rw [show off + 1 + j = off + (j + 1) by omega]
          · rintro ⟨i, hi, hnul⟩
            cases i with
            | zero => exact absurd hnul (by simpa using h0)
            | succ i =>
              have := hrec.2 ⟨i, by omega, by
                rwa [show off + (i + 1) = off + 1 + i by omega] at hnul⟩
              simp only [List.getElem?_cons_succ, this]
    · exact absurd h (by simp)

theorem strncpy_defined (mem : Nat → Char) (size : Nat) (n off : Nat)
    (h : off + n ≤ size) : ∃ w, strncpy mem size off n = some w := by
  induction n generalizing off with
  | zero => exact ⟨[], by simp [strncpy]⟩
  | succ n ih =>
    have h1 : off < size := by omega
    by_cases h0 : mem off = NUL
    · exact ⟨List.replicate (n + 1) NUL, by simp [strncpy, h1, h0]⟩
    · obtain ⟨w, hw⟩ := ih (off + 1) (by omega)
      exact ⟨mem off :: w, by simp [strncpy, h1, h0, hw]⟩

theorem storeAt_outside (bytes : Nat → Char) (off : Nat) (w : List Char) (j : Nat)
    (hj : j < off ∨ off + w.length ≤ j) : storeAt bytes off w j = bytes j := by
  have : ¬ (off ≤ j ∧ j < off + w.length) := by omega
  simp [storeAt, this]

/-! ## The loop of `GetFDFromName` -/

theorem scanName_ge (s : State) (name : List Char) (n i : Nat) : i ≤ scanName s name n i := by
  induction n generalizing i with
  | zero => simp [scanName]
  | succ n ih =>
    simp only [scanName]
    split
    · exact Nat.le_refl i
    · exact Nat.le_trans (Nat.le_succ i) (ih (i + 1))

theorem scanName_le (s : State) (name : List Char) (n i : Nat) :
    scanName s name n i ≤ i + n := by
  induction n generalizing i with
  | zero => simp [scanName]
  | succ n ih =>
    simp only [scanName]
    split
    · omega
    · have := ih (i + 1)
      omega

/-- When the loop stops before its bound it stops on a slot with the name. -/
theorem scanName_true (s : State) (name : List Char) (n i : Nat)
    (h : scanName s name n i < i + n) : slotNamed s name (scanName s name n i) = true := by
  induction n generalizing i with
  | zero => simp [scanName] at h
  | succ n ih =>
    simp only [scanName] at h ⊢
    split
    · next hi => exact hi
    · next hi =>
      rw [if_neg hi] at h
      exact ih (i + 1) (by omega)

/-- No slot the loop passes has the name. -/
theorem scanName_passed (s : State) (name : List Char) (n i j : Nat)
    (hij : i ≤ j) (hj : j < scanName s name n i) : slotNamed s name j = false := by
  induction n generalizing i with
  | zero =>
    simp only [scanName] at hj
    omega
  | succ n ih =>
    simp only [scanName] at hj
    split at hj
    · omega
    · next hi =>
      rcases Nat.eq_or_lt_of_le hij with rfl | hlt
      · simpa using hi
      · exact ih (i + 1) hlt hj

theorem GetFDFromName_none {s : State} {name : List Char}
    (h : ∀ i, i < 50 → slotNamed s name i = false) : GetFDFromName s name = none := by
  have h50 : scanName s name 50 0 = 50 := by
    have hle := scanName_le s name 50 0
    by_contra hne
    have hlt : scanName s name 50 0 < 0 + 50 := by omega
    have := scanName_true s name 50 0 hlt
    rw [h _ (by omega)] at this
    exact absurd this (by simp)
  simp [GetFDFromName, h50]

theorem GetFDFromName_some {s : State} {name : List Char} {fd : Nat} (hfd : fd < 50)
    (hn : slotNamed s name fd = true) (hmin : ∀ j, j < fd → slotNamed s name j = false) :
    GetFDFromName s name = some fd := by
  have heq : scanName s name 50 0 = fd := by
    have hle : scanName s name 50 0 ≤ fd := by
      by_contra hcon
      have := scanName_passed s name 50 0 fd (Nat.zero_le fd) (by omega)
      rw [hn] at this
      exact absurd this (by simp)
    by_contra hne
    have hlt : scanName s name 50 0 < fd := by omega
    have := scanName_true s name 50 0 (by omega)
    rw [hmin _ hlt] at this
    exact absurd this (by simp)
  have hne : ¬ fd = 50 := by omega
  simp [GetFDFromName, heq, hne]

/-- A slot has the name when it is occupied and its inode bears the name. -/
theorem slotNamed_true {s : State} {name : List Char} {i : Nat}
    (h : slotNamed s name i = true) :
    ∃ ft ino, s.UFDTArr i = some ft ∧ inodeOf s ft = some ino ∧ ino.FileName = name := by
  simp only [slotNamed] at h
  split at h
  · exact absurd h (by simp)
  · next ft hft =>
    split at h
    · exact absurd h (by simp)
    · next ino hino => exact ⟨ft, ino, hft, hino, of_decide_eq_true h⟩

/-! ## Link counts and buffers -/

theorem truncate_File_head_live {s t : State} {name : List Char} {r : Int}
    (h : truncate_File s name = some (r, t)) :
    t.head = s.head ∨ ∃ k ino size b, s.head[k]? = some ino ∧
      t.head = s.head.set k
        { ino with Buffer := BufferPtr.live size b, FileActualSize := 0 } := by
  simp only [truncate_File] at h
  repeat' split at h
  all_goals cases h
  all_goals first
    | (left; rfl)
    | (right; exact ⟨_, _, _, _, by assumption, rfl⟩)

theorem linkInv_step {s t : State} {r : Int} (op : Op)
    (h : step s op = some (r, t)) (hI : ∀ x ∈ s.head, linkInv x) :
    ∀ x ∈ t.head, linkInv x := by
  have hclose : ∀ {i : Nat} {u : State}, closeSlot s i = some u →
      ∀ x ∈ u.head, linkInv x := by
    intro i u hu
    obtain ⟨k, ino, hk, hhead⟩ := closeSlot_head hu
    rw [hhead]
    exact forall_mem_set hI (hI ino (List.getElem?_mem hk))
  cases op with
  | create name p raw =>
    rcases CreateFile_head h with hh | ⟨k, ino, nm, -, hh⟩
    · rw [hh]; exact hI
    · rw [hh]
      exact forall_mem_set hI ⟨Int.le_refl 1, fun _ => ⟨_, _, rfl⟩⟩
  | openf name m raw =>
    rcases OpenFile_head h with hh | ⟨k, ino, hk, hh⟩
    · rw [hh]; exact hI
    · rw [hh]
      exact forall_mem_set hI (hI ino (List.getElem?_mem hk))
  | read fd n =>
    simp only [step, Option.map_eq_some'] at h
    obtain ⟨⟨r0, out, t0⟩, h0, heq⟩ := h
    simp only [Prod.mk.injEq] at heq
    obtain ⟨-, rfl⟩ := heq
    rw [ReadFile_head h0]
    exact hI
  | write fd arr n =>
    rcases WriteFile_head h with hh | ⟨ft, ino, size, bytes, w, -, hino, -, -, -, hh⟩
    · rw [hh]; exact hI
    · rw [hh]
      exact forall_mem_set hI ⟨(hI ino (List.getElem?_mem hino)).1, fun _ => ⟨_, _, rfl⟩⟩
  | lseek fd size frm =>
    rcases LseekFile_head h with hh | ⟨k, ino, v, hk, -, -, hh⟩
    · rw [hh]; exact hI
    · rw [hh]
      exact forall_mem_set hI (hI ino (List.getElem?_mem hk))
  | closeName name =>
    simp only [step, CloseFileByName] at h
    split at h
    · cases h
      exact hI
    · simp only [Option.map_eq_some'] at h
      obtain ⟨u, hu, heq⟩ := h
      cases heq
      exact hclose hu
  | closeFd fd =>
    simp only [step, CloseFileByFd, Option.map_eq_some'] at h
    obtain ⟨u, hu, heq⟩ := h
    cases heq
    split at hu
    · exact hclose hu
    · exact absurd hu (by simp)
  | closeAll =>
    simp only [step, CloseAllFile, Option.map_eq_some'] at h
    obtain ⟨u, hu, heq⟩ := h
    cases heq
    split at hu
    · cases hu
      exact hI
    · exact hclose hu
  | rm name =>
    rcases rm_File_head h with hh | ⟨k, ino, hk, hh | ⟨b0, hh⟩⟩
    · rw [hh]; exact hI
    · rw [hh]
      have hold := (hI ino (List.getElem?_mem hk)).1
      refine forall_mem_set hI ⟨?_, ?_⟩
      · show ino.LinkCount - 1 ≤ 1
        omega
      · intro h1
        have h2 : ino.LinkCount - 1 = 1 := h1
        omega
    · rw [hh]
      have hold := (hI ino (List.getElem?_mem hk)).1
      refine forall_mem_set hI ⟨?_, ?_⟩
      · show ino.LinkCount - 1 ≤ 1
        omega
      · intro h1
        have h2 : ino.LinkCount - 1 = 1 := h1
        omega
  | truncate name =>
    rcases truncate_File_head_live h with hh | ⟨k, ino, size, b0, hk, hh⟩
    · rw [hh]; exact hI
    · rw [hh]
      exact forall_mem_set hI ⟨(hI ino (List.getElem?_mem hk)).1, fun _ => ⟨_, _, rfl⟩⟩

theorem linkInv_reachable {s : State} (hs : Reachable s) : ∀ x ∈ s.head, linkInv x := by
  induction hs with
  | init raw =>
    rw [initState_head_eq]
    intro x hx
    obtain ⟨k, -, rfl⟩ := List.mem_map.mp hx
    exact ⟨by simp [newInode], fun h => absurd h (by simp [newInode])⟩
  | step op _ hstep ih => exact linkInv_step op hstep ih

/-! ## What every call keeps: link counts, names and handles of the files -/

theorem keepsSlots_refl (u : Nat → Option FILETABLE) : keepsSlots u u :=
  fun _ ft h => ⟨ft, h, rfl⟩

theorem keepsSlots_setSlot {s : State} {i : Nat} {ft ft2 : FILETABLE}
    (h : s.UFDTArr i = some ft) (hp : ft2.ptrinode = ft.ptrinode) :
    keepsSlots s.UFDTArr (setSlot s i (some ft2)).UFDTArr := by
  intro j f hj
  by_cases hji : j = i
  · subst hji
    rw [h] at hj
    cases hj
    exact ⟨ft2, setSlot_same _ _ _, hp⟩
  · exact ⟨f, by rw [setSlot_other _ _ _ _ hji]; exact hj, rfl⟩

theorem keepsSlots_fill {s : State} {i : Nat} (v : Option FILETABLE)
    (h : s.UFDTArr i = none) : keepsSlots s.UFDTArr (setSlot s i v).UFDTArr := by
  intro j f hj
  have hji : j ≠ i := by
    intro heq
    subst heq
    rw [h] at hj
    cases hj
  exact ⟨f, by rw [setSlot_other _ _ _ _ hji]; exact hj, rfl⟩

theorem sameKind_refl (x : INODE) : sameKind x x :=
  ⟨rfl, rfl, rfl, rfl, fun _ bytes h => ⟨bytes, h⟩⟩

theorem slotAt_some {s : State} {fd : Int} {v : Option FILETABLE}
    (h : slotAt s fd = some v) : s.UFDTArr fd.toNat = v := by
  simp only [slotAt] at h
  split at h
  · cases h
    rfl
  · cases h

theorem firstNull_none {s : State} (h : firstNull s < 50) : s.UFDTArr (firstNull s) = none :=
  scanNull_none s.UFDTArr 50 0 (by simpa [firstNull] using h)

theorem sameKind_of_buffer (ino : INODE) (size : Nat) (bytes b : Nat → Char) (v : Int)
    (hb : ino.Buffer = BufferPtr.live size bytes) :
    sameKind ino { ino with Buffer := BufferPtr.live size b, FileActualSize := v } := by
  refine ⟨rfl, rfl, rfl, rfl, ?_⟩
  intro size2 bytes2 h2
  rw [hb] at h2
  cases h2
  exact ⟨b, rfl⟩

theorem OpenFile_benign {s t : State} {name : Option (List Char)} {m r : Int}
    {raw : FILETABLE} (h : OpenFile s name m raw = some (r, t)) : benign s t := by
  simp only [OpenFile] at h
  repeat' split at h
  all_goals cases h
  all_goals first
    | exact ⟨Or.inl rfl, keepsSlots_refl _⟩
    | (have hi := (by assumption : s.head[_]? = some _)
       exact ⟨Or.inr ⟨_, _, _, hi, rfl, ⟨rfl, rfl, rfl, rfl, fun _ b hb => ⟨b, hb⟩⟩⟩,
        keepsSlots_fill _ (firstNull_none (by assumption))⟩)

theorem ReadFile_benign {s t : State} {fd isize r : Int} {out : List Char}
    (h : ReadFile s fd isize = some (r, out, t)) : benign s t := by
  simp only [ReadFile] at h
  repeat' split at h
  all_goals cases h
  all_goals first
    | exact ⟨Or.inl rfl, keepsSlots_refl _⟩
    | (have hk := slotAt_some (by assumption : slotAt s fd = some (some _))
       exact ⟨Or.inl rfl, keepsSlots_setSlot hk rfl⟩)

theorem WriteFile_benign {s t : State} {fd isize r : Int} {arr : List Char}
    (h : WriteFile s fd arr isize = some (r, t)) : benign s t := by
  simp only [WriteFile] at h
  repeat' split at h
  all_goals cases h
  all_goals first
    | exact ⟨Or.inl rfl, keepsSlots_refl _⟩
    | (have hk := slotAt_some (by assumption : slotAt s fd = some (some _))
       have hi := (by assumption : inodeOf s _ = some _)
       have hb := (by assumption : INODE.Buffer _ = BufferPtr.live _ _)
       exact ⟨Or.inr ⟨_, _, _, hi, rfl, sameKind_of_buffer _ _ _ _ _ hb⟩,
        keepsSlots_setSlot hk rfl⟩)

theorem LseekFile_benign {s t : State} {fd size frm r : Int}
    (h : LseekFile s fd size frm = some (r, t)) : benign s t := by
  rcases LseekFile_shape h with
    rfl | ⟨ft, hft, ⟨v, rfl⟩ | ⟨v, rfl⟩ | ⟨ino, v, hi, -, -, rfl⟩⟩
  · exact ⟨Or.inl rfl, keepsSlots_refl _⟩
  · exact ⟨Or.inl rfl, keepsSlots_setSlot (slotAt_some hft) rfl⟩
  · exact ⟨Or.inl rfl, keepsSlots_setSlot (slotAt_some hft) rfl⟩
  · exact ⟨Or.inr ⟨_, _, _, hi, rfl, ⟨rfl, rfl, rfl, rfl, fun _ b hb => ⟨b, hb⟩⟩⟩,
      keepsSlots_setSlot (slotAt_some hft) rfl⟩

theorem closeSlot_benign {s t : State} {i : Nat} (h : closeSlot s i = some t) :
    benign s t := by
  simp only [closeSlot] at h
  repeat' split at h
  all_goals cases h
  have hk := (by assumption : s.UFDTArr i = some _)
  have hi := (by assumption : inodeOf s _ = some _)
  exact ⟨Or.inr ⟨_, _, _, hi, rfl, ⟨rfl, rfl, rfl, rfl, fun _ b hb => ⟨b, hb⟩⟩⟩,
    keepsSlots_setSlot hk rfl⟩

theorem truncate_File_benign {s t : State} {name : List Char} {r : Int}
    (h : truncate_File s name = some (r, t)) : benign s t := by
  simp only [truncate_File] at h
  repeat' split at h
  all_goals cases h
  all_goals first
    | exact ⟨Or.inl rfl, keepsSlots_refl _⟩
    | (have hk := (by assumption : s.UFDTArr _ = some _)
       have hi := (by assumption : inodeOf s _ = some _)
       have hb := (by assumption : INODE.Buffer _ = BufferPtr.live _ _)
       exact ⟨Or.inr ⟨_, _, _, hi, rfl, sameKind_of_buffer _ _ _ _ _ hb⟩,
        keepsSlots_setSlot hk rfl⟩)

theorem CreateFile_shape {s t : State} {name : Option (List Char)} {p r : Int}
    {raw : Nat → Char} (h : CreateFile s name p raw = some (r, t)) :
    (t.head = s.head ∧ t.UFDTArr = s.UFDTArr) ∨
    ∃ k ino nm, findName s.head nm = none ∧ s.head[k]? = some ino ∧ firstNull s < 50 ∧
      t = setInode (setSlot (decFree s) (firstNull s) (some (createdTable p k))) k
        (createdInode ino nm p raw) := by
  simp only [CreateFile] at h
  repeat' split at h
  all_goals cases h
  all_goals first
    | exact Or.inl ⟨rfl, rfl⟩
    | (have hfn := (by assumption : Get_Inode (decFree s) (some _) = none)
       have hino := (by assumption : (decFree s).head[_]? = some _)
       have hlt := (by assumption : firstNull (decFree s) < 50 ∧ _)
       exact Or.inr ⟨_, _, _, hfn, hino, hlt.1, rfl⟩)

theorem rm_File_shape {s t : State} {name : List Char} {r : Int}
    (h : rm_File s name = some (r, t)) :
    t = s ∨ ∃ fd ft ino y, s.UFDTArr fd = some ft ∧ s.head[ft.ptrinode]? = some ino ∧
      t.head = s.head.set ft.ptrinode y ∧ t.UFDTArr = (setSlot s fd none).UFDTArr ∧
      y.FileName = ino.FileName ∧ y.FileSize = ino.FileSize ∧
      y.LinkCount = ino.LinkCount - 1 ∧
      ((ino.LinkCount - 1 = 0 ∧ y.FileType = 0) ∨
       (ino.LinkCount - 1 ≠ 0 ∧ y.FileType = ino.FileType ∧ y.Buffer = ino.Buffer)) := by
  simp only [rm_File] at h
  repeat' split at h
  all_goals cases h
  all_goals first
    | exact Or.inl rfl
    | (have hk := (by assumption : s.UFDTArr _ = some _)
       have hi := (by assumption : inodeOf s _ = some _)
       have hl := (by assumption : INODE.LinkCount _ - 1 = 0)
       exact Or.inr ⟨_, _, _, _, hk, hi, rfl, rfl, rfl, rfl, rfl, Or.inl ⟨hl, rfl⟩⟩)
    | (have hk := (by assumption : s.UFDTArr _ = some _)
       have hi := (by assumption : inodeOf s _ = some _)
       have hl := (by assumption : ¬ INODE.LinkCount _ - 1 = 0)
       exact Or.inr ⟨_, _, _, _, hk, hi, rfl, rfl, rfl, rfl, rfl, Or.inr ⟨hl, rfl, rfl⟩⟩)

theorem getElem?_set_cases {l : List INODE} {k a : Nat} {x y z : INODE}
    (hx : l[k]? = some x) (hz : (l.set k y)[a]? = some z) :
    (a = k ∧ z = y) ∨ (a ≠ k ∧ l[a]? = some z) := by
  by_cases hak : a = k
  · subst hak
    rw [getElem?_set_of_some y hx] at hz
    cases hz
    exact Or.inl ⟨rfl, rfl⟩
  · rw [List.getElem?_set_ne (Ne.symm hak)] at hz
    exact Or.inr ⟨hak, hz⟩

theorem fileInv_initState (heap : Nat → INODE) : fileInv (initState heap) := by
  have hfree : ∀ x ∈ (initState heap).head, x.FileType = 0 ∧ x.LinkCount = 0 := by
    rw [initState_head_eq]
    intro x hx
    obtain ⟨k, -, rfl⟩ := List.mem_map.mp hx
    exact ⟨rfl, rfl⟩
  have hnot : ∀ x ∈ (initState heap).head, ¬ x.FileType = REGULAR := by
    intro x hx hreg
    rw [(hfree x hx).1] at hreg
    exact absurd hreg (by decide)
  refine ⟨?_, ?_, ?_⟩
  · intro x hx
    exact ⟨fun hreg => absurd hreg (hnot x hx), fun _ => by rw [(hfree x hx).2]⟩
  · unfold uniqueNames
    intro k j x y hx _ hreg _
    exact absurd hreg (hnot x (List.getElem?_mem hx))
  · unfold hasHandle
    intro k x hx hreg
    exact absurd hreg (hnot x (List.getElem?_mem hx))

theorem fileInv_benign {s t : State} (hb : benign s t) (hI : fileInv s) : fileInv t := by
  obtain ⟨hh, hk⟩ := hb
  obtain ⟨h1, h2, h3⟩ := hI
  have hback : ∀ (a : Nat) (z : INODE), t.head[a]? = some z →
      ∃ x, s.head[a]? = some x ∧ sameKind x z := by
    rcases hh with hh | ⟨k, x, y, hx, hh, hxy⟩
    · intro a z hz
      rw [hh] at hz
      exact ⟨z, hz, sameKind_refl z⟩
    · intro a z hz
      rw [hh] at hz
      rcases getElem?_set_cases hx hz with ⟨rfl, rfl⟩ | ⟨-, hz2⟩
      · exact ⟨x, hx, hxy⟩
      · exact ⟨z, hz2, sameKind_refl z⟩
  refine ⟨?_, ?_, ?_⟩
  · intro z hz
    obtain ⟨a, ha⟩ := List.mem_iff_getElem?.mp hz
    obtain ⟨x, hx, hn, ht, hl, hs, hbuf⟩ := hback a z ha
    have hIx := h1 x (List.getElem?_mem hx)
    refine ⟨fun hreg => ?_, fun hfree => ?_⟩
    · obtain ⟨c1, c2, bytes, c3⟩ := hIx.1 (ht ▸ hreg)
      obtain ⟨b, hb⟩ := hbuf _ _ c3
      exact ⟨hl.trans c1, hs.trans c2, b, hb⟩
    · rw [hl]
      exact hIx.2 (ht ▸ hfree)
  · unfold uniqueNames
    intro k j x y hx hy hreg hname
    obtain ⟨x0, hx0, hn0, ht0, -⟩ := hback k x hx
    obtain ⟨y0, hy0, hn1, -⟩ := hback j y hy
    exact h2 k j x0 y0 hx0 hy0 (ht0 ▸ hreg) (by rw [← hn1, hname, hn0])
  · unfold hasHandle
    intro k x hx hreg
    obtain ⟨x0, hx0, -, ht0, -⟩ := hback k x hx
    obtain ⟨i, ft, hi, hslot, hp⟩ := h3 k x0 hx0 (ht0 ▸ hreg)
    obtain ⟨ft2, hslot2, hp2⟩ := hk i ft hslot
    exact ⟨i, ft2, hi, hslot2, hp2.trans hp⟩

theorem fileInv_create {s : State} {k : Nat} {ino : INODE} (nm : List Char) (p : Int)
    (raw : Nat → Char) (hfn : findName s.head nm = none) (hino : s.head[k]? = some ino)
    (hlt : firstNull s < 50) (hI : fileInv s) :
    fileInv (setInode (setSlot (decFree s) (firstNull s) (some (createdTable p k))) k
      (createdInode ino nm p raw)) := by
  obtain ⟨h1, h2, h3⟩ := hI
  have hfresh := findName_none_iff.mp hfn
  have hnone := firstNull_none hlt
  refine ⟨?_, ?_, ?_⟩
  · simp only [setInode_head, setSlot_head, decFree_head]
    refine forall_mem_set h1 ⟨fun _ => ⟨rfl, rfl, raw, rfl⟩, fun h0 => ?_⟩
    exact absurd h0 (by simp [createdInode, REGULAR])
  · unfold uniqueNames
    intro a b x y hx hy hreg hname
    simp only [setInode_head, setSlot_head, decFree_head] at hx hy
    rcases getElem?_set_cases hino hx with ⟨rfl, rfl⟩ | ⟨hak, hx2⟩
    · rcases getElem?_set_cases hino hy with ⟨rfl, -⟩ | ⟨-, hy2⟩
      · rfl
      · exact absurd hname (hfresh y (List.getElem?_mem hy2))
    · rcases getElem?_set_cases hino hy with ⟨rfl, rfl⟩ | ⟨-, hy2⟩
      · exact absurd hname.symm (hfresh x (List.getElem?_mem hx2))
      · exact h2 a b x y hx2 hy2 hreg hname
  · unfold hasHandle
    intro a x hx hreg
    simp only [setInode_head, setSlot_head, decFree_head] at hx
    rcases getElem?_set_cases hino hx with ⟨rfl, rfl⟩ | ⟨hak, hx2⟩
    · exact ⟨firstNull s, createdTable p a, hlt, by simp, rfl⟩
    · obtain ⟨i, ft, hi, hslot, hp⟩ := h3 a x hx2 hreg
      have hne : i ≠ firstNull s := by
        intro heq
        rw [heq, hnone] at hslot
        cases hslot
      refine ⟨i, ft, hi, ?_, hp⟩
      simp only [setInode_UFDTArr]
      rw [setSlot_other _ _ _ _ hne]
      exact hslot

theorem fileInv_rm {s t : State} {name : List Char} {r : Int}
    (h : rm_File s name = some (r, t)) (hI : fileInv s) : fileInv t := by
  rcases rm_File_shape h with rfl | ⟨fd, ft, ino, y, hk, hi, hh, hu, hn, hs, hl, hcase⟩
  · exact hI
  obtain ⟨h1, h2, h3⟩ := hI
  have hIino := h1 ino (List.getElem?_mem hi)
  have hnotreg : y.FileType = REGULAR → False := by
    intro hreg
    rcases hcase with ⟨-, h0⟩ | ⟨hne, hty, -⟩
    · rw [h0] at hreg
      exact absurd hreg (by decide)
    · have := (hIino.1 (hty ▸ hreg)).1
      omega
  refine ⟨?_, ?_, ?_⟩
  · rw [hh]
    refine forall_mem_set h1 ⟨fun hreg => absurd hreg hnotreg, fun h0 => ?_⟩
    rcases hcase with ⟨hz, -⟩ | ⟨hne, hty, -⟩
    · omega
    · have := hIino.2 (hty ▸ h0)
      omega
  · unfold uniqueNames
    intro a b x z hx hz hreg hname
    rw [hh] at hx hz
    rcases getElem?_set_cases hi hx with ⟨rfl, rfl⟩ | ⟨hak, hx2⟩
    · exact absurd hreg hnotreg
    · rcases getElem?_set_cases hi hz with ⟨rfl, rfl⟩ | ⟨-, hz2⟩
      · exact h2 a _ x ino hx2 hi hreg (hn ▸ hname)
      · exact h2 a b x z hx2 hz2 hreg hname
  · unfold hasHandle
    intro a x hx hreg
    rw [hh] at hx
    rcases getElem?_set_cases hi hx with ⟨rfl, rfl⟩ | ⟨hak, hx2⟩
    · exact absurd hreg hnotreg
    · obtain ⟨i, f, hil, hslot, hp⟩ := h3 a x hx2 hreg
      have hne : i ≠ fd := by
        intro heq
        rw [heq, hk] at hslot
        cases hslot
        exact hak hp.symm
      refine ⟨i, f, hil, ?_, hp⟩
      rw [hu, setSlot_other _ _ _ _ hne]
      exact hslot

theorem fileInv_step {s t : State} {r : Int} (op : Op)
    (h : step s op = some (r, t)) (hI : fileInv s) : fileInv t := by
  cases op with
  | create name p raw =>
    rcases CreateFile_shape h with ⟨hh, hu⟩ | ⟨k, ino, nm, hfn, hino, hlt, rfl⟩
    · exact fileInv_benign ⟨Or.inl hh, hu ▸ keepsSlots_refl _⟩ hI
    · exact fileInv_create nm p raw hfn hino hlt hI
  | openf name m raw => exact fileInv_benign (OpenFile_benign h) hI
  | read fd n =>
    simp only [step, Option.map_eq_some'] at h
    obtain ⟨⟨r0, out, t0⟩, h0, heq⟩ := h
    simp only [Prod.mk.injEq] at heq
    obtain ⟨-, rfl⟩ := heq
    exact fileInv_benign (ReadFile_benign h0) hI
  | write fd arr n => exact fileInv_benign (WriteFile_benign h) hI
  | lseek fd size frm => exact fileInv_benign (LseekFile_benign h) hI
  | closeName name =>
    simp only [step, CloseFileByName] at h
    split at h
    · cases h
      exact hI
    · simp only [Option.map_eq_some'] at h
      obtain ⟨u, hu, heq⟩ := h
      cases heq
      exact fileInv_benign (closeSlot_benign hu) hI
  | closeFd fd =>
    simp only [step, CloseFileByFd, Option.map_eq_some'] at h
    obtain ⟨u, hu, heq⟩ := h
    cases heq
    split at hu
    · exact fileInv_benign (closeSlot_benign hu) hI
    · exact absurd hu (by simp)
  | closeAll =>
    simp only [step, CloseAllFile, Option.map_eq_some'] at h
    obtain ⟨u, hu, heq⟩ := h
    cases heq
    split at hu
    · cases hu
      exact hI
    · exact fileInv_benign (closeSlot_benign hu) hI
  | rm name => exact fileInv_rm h hI
  | truncate name => exact fileInv_benign (truncate_File_benign h) hI

theorem fileInv_reachable {s : State} (hs : Reachable s) : fileInv s := by
  induction hs with
  | init raw => exact fileInv_initState raw
  | step op _ hstep ih => exact fileInv_step op hstep ih

/-! ## Lemmas for the calls by name and for `CloseAllFile` -/

theorem afterCreateA_reachable (p : Int) (hp : p = 1 ∨ p = 2 ∨ p = 3) :
    Reachable (afterCreateA p) := by
  refine Reachable.step (Op.create (some nameA) p zeroBytes) (Reachable.init zeroRaw)
      (show step (initState zeroRaw) (Op.create (some nameA) p zeroBytes)
        = some (0, afterCreateA p) from ?_)
  rcases hp with rfl | rfl | rfl <;> rfl

theorem afterCreateAB_reachable : Reachable afterCreateAB :=
  Reachable.step (Op.create (some nameB) 3 zeroBytes) (afterCreateA_reachable 3 (by decide))
    (show step (afterCreateA 3) (Op.create (some nameB) 3 zeroBytes)
      = some (1, afterCreateAB) from rfl)

theorem GetFDFromName_of_slot {s : State} {name : List Char} {i : Nat} (hi : i < 50)
    (hn : slotNamed s name i = true) :
    ∃ fd, fd < 50 ∧ GetFDFromName s name = some fd ∧ slotNamed s name fd = true := by
  have hle : scanName s name 50 0 ≤ i := by
    by_contra hcon
    have := scanName_passed s name 50 0 i (Nat.zero_le i) (by omega)
    rw [hn] at this
    exact absurd this (by simp)
  have hlt : scanName s name 50 0 < 50 := by omega
  have hne : ¬ scanName s name 50 0 = 50 := by omega
  exact ⟨scanName s name 50 0, hlt, by simp [GetFDFromName, hne],
    scanName_true s name 50 0 (by omega)⟩

theorem slotNamed_of_handle {s : State} {i : Nat} {ft : FILETABLE} {ino : INODE}
    (hslot : s.UFDTArr i = some ft) (hino : s.head[ft.ptrinode]? = some ino) :
    slotNamed s ino.FileName i = true := by
  simp [slotNamed, hslot, hino]

/-- In a reachable state the lowest slot whose inode bears the name of a
REGULAR inode is a handle on that inode. -/
theorem handle_of_regular {s : State} (hs : Reachable s) {k : Nat} {ino : INODE}
    (hino : s.head[k]? = some ino) (hreg : ino.FileType = REGULAR)
    (hopen : ∃ i ft, i < 50 ∧ s.UFDTArr i = some ft ∧ ft.ptrinode = k) :
    ∃ fd ft, fd < 50 ∧ GetFDFromName s ino.FileName = some fd ∧ s.UFDTArr fd = some ft ∧
      ft.ptrinode = k := by
  obtain ⟨i, f, hi, hslot, hp⟩ := hopen
  have hn : slotNamed s ino.FileName i = true :=
    slotNamed_of_handle hslot (by rw [hp]; exact hino)
  obtain ⟨fd, hfd, hget, hnamed⟩ := GetFDFromName_of_slot hi hn
  obtain ⟨ft, ino2, hft, hino2, hname⟩ := slotNamed_true hnamed
  exact ⟨fd, ft, hfd, hget, hft, (fileInv_reachable hs).2.1 k _ ino ino2 hino hino2 hreg hname⟩

theorem findName_set_same {l : List INODE} {k : Nat} {x : INODE} (y : INODE) (nm : List Char)
    (hx : l[k]? = some x) (hy : y.FileName = x.FileName) :
    findName (l.set k y) nm = findName l nm := by
  induction l generalizing k with
  | nil => simp at hx
  | cons a t ih =>
    cases k with
    | zero =>
      simp only [List.getElem?_cons_zero, Option.some.injEq] at hx
      subst hx
      simp only [List.set_cons_zero, findName, hy]
    | succ k =>
      simp only [List.getElem?_cons_succ] at hx
      simp only [List.set_cons_succ, findName, ih hx]

theorem truncate_File_ok {s : State} {name : List Char} {fd : Nat} {ft : FILETABLE}
    {ino : INODE} {size : Nat} {bytes : Nat → Char}
    (hget : GetFDFromName s name = some fd) (hft : s.UFDTArr fd = some ft)
    (hino : inodeOf s ft = some ino) (hbuf : ino.Buffer = BufferPtr.live size bytes)
    (hsize : 1024 ≤ size) :
    truncate_File s name = some (0,
      setInode (setSlot s fd (some { ft with readoffset := 0, writeoffset := 0 }))
        ft.ptrinode
        { ino with
          Buffer := BufferPtr.live size (fun j => if j < 1024 then NUL else bytes j)
          FileActualSize := 0 }) := by
  simp only [truncate_File, hget, hft, hino, hbuf, hsize, if_true]

theorem rm_File_ok_last {s : State} {name : List Char} {fd : Nat} {ft : FILETABLE}
    {ino : INODE} {size : Nat} {bytes : Nat → Char}
    (hget : GetFDFromName s name = some fd) (hft : s.UFDTArr fd = some ft)
    (hino : inodeOf s ft = some ino) (hbuf : ino.Buffer = BufferPtr.live size bytes)
    (hlink : ino.LinkCount = 1) :
    rm_File s name = some (0, incFree (setSlot
      (setInode s ft.ptrinode
        { ino with LinkCount := ino.LinkCount - 1, FileType := 0, Buffer := BufferPtr.freed })
      fd none)) := by
  have h0 : ino.LinkCount - 1 = 0 := by omega
  simp only [rm_File, hget, hft, hino, h0, if_true, hbuf, freeBuffer]

theorem CloseFileByName_ok {s : State} {name : List Char} {fd : Nat} {ft : FILETABLE}
    {ino : INODE} (hget : GetFDFromName s name = some fd) (hft : s.UFDTArr fd = some ft)
    (hino : inodeOf s ft = some ino) :
    CloseFileByName s name = some (0,
      setInode (setSlot s fd (some { ft with readoffset := 0, writeoffset := 0 }))
        ft.ptrinode { ino with ReferenceCount := ino.ReferenceCount - 1 }) := by
  simp only [CloseFileByName, hget, closeSlot, hft, hino, Option.map_some']

theorem firstNull_full {s : State} (h : ∀ i, i < 50 → s.UFDTArr i ≠ none) :
    firstNull s = 50 := by
  have hle := scanNull_le s.UFDTArr 50 0
  by_contra hne
  have hlt : scanNull s.UFDTArr 50 0 < 0 + 50 := by
    have : firstNull s = scanNull s.UFDTArr 50 0 := rfl
    omega
  exact h _ (by omega) (scanNull_none s.UFDTArr 50 0 hlt)

theorem scanOpen_none (u : Nat → Option FILETABLE) (n i : Nat)
    (h : ∀ j, i ≤ j → j < i + n → u j = none) : scanOpen u n i = none := by
  induction n generalizing i with
  | zero => rfl
  | succ n ih =>
    have h0 : u i = none := h i (Nat.le_refl i) (by omega)
    simp only [scanOpen, h0, Option.isSome_none, Bool.false_eq_true, if_false]
    exact ih (i + 1) (fun j h1 h2 => h j (by omega) (by omega))

theorem scanOpen_first (u : Nat → Option FILETABLE) (n i k : Nat) (ft : FILETABLE)
    (hik : i ≤ k) (hk : k < i + n) (hu : u k = some ft)
    (hmin : ∀ j, i ≤ j → j < k → u j = none) : scanOpen u n i = some k := by
  induction n generalizing i with
  | zero => omega
  | succ n ih =>
    rcases Nat.eq_or_lt_of_le hik with rfl | hlt
    · simp only [scanOpen, hu, Option.isSome_some, if_true]
    · have h0 : u i = none := hmin i (Nat.le_refl i) hlt
      simp only [scanOpen, h0, Option.isSome_none, Bool.false_eq_true, if_false]
      exact ih (i + 1) (by omega) (by omega) (fun j h1 h2 => hmin j (by omega) h2)

/-- The byte at an offset inside the object a caller passes. -/
theorem memOf_get (arr : List Char) (i : Nat) (hi : i < arr.length) :
    arr[i]? = some (memOf arr i) := by
  simp [memOf, List.getD, List.getElem?_eq_getElem hi]

/-! ## The claims -/

/-- C1 (as stated, refuted): every inode of the initial state has
`FileSize = 0`, not 2048; and `CreateFile("a", 2)`, `LseekFile(0, 2048, START)`,
`CloseFileByName("a")`, `WriteFile(0, "x", 1)` lead to a reachable state whose
REGULAR inode has `FileActualSize = 2049` above `FileSize = 2048`. -/
theorem C1_counterexample :
    (Reachable (initState zeroRaw) ∧
      (initState zeroRaw).head.map (fun i => i.FileSize) = List.replicate 50 0) ∧
    ∃ s, run (initState zeroRaw)
        [Op.create (some nameA) 2 zeroBytes, Op.lseek 0 2048 START, Op.closeName nameA,
          Op.write 0 ['x', NUL] 1] = some s ∧ Reachable s ∧
      ∃ ino ∈ s.head, ino.FileType = REGULAR ∧ ino.FileActualSize = 2049 ∧
        ino.FileSize = 2048 := by
  refine ⟨⟨Reachable.init zeroRaw, by decide⟩, ?_⟩
  obtain ⟨s, hs, hp⟩ := run_check
    (fun s => s.head.any (fun ino =>
      decide (ino.FileType = REGULAR ∧ ino.FileActualSize = 2049 ∧ ino.FileSize = 2048)))
    (show (run (initState zeroRaw)
        [Op.create (some nameA) 2 zeroBytes, Op.lseek 0 2048 START, Op.closeName nameA,
          Op.write 0 ['x', NUL] 1]).map _ = some true by decide)
  obtain ⟨ino, hmem, hino⟩ := List.any_eq_true.mp hp
  exact ⟨s, hs, run_reachable _ (Reachable.init zeroRaw) hs, ino, hmem, of_decide_eq_true hino⟩

/-- C1 (amended): in every state reachable from initialization by any
sequence of calls with defined behaviour (a `WriteFile` whose addition
`FileActualSize + isize` overflows `int` has none), every inode of type REGULAR
has `0 ≤ FileActualSize ≤ INT_MAX` and `FileSize = 2048`; and in every state
reached by calls among which each `WriteFile` had `FileActualSize + isize ≤ 2048`
when it was made, every REGULAR inode has `0 ≤ FileActualSize ≤ FileSize = 2048`. -/
theorem C1_size_bounds :
    (∀ s, Reachable s → ∀ ino ∈ s.head, ino.FileType = REGULAR →
      0 ≤ ino.FileActualSize ∧ ino.FileActualSize ≤ INT_MAX ∧
        ino.FileSize = MAXFILESIZE) ∧
    (∀ s, ReachableFit s → ∀ ino ∈ s.head, ino.FileType = REGULAR →
      0 ≤ ino.FileActualSize ∧ ino.FileActualSize ≤ ino.FileSize ∧
        ino.FileSize = MAXFILESIZE) := by
  constructor
  · intro s hs
    have hall : ∀ x ∈ s.head, sizeInv false x := by
      induction hs with
      | init raw => exact sizeInv_initState false raw
      | step op _ hstep ih => exact sizeInv_step false op hstep (fun hb => absurd hb (by decide)) ih
    intro ino hmem hreg
    exact ⟨(hall ino hmem hreg).1, (hall ino hmem hreg).2.2.2, (hall ino hmem hreg).2.1⟩
  · intro s hs
    have hall : ∀ x ∈ s.head, sizeInv true x := by
      induction hs with
      | init raw => exact sizeInv_initState true raw
      | step op _ hfit hstep ih => exact sizeInv_step true op hstep (fun _ => hfit) ih
    intro ino hmem hreg
    obtain ⟨h0, hsz, hle, -⟩ := hall ino hmem hreg
    exact ⟨h0, by rw [hsz]; exact hle rfl, hsz⟩

/-- C1 (amended) at a concrete input: the state after `CreateFile("a", 3)` on
the initial state and its inode 1. -/
theorem C1_witness :
    ReachableFit (afterCreateA 3) ∧
    createdInode (newInode zeroInode 1) nameA 3 zeroBytes ∈ (afterCreateA 3).head ∧
    (createdInode (newInode zeroInode 1) nameA 3 zeroBytes).FileType = REGULAR ∧
    (0 ≤ (createdInode (newInode zeroInode 1) nameA 3 zeroBytes).FileActualSize ∧
      (createdInode (newInode zeroInode 1) nameA 3 zeroBytes).FileActualSize
        ≤ (createdInode (newInode zeroInode 1) nameA 3 zeroBytes).FileSize ∧
      (createdInode (newInode zeroInode 1) nameA 3 zeroBytes).FileSize = MAXFILESIZE) :=
  have hr : ReachableFit (afterCreateA 3) :=
    ReachableFit.step (Op.create (some nameA) 3 zeroBytes) (ReachableFit.init zeroRaw) rfl
      (show step (initState zeroRaw) (Op.create (some nameA) 3 zeroBytes)
        = some (0, afterCreateA 3) from rfl)
  have hm : createdInode (newInode zeroInode 1) nameA 3 zeroBytes ∈ (afterCreateA 3).head :=
    List.mem_set _ 0 (by decide) _
  ⟨hr, hm, rfl, C1_size_bounds.2 (afterCreateA 3) hr _ hm rfl⟩

/-- C2 (as stated, refuted): on the file created by `CreateFile("a", 3)` from
the initial state, a write of the empty byte string followed by a read of 0
bytes ends in `-3` (end of file); and, on the same fresh file, writing the two
bytes NUL, `x` and reading 2 bytes gives NUL, NUL. -/
theorem C2_counterexample :
    CreateFile (initState zeroRaw) (some nameA) 3 zeroBytes = some (0, afterCreateA 3) ∧
    ((WriteFile (afterCreateA 3) 0 [NUL] 0).bind (fun w => ReadFile w.2 0 0)).map
      (fun r => r.1) = some (-3) ∧
    ((WriteFile (afterCreateA 3) 0 [NUL, 'x'] 2).bind (fun w => ReadFile w.2 0 2)).map
      (fun r => (r.1, r.2.1)) = some (2, [NUL, NUL]) :=
  ⟨rfl, by decide, by decide⟩

/-- C2 (amended): for every non-empty byte string `B` of at most 2048 bytes
that holds no zero byte, on a file just created with permission 3 (descriptor
`h`, both offsets 0), `WriteFile(h, B, len B)` returns `len B` and the
following `ReadFile(h, out, len B)` returns `len B` with `out` equal to `B`.
(`rest` is whatever follows `B` in the caller's array.) -/
theorem C2_read_after_write (s s1 : State) (name : List Char) (raw : Nat → Char) (h : Int)
    (B rest : List Char)
    (hc : CreateFile s (some name) 3 raw = some (h, s1)) (hh : 0 ≤ h)
    (hne : B ≠ []) (hlen : B.length ≤ 2048) (hnul : NUL ∉ B) :
    ∃ s2 s3, WriteFile s1 h (B ++ rest) B.length = some ((B.length : Int), s2) ∧
      ReadFile s2 h B.length = some ((B.length : Int), B, s3) := by
  obtain ⟨t, ino, hfn, -, hino, hnull, hfdi, -, -, -, hs1⟩ := CreateFile_success hc hh
  subst hfdi
  have hpos : 0 < B.length := List.length_pos.mpr hne
  have hslot1 : slotAt s1 (firstNull s : Int) = some (some (createdTable 3 t)) := by
    rw [slotAt_cast _ _ hnull, hs1]
    simp
  have hino1 : inodeOf s1 (createdTable 3 t) = some (createdInode ino name 3 raw) := by
    rw [hs1]
    exact getElem?_set_of_some _ hino
  have hW := WriteFile_ok (B ++ rest) B (B.length : Int)
    hslot1 hino1 (Or.inr rfl) (Or.inr rfl) (show (0 : Int) ≠ 2048 by decide) rfl rfl
    ⟨Int.ofNat_nonneg _, Int.le_refl 0, by
      simp only [createdTable, MAXFILESIZE_toNat]
      omega⟩
    (by
      simp only [createdTable, createdInode, inInt, INT_MIN, INT_MAX]
      omega)
    (by rw [Int.toNat_ofNat]; exact strncpy_prefix B rest hnul)
  have hslot2 : slotAt
      (setInode (setSlot s1 (firstNull s : Int).toNat
        (some { createdTable 3 t with
          writeoffset := (createdTable 3 t).writeoffset + (B.length : Int) }))
        (createdTable 3 t).ptrinode
        { createdInode ino name 3 raw with
          Buffer := BufferPtr.live MAXFILESIZE.toNat
            (storeAt raw (createdTable 3 t).writeoffset.toNat B)
          FileActualSize := (createdInode ino name 3 raw).FileActualSize + (B.length : Int) })
      (firstNull s : Int) = some (some { createdTable 3 t with
          writeoffset := (createdTable 3 t).writeoffset + (B.length : Int) }) := by
    rw [slotAt_cast _ _ hnull]
    simp
  have hino2 : inodeOf
      (setInode (setSlot s1 (firstNull s : Int).toNat
        (some { createdTable 3 t with
          writeoffset := (createdTable 3 t).writeoffset + (B.length : Int) }))
        (createdTable 3 t).ptrinode
        { createdInode ino name 3 raw with
          Buffer := BufferPtr.live MAXFILESIZE.toNat
            (storeAt raw (createdTable 3 t).writeoffset.toNat B)
          FileActualSize := (createdInode ino name 3 raw).FileActualSize + (B.length : Int) })
      { createdTable 3 t with
          writeoffset := (createdTable 3 t).writeoffset + (B.length : Int) }
      = some { createdInode ino name 3 raw with
          Buffer := BufferPtr.live MAXFILESIZE.toNat
            (storeAt raw (createdTable 3 t).writeoffset.toNat B)
          FileActualSize := (createdInode ino name 3 raw).FileActualSize + (B.length : Int) } :=
    getElem?_set_of_some _ hino1
  have hn : (if (0 : Int) + (B.length : Int) - 0 < (B.length : Int)
      then (0 : Int) + (B.length : Int) - 0 else (B.length : Int)) = (B.length : Int) := by
    rw [if_neg (by omega)]
  have hR := ReadFile_ok B (B.length : Int)
    hslot2 hino2 (Or.inr rfl) (Or.inr rfl)
    (by
      simp only [createdTable, createdInode]
      omega)
    rfl rfl
    (by
      simp only [createdTable, createdInode, hn, MAXFILESIZE_toNat]
      omega)
    (by
      simp only [createdTable, createdInode, hn, MAXFILESIZE_toNat, Int.toNat_ofNat,
        Int.toNat_zero]
      rw [strncpy_of_no_nul _ _ _ _ (by omega)]
      · rw [range_map_eq B _ (fun j hj => storeAt_get raw 0 B j hj)]
      · intro j _ hj
        have hj2 : j < B.length := by omega
        have := storeAt_get raw 0 B j hj2
        rw [Nat.zero_add] at this
        rw [this]
        exact fun hcon => hnul (hcon ▸ List.getElem_mem hj2))
  exact ⟨_, _, hW, hR⟩

/-- C2 (amended) at a concrete input: the two bytes `h`, `i` on the file
created by `CreateFile("a", 3)` from the initial state. -/
theorem C2_witness :
    ∃ s2 s3, WriteFile (afterCreateA 3) 0 (['h', 'i'] ++ [NUL]) 2 = some (2, s2) ∧
      ReadFile s2 0 2 = some (2, ['h', 'i'], s3) :=
  C2_read_after_write (initState zeroRaw) (afterCreateA 3) nameA zeroBytes 0 ['h', 'i'] [NUL]
    (by rfl) (by decide) (by decide) (by decide) (by decide)

/-- C3: from the initial state (on any fresh heap none of whose first 50
blocks holds the name `"a"`), `CreateFile("a", 3)` returns descriptor 0,
`WriteFile(0, "hello", 5)` returns 5, `LseekFile(0, 0, START)` returns 0,
`ReadFile(0, out, 5)` returns 5 with `out` = `hello`, and then `stat_file("a")`
reports an actual size of 5 and a link count of 1. -/
theorem C3_hello_scenario (heap : Nat → INODE) (raw : Nat → Char)
    (hheap : ∀ k, k < 50 → (heap k).FileName ≠ nameA) :
    ∃ s1 s2 s3 s4 rep,
      CreateFile (initState heap) (some nameA) 3 raw = some (0, s1) ∧
      WriteFile s1 0 hello 5 = some (5, s2) ∧
      LseekFile s2 0 0 START = some (0, s3) ∧
      ReadFile s3 0 5 = some (5, ['h', 'e', 'l', 'l', 'o'], s4) ∧
      stat_file s4 (some nameA) = (0, some rep) ∧
      rep.actualSize = 5 ∧ rep.linkCount = 1 := by
  obtain ⟨rest, hrest⟩ := initState_head heap
  have h1 := CreateFile_init_fresh heap nameA 3 raw (by decide) (by decide)
    (findName_initState heap nameA hheap)
  have hs1 : slotAt (setInode (setSlot (decFree (initState heap)) 0 (some (createdTable 3 0))) 0
      (createdInode (newInode (heap 0) 1) nameA 3 raw)) 0 = some (some (createdTable 3 0)) := rfl
  have hi1 : inodeOf (setInode (setSlot (decFree (initState heap)) 0 (some (createdTable 3 0))) 0
      (createdInode (newInode (heap 0) 1) nameA 3 raw)) (createdTable 3 0)
      = some (createdInode (newInode (heap 0) 1) nameA 3 raw) := by
    simp only [inodeOf, createdTable, setInode_head, setSlot_head, decFree_head, hrest,
      List.set_cons_zero, List.getElem?_cons_zero]
  obtain ⟨s2, hW, hs2, hh2⟩ : ∃ s2,
      WriteFile (setInode (setSlot (decFree (initState heap)) 0 (some (createdTable 3 0))) 0
        (createdInode (newInode (heap 0) 1) nameA 3 raw)) 0 hello 5 = some (5, s2) ∧
      slotAt s2 0 = some (some
        { readoffset := 0, writeoffset := 5, count := 1, mode := 3, ptrinode := 0 }) ∧
      s2.head = { createdInode (newInode (heap 0) 1) nameA 3 raw with
          Buffer := BufferPtr.live 2048 (storeAt raw 0 ['h', 'e', 'l', 'l', 'o'])
          FileActualSize := 5 } :: rest := by
    refine ⟨_, WriteFile_ok hello ['h', 'e', 'l', 'l', 'o'] 5 hs1 hi1 (Or.inr rfl) (Or.inr rfl)
      (show (0 : Int) ≠ 2048 by decide) rfl
      (show (createdInode (newInode (heap 0) 1) nameA 3 raw).Buffer = BufferPtr.live 2048 raw
        from rfl)
      (show (0 : Int) ≤ 5 ∧ (0 : Int) ≤ 0 ∧ (0 : Int) + 5 ≤ ((2048 : Nat) : Int) by decide)
      (show inInt ((0 : Int) + 5) ∧ inInt ((0 : Int) + 5) by decide)
      (by rfl), rfl, ?_⟩
    simp only [setInode_head, setSlot_head, decFree_head, hrest, createdTable,
      List.set_cons_zero]
    rfl
  have hi2 : inodeOf s2 { readoffset := 0, writeoffset := 5, count := 1, mode := 3, ptrinode := 0 }
      = some { createdInode (newInode (heap 0) 1) nameA 3 raw with
          Buffer := BufferPtr.live 2048 (storeAt raw 0 ['h', 'e', 'l', 'l', 'o'])
          FileActualSize := 5 } := by
    simp only [inodeOf, hh2, List.getElem?_cons_zero]
  have hL : LseekFile s2 0 0 START = some (0, setSlot s2 0
      (some { readoffset := 0, writeoffset := 5, count := 1, mode := 3, ptrinode := 0 })) := by
    simp only [LseekFile, seekRead, hs2, hi2]
    rfl
  have hR := ReadFile_ok ['h', 'e', 'l', 'l', 'o'] 5
    (show slotAt (setSlot s2 0
        (some { readoffset := 0, writeoffset := 5, count := 1, mode := 3, ptrinode := 0 })) 0
      = some (some { readoffset := 0, writeoffset := 5, count := 1, mode := 3, ptrinode := 0 })
      from rfl)
    (show inodeOf (setSlot s2 0
        (some { readoffset := 0, writeoffset := 5, count := 1, mode := 3, ptrinode := 0 }))
        { readoffset := 0, writeoffset := 5, count := 1, mode := 3, ptrinode := 0 } = _
      from hi2)
    (Or.inr rfl) (Or.inr rfl) (show (0 : Int) ≠ 5 by decide) rfl rfl
    (show (0 : Int) ≤ (if (5 : Int) - 0 < 5 then (5 : Int) - 0 else 5) ∧ (0 : Int) ≤ 0 ∧
      (0 : Int) ≤ ((2048 : Nat) : Int) by decide)
    (by rfl)
  refine ⟨_, s2,
    setSlot s2 0 (some { readoffset := 0, writeoffset := 5, count := 1, mode := 3, ptrinode := 0 }),
    setSlot
      (setSlot s2 0
        (some { readoffset := 0, writeoffset := 5, count := 1, mode := 3, ptrinode := 0 }))
      0 (some { readoffset := 5, writeoffset := 5, count := 1, mode := 3, ptrinode := 0 }),
    report { createdInode (newInode (heap 0) 1) nameA 3 raw with
      Buffer := BufferPtr.live 2048 (storeAt raw 0 ['h', 'e', 'l', 'l', 'o'])
      FileActualSize := 5 },
    h1, hW, hL, hR, ?_, rfl, rfl⟩
  simp only [stat_file, setSlot_head, hh2, findName, createdInode, if_true,
    List.getElem?_cons_zero]

/-- C3 at a concrete input: a zeroed heap holds the name `"a"` nowhere. -/
theorem C3_witness :
    ∃ s1 s2 s3 s4 rep,
      CreateFile (initState zeroRaw) (some nameA) 3 zeroBytes = some (0, s1) ∧
      WriteFile s1 0 hello 5 = some (5, s2) ∧
      LseekFile s2 0 0 START = some (0, s3) ∧
      ReadFile s3 0 5 = some (5, ['h', 'e', 'l', 'l', 'o'], s4) ∧
      stat_file s4 (some nameA) = (0, some rep) ∧
      rep.actualSize = 5 ∧ rep.linkCount = 1 :=
  C3_hello_scenario zeroRaw zeroBytes (fun _ _ => show ([] : List Char) ≠ nameA by decide)

/-- C4 (the code at the failing input): a successful `rm_File` on a handle
whose inode has link count 1 leaves that inode with `FileType` 0; yet from the
initial state, after `CreateFile("a", 3)` (returns 0) and `rm_File("a")`
(returns 0), inode 1 has `FileType` 0 and link count 0 and still bears the name
`"a"`, and the next `CreateFile("a", 3)` returns `-3`. -/
theorem C4_create_after_rm_fails :
    (∀ (s t : State) (name : List Char) (fd : Nat) (ft : FILETABLE) (ino : INODE),
      rm_File s name = some (0, t) → GetFDFromName s name = some fd →
      s.UFDTArr fd = some ft → inodeOf s ft = some ino → ino.LinkCount = 1 →
      ∃ ino1, t.head[ft.ptrinode]? = some ino1 ∧ ino1.FileType = 0) ∧
    results (initState zeroRaw)
      [Op.create (some nameA) 3 zeroBytes, Op.rm nameA, Op.create (some nameA) 3 zeroBytes]
      = some [0, 0, -3] ∧
    (run (initState zeroRaw) [Op.create (some nameA) 3 zeroBytes, Op.rm nameA]).map
      (fun s => (s.head.map (fun i => (i.FileName, i.FileType, i.LinkCount))).take 1)
      = some [(nameA, 0, 0)] := by
  refine ⟨?_, by decide, by decide⟩
  intro s t name fd ft ino hrm hfd hslot hino hlink
  have hlink0 : ino.LinkCount - 1 = 0 := by omega
  simp only [rm_File, hfd, hslot, hino, hlink0, if_true] at hrm
  split at hrm
  · exact absurd hrm (by simp)
  · next b hb =>
    simp only [Option.some.injEq, Prod.mk.injEq, true_and] at hrm
    subst hrm
    exact ⟨_, getElem?_set_of_some _ hino, rfl⟩

/-- C5 (the code at the failing input): `FreeInode` is never negative in a
reachable state, but `CreateFile("a", 3)`, `OpenFile("a", 3)`, `rm_File("a")`,
`rm_File("a")` all succeed from the initial state and end in a reachable state
with `FreeInode = 51` and `TotalInodes = 50`. -/
theorem C5_free_inodes_exceed_total :
    (∀ s, Reachable s → 0 ≤ s.SUPERBLOCKobj.FreeInode) ∧
    results (initState zeroRaw)
      [Op.create (some nameA) 3 zeroBytes, Op.openf (some nameA) 3 zeroTable,
        Op.rm nameA, Op.rm nameA] = some [0, 1, 0, 0] ∧
    ∃ s, run (initState zeroRaw)
      [Op.create (some nameA) 3 zeroBytes, Op.openf (some nameA) 3 zeroTable,
        Op.rm nameA, Op.rm nameA] = some s ∧ Reachable s ∧
      s.SUPERBLOCKobj.FreeInode = 51 ∧ s.SUPERBLOCKobj.TotalInodes = 50 := by
  refine ⟨fun s hs => (FreeInode_nonneg hs).1, by decide, ?_⟩
  obtain ⟨s, hs, hp⟩ := run_check
    (fun s => decide (s.SUPERBLOCKobj.FreeInode = 51 ∧ s.SUPERBLOCKobj.TotalInodes = 50))
    (show (run (initState zeroRaw)
      [Op.create (some nameA) 3 zeroBytes, Op.openf (some nameA) 3 zeroTable,
        Op.rm nameA, Op.rm nameA]).map _ = some true by decide)
  have hp2 := of_decide_eq_true hp
  exact ⟨s, hs, run_reachable _ (Reachable.init zeroRaw) hs, hp2.1, hp2.2⟩

/-- C6: starting from the initial state (any heap content), when `CreateFile`
succeeds for each entry of a list and `rm_File` then succeeds for each of those
names (taken in any order), `FreeInode` is back at its initial value 50.  The
statement needs no bound on the number of names and no condition on them. -/
theorem C6_free_inodes_restored (heap : Nat → INODE)
    (cs : List (List Char × Int × (Nat → Char))) (names : List (List Char)) (s1 s2 : State)
    (hnames : names.Perm (cs.map (fun c => c.1)))
    (hcreate : createAll (initState heap) cs = some s1)
    (hrm : rmAll s1 names = some s2) :
    s2.SUPERBLOCKobj.FreeInode = 50 ∧
      (initState heap).SUPERBLOCKobj.FreeInode = 50 := by
  have hlen : names.length = cs.length := by
    rw [hnames.length_eq, List.length_map]
  rw [rmAll_free names hrm, createAll_free cs hcreate, initState_free, hlen]
  exact ⟨by omega, rfl⟩

/-- C6 at a concrete input: the two distinct names `"a"` and `"b"` are
created and removed on the initial state with a zeroed heap. -/
theorem C6_witness :
    ∃ s1 s2,
      createAll (initState zeroRaw) [(nameA, 3, zeroBytes), (nameB, 1, zeroBytes)] = some s1 ∧
      rmAll s1 [nameA, nameB] = some s2 ∧ s2.SUPERBLOCKobj.FreeInode = 50 := by
  have hsome : ((createAll (initState zeroRaw)
      [(nameA, 3, zeroBytes), (nameB, 1, zeroBytes)]).bind
        (fun s => rmAll s [nameA, nameB])).isSome = true := by decide
  cases h1 : createAll (initState zeroRaw) [(nameA, 3, zeroBytes), (nameB, 1, zeroBytes)] with
  | none => simp [h1] at hsome
  | some s1 =>
    cases h2 : rmAll s1 [nameA, nameB] with
    | none => simp [h1, h2] at hsome
    | some s2 =>
      exact ⟨s1, s2, rfl, h2,
        (C6_free_inodes_restored zeroRaw [(nameA, 3, zeroBytes), (nameB, 1, zeroBytes)]
          [nameA, nameB] s1 s2 (List.Perm.refl _) h1 h2).1⟩

/-- C7: after a successful `CreateFile(name, p)`, with a descriptor slot still
empty, `OpenFile(name, m)` for a mode `m` in {1,2,3} returns a non-negative
descriptor when `m ≤ p`, and returns `-3` (permission denied) with the state
untouched when `m > p`. -/
theorem C7_open_after_create (s s1 : State) (name : List Char) (p : Int) (raw : Nat → Char)
    (fd : Int) (m : Int) (rawT : FILETABLE)
    (hc : CreateFile s (some name) p raw = some (fd, s1)) (hfd : 0 ≤ fd)
    (hm : m = 1 ∨ m = 2 ∨ m = 3) (hslot : ∃ j, j < 50 ∧ s1.UFDTArr j = none) :
    (m ≤ p → ∃ fd2 s2, OpenFile s1 (some name) m rawT = some (fd2, s2) ∧ 0 ≤ fd2) ∧
    (p < m → OpenFile s1 (some name) m rawT = some (-3, s1)) := by
  obtain ⟨t, ino, hfn, -, hino, -, -, -, -, -, hs1⟩ := CreateFile_success hc hfd
  obtain ⟨hfind, hget⟩ := findName_after_create (createdInode ino name p raw) hfn hino rfl
  have hfind1 : findName s1.head name = some t := by
    rw [hs1]
    exact hfind
  have hget1 : s1.head[t]? = some (createdInode ino name p raw) := by
    rw [hs1]
    exact hget
  have hm0 : ¬ m ≤ 0 := by omega
  obtain ⟨j, hj, hjn⟩ := hslot
  have hnull : firstNull s1 < 50 := firstNull_lt_of_none s1 j hj hjn
  constructor
  · intro hmp
    have hperm : ¬ (createdInode ino name p raw).permission < m := by
      simp only [createdInode]
      omega
    refine ⟨(firstNull s1 : Int),
      setInode (setSlot s1 (firstNull s1) (some (openedTable rawT m t))) t
        { createdInode ino name p raw with
          ReferenceCount := (createdInode ino name p raw).ReferenceCount + 1 },
      ?_, Int.ofNat_nonneg _⟩
    simp only [OpenFile, hm0, Get_Inode, hfind1, hget1, hperm, hnull, if_true, if_false]
  · intro hmp
    have hperm : (createdInode ino name p raw).permission < m := by
      simp only [createdInode]
      omega
    simp only [OpenFile, hm0, Get_Inode, hfind1, hget1, hperm, if_true, if_false]

/-- C7 at a concrete input: `CreateFile("a", 2)` on the initial state, then
`OpenFile("a", 1)` succeeds and `OpenFile("a", 3)` is denied. -/
theorem C7_witness :
    (∃ fd2 s2, OpenFile (afterCreateA 2) (some nameA) 1 zeroTable = some (fd2, s2) ∧ 0 ≤ fd2) ∧
    OpenFile (afterCreateA 2) (some nameA) 3 zeroTable = some (-3, afterCreateA 2) :=
  ⟨(C7_open_after_create (initState zeroRaw) (afterCreateA 2) nameA 2 zeroBytes 0 1 zeroTable
      (by rfl) (by decide) (Or.inl rfl) ⟨1, by decide, by rfl⟩).1 (by decide),
   (C7_open_after_create (initState zeroRaw) (afterCreateA 2) nameA 2 zeroBytes 0 3 zeroTable
      (by rfl) (by decide) (Or.inr (Or.inr rfl)) ⟨1, by decide, by rfl⟩).2 (by decide)⟩

/-- C8: in a state with `FreeInode > 0` that has an inode named `n`,
`CreateFile(n, p)` with `p` in {1,2,3} returns `-3` (file already exists),
lowers `FreeInode` by exactly one and leaves the inode list and every
descriptor slot as they were; and from the initial state, on any heap content,
the second of two calls `CreateFile("a", 3)` returns `-3`. -/
theorem C8_create_existing_name :
    (∀ (s : State) (n : List Char) (p : Int) (raw : Nat → Char),
        0 < s.SUPERBLOCKobj.FreeInode → (∃ ino ∈ s.head, ino.FileName = n) →
        (p = 1 ∨ p = 2 ∨ p = 3) →
        ∃ t, CreateFile s (some n) p raw = some (-3, t) ∧
          t.SUPERBLOCKobj.FreeInode = s.SUPERBLOCKobj.FreeInode - 1 ∧
          t.SUPERBLOCKobj.TotalInodes = s.SUPERBLOCKobj.TotalInodes ∧
          t.head = s.head ∧ t.UFDTArr = s.UFDTArr) ∧
    (∀ (heap : Nat → INODE) (raw1 raw2 : Nat → Char),
        ∃ r1 s1 s2, CreateFile (initState heap) (some nameA) 3 raw1 = some (r1, s1) ∧
          CreateFile s1 (some nameA) 3 raw2 = some (-3, s2)) := by
  constructor
  · intro s n p raw hfree hex hp
    exact ⟨decFree s, CreateFile_existing s n p raw hfree hex hp, rfl, rfl, rfl, rfl⟩
  · intro heap raw1 raw2
    obtain ⟨r1, s1, h1, hf, hex⟩ := CreateFile_init heap 3 raw1 (Or.inr (Or.inr rfl))
    exact ⟨r1, s1, decFree s1, h1,
      CreateFile_existing s1 nameA 3 raw2 (by omega) hex (Or.inr (Or.inr rfl))⟩

/-- C8 at a concrete input: the state after `CreateFile("a", 3)` on a zeroed
heap has 49 free inodes and an inode named `"a"`; `CreateFile("a", 3)` there
returns `-3` and leaves 48. -/
theorem C8_witness :
    ∃ t, CreateFile (afterCreateA 3) (some nameA) 3 zeroBytes = some (-3, t) ∧
      t.SUPERBLOCKobj.FreeInode = 48 :=
  (C8_create_existing_name.1 (afterCreateA 3) nameA 3 zeroBytes (by decide)
    ⟨createdInode (newInode zeroInode 1) nameA 3 zeroBytes, List.mem_set _ 0 (by decide) _, rfl⟩
    (Or.inr (Or.inr rfl))).imp
    (fun _ h => ⟨h.1, by rw [h.2.1]; rfl⟩)

/-- C9 (the code at the failing input): `CreateFile` with permission 0 or
above 3 returns `-1` and leaves the state as it was, but on the initial state
`CreateFile("a", -1)` does not return `-1`; it returns descriptor 0, takes a
free inode and leaves a REGULAR inode whose permission is `-1`. -/
theorem C9_negative_permission_accepted :
    (∀ (s : State) (name : List Char) (p : Int) (raw : Nat → Char), p = 0 ∨ p > 3 →
      CreateFile s (some name) p raw = some (-1, s)) ∧
    (CreateFile (initState zeroRaw) (some nameA) (-1) zeroBytes).map
      (fun r => (r.1, r.2.SUPERBLOCKobj.FreeInode,
        (r.2.head.map (fun i => (i.FileName, i.FileType, i.permission))).take 1))
      = some (0, 49, [(nameA, REGULAR, -1)]) := by
  refine ⟨?_, by decide⟩
  intro s name p raw hp
  simp only [CreateFile, hp, if_true]

/-- C11 (as stated, refuted): on the initial state `CreateFile` with a name of
60 characters, permission 3, has no defined result: `strcpy` writes 61
characters into `FileName[50]`. -/
theorem C11_counterexample :
    CreateFile (initState zeroRaw) (some (List.replicate 60 'a')) 3 zeroBytes = none ∧
    0 < (initState zeroRaw).SUPERBLOCKobj.FreeInode ∧
    (initState zeroRaw).UFDTArr 0 = none ∧
    ((initState zeroRaw).head.map (fun i => (i.FileName, i.FileType))).take 1 = [([], 0)] :=
  ⟨rfl, by decide, rfl, by decide⟩

/-- C11 (amended): in a state with `FreeInode > 0`, an inode with `FileType`
0 and a `NULL` descriptor slot, for a name of at most 49 characters that no
inode bears and `p` in {1,2,3}, `CreateFile(name, p)` returns the smallest
index `i` of a `NULL` slot; the first inode `k` with `FileType` 0 becomes
REGULAR with that name, reference count 1, link count 1, actual size 0,
`FileSize` 2048, permission `p` and a 2048-byte buffer, its inode number kept;
slot `i` holds a handle with mode `p`, both offsets 0, pointing to inode `k`;
`FreeInode` goes down by one; every other inode and slot is as before. -/
theorem C11_create_fresh (s : State) (name : List Char) (p : Int) (raw : Nat → Char)
    (hfree : 0 < s.SUPERBLOCKobj.FreeInode) (hino : ∃ x ∈ s.head, x.FileType = 0)
    (hslot : ∃ j, j < 50 ∧ s.UFDTArr j = none) (hlen : name.length < 50)
    (hname : ∀ x ∈ s.head, x.FileName ≠ name) (hp : p = 1 ∨ p = 2 ∨ p = 3) :
    ∃ (i k : Nat) (ino new : INODE) (ft : FILETABLE) (t : State),
      CreateFile s (some name) p raw = some ((i : Int), t) ∧
      i < 50 ∧ s.UFDTArr i = none ∧ (∀ j, j < i → s.UFDTArr j ≠ none) ∧
      s.head[k]? = some ino ∧ ino.FileType = 0 ∧
      (∀ j y, j < k → s.head[j]? = some y → y.FileType ≠ 0) ∧
      t.head[k]? = some new ∧
      new.FileType = REGULAR ∧ new.FileName = name ∧ new.ReferenceCount = 1 ∧
      new.LinkCount = 1 ∧ new.FileActualSize = 0 ∧ new.FileSize = 2048 ∧
      new.permission = p ∧ new.InodeNumber = ino.InodeNumber ∧
      new.Buffer = BufferPtr.live 2048 raw ∧
      (∀ j, j ≠ k → t.head[j]? = s.head[j]?) ∧
      t.UFDTArr i = some ft ∧
      ft.mode = p ∧ ft.readoffset = 0 ∧ ft.writeoffset = 0 ∧ ft.ptrinode = k ∧
      (∀ j, j ≠ i → t.UFDTArr j = s.UFDTArr j) ∧
      t.SUPERBLOCKobj.FreeInode = s.SUPERBLOCKobj.FreeInode - 1 ∧
      t.SUPERBLOCKobj.TotalInodes = s.SUPERBLOCKobj.TotalInodes := by
  obtain ⟨k, hk⟩ := firstFree_some_of_mem hino
  obtain ⟨ino, hget, htype⟩ := firstFree_spec hk
  obtain ⟨hi, hnone, hmin⟩ := firstNull_spec s hslot
  have hfn : findName s.head name = none := findName_none_iff.mpr hname
  have hp0 : ¬ (p = 0 ∨ p > 3) := by omega
  have hf0 : ¬ s.SUPERBLOCKobj.FreeInode = 0 := by omega
  refine ⟨firstNull s, k, ino, createdInode ino name p raw, createdTable p k,
    setInode (setSlot (decFree s) (firstNull s) (some (createdTable p k))) k
      (createdInode ino name p raw),
    ?_, hi, hnone, hmin, hget, htype, firstFree_min hk, ?_, rfl, rfl, rfl, rfl, rfl, rfl, rfl,
    rfl, rfl, ?_, ?_, rfl, rfl, rfl, rfl, ?_, rfl, rfl⟩
  · simp only [CreateFile, hp0, hf0, Get_Inode, decFree_head, hfn, hk, firstNull_decFree, hi,
      hlen, hget, and_self, if_true, if_false]
  · exact getElem?_set_of_some _ hget
  · intro j hj
    simp only [setInode_head, setSlot_head, decFree_head]
    exact List.getElem?_set_ne (Ne.symm hj)
  · simp
  · intro j hj
    simp only [setInode_UFDTArr]
    exact setSlot_other _ _ _ _ hj

/-- C11 (amended) at a concrete input: `CreateFile("b", 1)` in the state after
`CreateFile("a", 3)`. -/
theorem C11_witness :
    ∃ (i k : Nat) (t : State),
      CreateFile (afterCreateA 3) (some nameB) 1 zeroBytes = some ((i : Int), t) ∧
      i < 50 ∧ (afterCreateA 3).UFDTArr i = none ∧
      (t.head[k]?).map (fun x => (x.FileName, x.FileType)) = some (nameB, REGULAR) := by
  obtain ⟨i, k, ino, new, ft, t, h1, h2, h3, -, -, -, -, h8, h9, h10, -⟩ :=
    C11_create_fresh (afterCreateA 3) nameB 1 zeroBytes (by decide)
      ⟨newInode zeroInode 2, by
        simp [afterCreateA, initState, CreateDILB, InitialiseSuperBlock, boot, MAXINODE,
          List.range_succ_eq_map, zeroRaw], rfl⟩
      ⟨1, by decide, rfl⟩ (by decide)
      (by
        intro x hx
        simp only [afterCreateA, setInode_head, setSlot_head, decFree_head] at hx
        rcases List.mem_or_eq_of_mem_set hx with hx | rfl
        · rw [initState_head_eq] at hx
          obtain ⟨j, -, rfl⟩ := List.mem_map.mp hx
          exact (by decide : ([] : List Char) ≠ nameB)
        · exact (by decide : nameA ≠ nameB))
      (Or.inl rfl)
  exact ⟨i, k, t, h1, h2, h3, by simp [h8, h9, h10]⟩

/-- C12: for a descriptor `fd` in `0..49`, `ReadFile(fd, out, n)` returns `-1`
when the slot is `NULL`; else `-2` when the mode of the handle is neither READ
nor READ+WRITE (so for every handle whose mode is WRITE); else `-2` when the
permission of the inode is neither READ nor READ+WRITE; else `-3` when the read
offset equals the actual size; else `-4` when the inode is not REGULAR.  In
each case nothing is stored in `out` and the state is the one before the call. -/
theorem C12_read_errors (s : State) (fd n : Int) (hfd : 0 ≤ fd ∧ fd < 50) :
    (s.UFDTArr fd.toNat = none → ReadFile s fd n = some (-1, [], s)) ∧
    (∀ ft, s.UFDTArr fd.toNat = some ft →
      (ft.mode ≠ READ ∧ ft.mode ≠ READ + WRITE → ReadFile s fd n = some (-2, [], s)) ∧
      (ft.mode = WRITE → ReadFile s fd n = some (-2, [], s)) ∧
      ∀ ino, inodeOf s ft = some ino → (ft.mode = READ ∨ ft.mode = READ + WRITE) →
        (ino.permission ≠ READ ∧ ino.permission ≠ READ + WRITE →
          ReadFile s fd n = some (-2, [], s)) ∧
        ((ino.permission = READ ∨ ino.permission = READ + WRITE) →
          (ft.readoffset = ino.FileActualSize → ReadFile s fd n = some (-3, [], s)) ∧
          (ft.readoffset ≠ ino.FileActualSize → ino.FileType ≠ REGULAR →
            ReadFile s fd n = some (-4, [], s)))) := by
  have hs := slotAt_of_range s fd hfd
  refine ⟨?_, ?_⟩
  · intro h0
    simp only [ReadFile, hs, h0]
  · intro ft hft
    have hbad : ft.mode ≠ READ ∧ ft.mode ≠ READ + WRITE →
        ReadFile s fd n = some (-2, [], s) := by
      intro hm
      simp only [ReadFile, hs, hft]
      rw [if_pos hm]
    refine ⟨hbad, ?_, ?_⟩
    · intro hw
      apply hbad
      rw [hw]
      decide
    · intro ino hino hmode
      have hm : ¬ (ft.mode ≠ READ ∧ ft.mode ≠ READ + WRITE) := by
        rcases hmode with h | h <;> simp [h]
      refine ⟨?_, ?_⟩
      · intro hp
        simp only [ReadFile, hs, hft]
        rw [if_neg hm]
        simp only [hino]
        rw [if_pos hp]
      · intro hperm
        have hp : ¬ (ino.permission ≠ READ ∧ ino.permission ≠ READ + WRITE) := by
          rcases hperm with h | h <;> simp [h]
        refine ⟨?_, ?_⟩
        · intro heof
          simp only [ReadFile, hs, hft]
          rw [if_neg hm]
          simp only [hino]
          rw [if_neg hp, if_pos heof]
        · intro heof htype
          simp only [ReadFile, hs, hft]
          rw [if_neg hm]
          simp only [hino]
          rw [if_neg hp, if_neg heof, if_pos htype]

/-- C12 at a concrete input: the handle that `CreateFile("a", 2)` leaves in
slot 0 has mode WRITE, and `ReadFile(0, out, 5)` returns `-2`. -/
theorem C12_witness :
    ReadFile (afterCreateA 2) 0 5 = some (-2, [], afterCreateA 2) :=
  ((C12_read_errors (afterCreateA 2) 0 5 (by decide)).2 (createdTable 2 0) rfl).2.1 rfl

/-- C13 (as stated, refuted): after `CreateFile("a", 3)` (the fresh buffer
holding `z` everywhere), `OpenFile("a", 2)`, `truncate_File("a")`,
`LseekFile(1, 1, START)` and `WriteFile(1, "x", 1)` the buffer of the file
starts with the bytes NUL, `x`, its actual size is 2 and the read offset of
descriptor 0 is 0; `ReadFile(0, out, 2)` passes every check and returns 2, and
`out` receives NUL, NUL. -/
theorem C13_counterexample :
    (run (initState zeroRaw)
      [Op.create (some nameA) 3 (fun _ => 'z'), Op.openf (some nameA) 2 zeroTable,
        Op.truncate nameA, Op.lseek 1 1 START, Op.write 1 ['x', NUL] 1]).bind
      (fun s => (ReadFile s 0 2).map
        (fun r => (r.1, r.2.1, bufferAt s 0 [0, 1, 2], offsetsAt s 0, countsAt s 0)))
      = some (2, [NUL, NUL], [NUL, 'x', NUL], some (0, 0, 3), some (1, 2, 1, 2)) := by
  rfl

/-- C13 (amended): for a `ReadFile(fd, out, n)` call that passes all error
checks, with `0 ≤ n`, `0 ≤ readoffset ≤ FileActualSize ≤` the size of the
buffer, and `k = min(n, FileActualSize - readoffset)`: the call returns `n`;
`out` receives `k` characters, namely the bytes of the buffer from the old
read offset up to the first zero byte among them and zero bytes from there on
(so exactly those `k` bytes when none of them is zero); the read offset
advances by `k`; the inode list, the superblock and every other slot are as
before. -/
theorem C13_read_copies (s : State) (fd n : Int) (ft : FILETABLE) (ino : INODE)
    (size : Nat) (bytes : Nat → Char)
    (hfd : 0 ≤ fd ∧ fd < 50) (hslot : s.UFDTArr fd.toNat = some ft)
    (hino : inodeOf s ft = some ino)
    (hmode : ft.mode = READ ∨ ft.mode = READ + WRITE)
    (hperm : ino.permission = READ ∨ ino.permission = READ + WRITE)
    (heof : ft.readoffset ≠ ino.FileActualSize) (htype : ino.FileType = REGULAR)
    (hbuf : ino.Buffer = BufferPtr.live size bytes)
    (hn : 0 ≤ n) (hro : 0 ≤ ft.readoffset) (hle : ft.readoffset ≤ ino.FileActualSize)
    (hsz : ino.FileActualSize ≤ size) :
    ∃ (out : List Char) (t : State),
      ReadFile s fd n = some (n, out, t) ∧
      out.length = (min n (ino.FileActualSize - ft.readoffset)).toNat ∧
      (∀ j, j < out.length → (∀ i, i ≤ j → bytes (ft.readoffset.toNat + i) ≠ NUL) →
        out[j]? = some (bytes (ft.readoffset.toNat + j))) ∧
      (∀ j, j < out.length → (∃ i, i ≤ j ∧ bytes (ft.readoffset.toNat + i) = NUL) →
        out[j]? = some NUL) ∧
      t.UFDTArr fd.toNat = some { ft with
        readoffset := ft.readoffset + min n (ino.FileActualSize - ft.readoffset) } ∧
      (∀ j, j ≠ fd.toNat → t.UFDTArr j = s.UFDTArr j) ∧
      t.head = s.head ∧ t.SUPERBLOCKobj = s.SUPERBLOCKobj := by
  have hk : (if ino.FileActualSize - ft.readoffset < n
      then ino.FileActualSize - ft.readoffset else n)
      = min n (ino.FileActualSize - ft.readoffset) := by
    rw [min_def]
    split <;> split <;> omega
  have hk0 : 0 ≤ min n (ino.FileActualSize - ft.readoffset) := by
    rw [min_def]
    split <;> omega
  have hkle : min n (ino.FileActualSize - ft.readoffset) ≤ ino.FileActualSize - ft.readoffset :=
    min_le_right _ _
  obtain ⟨out, hout⟩ := strncpy_defined bytes size
    (min n (ino.FileActualSize - ft.readoffset)).toNat ft.readoffset.toNat (by omega)
  have hR := ReadFile_ok out n (slotAt_of_range s fd hfd ▸ congrArg some hslot) hino hmode hperm
    heof htype hbuf (by rw [hk]; omega) (by rw [hk]; exact hout)
  rw [hk] at hR
  have hlen := strncpy_length _ _ _ _ _ hout
  refine ⟨out, _, hR, hlen, ?_, ?_, by simp, ?_, rfl, rfl⟩
  · intro j hj
    exact (strncpy_get _ _ _ _ _ hout j (hlen ▸ hj)).1
  · intro j hj
    exact (strncpy_get _ _ _ _ _ hout j (hlen ▸ hj)).2
  · intro j hj
    exact setSlot_other _ _ _ _ hj

/-- C13 (amended) at a concrete input: after `"hello"` has been written to the
file `"a"`, `ReadFile(0, out, 3)` returns 3 and `out` has 3 characters. -/
theorem C13_witness :
    ∃ (out : List Char) (t : State),
      ReadFile (afterWriteA 3 hello5) 0 3 = some (3, out, t) ∧ out.length = 3 :=
  (C13_read_copies (afterWriteA 3 hello5) 0 3 { createdTable 3 0 with writeoffset := 5 }
    { createdInode (newInode zeroInode 1) nameA 3 zeroBytes with
      Buffer := BufferPtr.live 2048 (storeAt zeroBytes 0 hello5)
      FileActualSize := 5 }
    2048 (storeAt zeroBytes 0 hello5)
    (by decide) rfl rfl (Or.inr rfl) (Or.inr rfl) (show (0 : Int) ≠ 5 by decide) rfl rfl
    (by decide) (show (0 : Int) ≤ 0 by decide) (show (0 : Int) ≤ 5 by decide)
    (show (5 : Int) ≤ ((2048 : Nat) : Int) by decide)).imp
    (fun _ h => h.imp (fun _ h2 => ⟨h2.1, h2.2.1⟩))

/-- C14 (as stated, refuted): after `CreateFile("a", 2)` and
`LseekFile(0, 2047, START)` the handle is in mode WRITE on a REGULAR inode with
write offset 2047, and `WriteFile(0, "xy", 2)` has no defined result (the copy
leaves the 2048-byte buffer); and on a fresh file `WriteFile` of the two bytes
NUL, `x` returns 2 but stores NUL, NUL. -/
theorem C14_counterexample :
    run (initState zeroRaw)
      [Op.create (some nameA) 2 zeroBytes, Op.lseek 0 2047 START,
        Op.write 0 ['x', 'y', NUL] 2] = none ∧
    (run (initState zeroRaw)
      [Op.create (some nameA) 2 zeroBytes, Op.lseek 0 2047 START]).map
      (fun s => (offsetsAt s 0, countsAt s 0)) = some (some (0, 2047, 2), some (1, 2047, 1, 1)) ∧
    (WriteFile (afterCreateA 3) 0 [NUL, 'x'] 2).map
      (fun r => (r.1, bufferAt r.2 0 [0, 1])) = some (2, [NUL, NUL]) :=
  ⟨rfl, by decide, by decide⟩

/-- C14 (amended): for an occupied slot `fd` in `0..49`, `WriteFile(fd, data, n)`
returns `-1` when the mode of the handle or the permission of the inode is
neither WRITE nor READ+WRITE, else `-2` when the write offset is 2048, else `-3`
when the inode is not REGULAR, each with the state unchanged; otherwise, when
`0 ≤ n`, `data` has at least `n` bytes, `0 ≤ writeoffset`, `writeoffset + n` is
within the size of the buffer and the two sums `writeoffset + n` and
`FileActualSize + n` are values of `int`, it returns `n` and advances the write
offset and the actual size by `n`, whatever the bytes of `data` are; the buffer
holds at `[writeoffset, writeoffset + n)` the bytes of `data` up to its first
zero byte and zero bytes from there on (so the `n` bytes of `data` when none of
them is zero), and the rest of the buffer is as before; the read offset, every
other inode and slot and the superblock are as before. -/
theorem C14_write (s : State) (fd n : Int) (arr : List Char) (ft : FILETABLE) (ino : INODE)
    (hfd : 0 ≤ fd ∧ fd < 50) (hslot : s.UFDTArr fd.toNat = some ft)
    (hino : inodeOf s ft = some ino) :
    ((ft.mode ≠ WRITE ∧ ft.mode ≠ READ + WRITE) ∨
        (ino.permission ≠ WRITE ∧ ino.permission ≠ READ + WRITE) →
      WriteFile s fd arr n = some (-1, s)) ∧
    ((ft.mode = WRITE ∨ ft.mode = READ + WRITE) →
      (ino.permission = WRITE ∨ ino.permission = READ + WRITE) →
      (ft.writeoffset = MAXFILESIZE → WriteFile s fd arr n = some (-2, s)) ∧
      (ft.writeoffset ≠ MAXFILESIZE → ino.FileType ≠ REGULAR →
        WriteFile s fd arr n = some (-3, s)) ∧
      (ft.writeoffset ≠ MAXFILESIZE → ino.FileType = REGULAR →
        ∀ (size : Nat) (bytes : Nat → Char),
          ino.Buffer = BufferPtr.live size bytes → 0 ≤ n → n.toNat ≤ arr.length →
          0 ≤ ft.writeoffset → ft.writeoffset + n ≤ size →
          inInt (ft.writeoffset + n) → inInt (ino.FileActualSize + n) →
          ∃ (t : State) (newb : Nat → Char),
            WriteFile s fd arr n = some (n, t) ∧
            t.UFDTArr fd.toNat = some { ft with writeoffset := ft.writeoffset + n } ∧
            (∀ j, j ≠ fd.toNat → t.UFDTArr j = s.UFDTArr j) ∧
            t.head[ft.ptrinode]? = some { ino with
              Buffer := BufferPtr.live size newb
              FileActualSize := ino.FileActualSize + n } ∧
            (∀ j, j < n.toNat → (∀ i, i ≤ j → arr[i]? ≠ some NUL) →
              arr[j]? = some (newb (ft.writeoffset.toNat + j))) ∧
            (∀ j, j < n.toNat → (∃ i, i ≤ j ∧ arr[i]? = some NUL) →
              newb (ft.writeoffset.toNat + j) = NUL) ∧
            (∀ j, j < ft.writeoffset.toNat ∨ ft.writeoffset.toNat + n.toNat ≤ j →
              newb j = bytes j) ∧
            (∀ k, k ≠ ft.ptrinode → t.head[k]? = s.head[k]?) ∧
            t.SUPERBLOCKobj = s.SUPERBLOCKobj)) := by
  have hs : slotAt s fd = some (some ft) := by rw [slotAt_of_range s fd hfd, hslot]
  refine ⟨?_, ?_⟩
  · intro hbad
    by_cases hm : ft.mode ≠ WRITE ∧ ft.mode ≠ READ + WRITE
    · simp only [WriteFile, hs]
      rw [if_pos hm]
    · have hp : ino.permission ≠ WRITE ∧ ino.permission ≠ READ + WRITE := by
        rcases hbad with h | h
        · exact absurd h hm
        · exact h
      simp only [WriteFile, hs]
      rw [if_neg hm]
      simp only [hino]
      rw [if_pos hp]
  · intro hmode hperm
    have hm : ¬ (ft.mode ≠ WRITE ∧ ft.mode ≠ READ + WRITE) := by
      rcases hmode with h | h <;> simp [h]
    have hp : ¬ (ino.permission ≠ WRITE ∧ ino.permission ≠ READ + WRITE) := by
      rcases hperm with h | h <;> simp [h]
    refine ⟨?_, ?_, ?_⟩
    · intro hfull
      simp only [WriteFile, hs]
      rw [if_neg hm]
      simp only [hino]
      rw [if_neg hp, if_pos hfull]
    · intro hfull htype
      simp only [WriteFile, hs]
      rw [if_neg hm]
      simp only [hino]
      rw [if_neg hp, if_neg hfull, if_pos htype]
    · intro hfull htype size bytes hbuf hn harr hwo hfit hov1 hov2
      obtain ⟨w, hw⟩ := strncpy_defined (memOf arr) arr.length n.toNat 0 (by omega)
      have hlen : w.length = n.toNat := strncpy_length _ _ _ _ w hw
      have hW := WriteFile_ok arr w n hs hino hmode hperm hfull htype hbuf
        ⟨hn, hwo, hfit⟩ ⟨hov1, hov2⟩ hw
      refine ⟨_, storeAt bytes ft.writeoffset.toNat w, hW, by simp, ?_, ?_, ?_, ?_, ?_, ?_, rfl⟩
      · intro j hj
        simp only [setInode_UFDTArr]
        exact setSlot_other _ _ _ _ hj
      · exact getElem?_set_of_some _ hino
      · intro j hj hnn
        have hjw : j < w.length := by omega
        have hget := (strncpy_get _ _ _ _ w hw j hj).1 (by
          intro i hi
          rw [Nat.zero_add]
          intro hcon
          exact hnn i hi (by rw [memOf_get arr i (by omega), hcon]))
        rw [Nat.zero_add] at hget
        rw [storeAt_get bytes _ w j hjw, memOf_get arr j (by omega)]
        rw [List.getElem?_eq_getElem hjw] at hget
        exact hget.symm
      · intro j hj hex
        have hjw : j < w.length := by omega
        obtain ⟨i, hi, hnul⟩ := hex
        have hget := (strncpy_get _ _ _ _ w hw j hj).2 ⟨i, hi, by
          rw [Nat.zero_add]
          have := memOf_get arr i (by omega)
          rw [hnul] at this
          exact (Option.some.inj this).symm⟩
        rw [storeAt_get bytes _ w j hjw]
        rw [List.getElem?_eq_getElem hjw] at hget
        exact Option.some.inj hget
      · intro j hj
        exact storeAt_outside bytes _ w j (by omega)
      · intro k hk
        simp only [setInode_head, setSlot_head]
        exact List.getElem?_set_ne (Ne.symm hk)

/-- C14 (amended) at a concrete input: `WriteFile(0, "hello", 5)` on the file
created by `CreateFile("a", 3)`. -/
theorem C14_witness :
    ∃ t, WriteFile (afterCreateA 3) 0 hello 5 = some (5, t) ∧
      (t.head[0]?).map (fun i => i.FileActualSize) = some 5 := by
  obtain ⟨t, newb, h1, -, -, h4, -⟩ :=
    (C14_write (afterCreateA 3) 0 5 hello (createdTable 3 0)
      (createdInode (newInode zeroInode 1) nameA 3 zeroBytes) (by decide) rfl rfl).2
      (Or.inr rfl) (Or.inr rfl) |>.2.2 (show (0 : Int) ≠ 2048 by decide) rfl 2048 zeroBytes
      rfl (by decide) (by decide) (show (0 : Int) ≤ 0 by decide)
      (show (0 : Int) + 5 ≤ ((2048 : Nat) : Int) by decide)
      (show inInt ((0 : Int) + 5) by decide) (show inInt ((0 : Int) + 5) by decide)
  exact ⟨t, h1, by rw [show (createdTable 3 0).ptrinode = 0 from rfl] at h4; rw [h4]; rfl⟩

/-- C16 (the code at the failing input): for whence END, when the sum
`FileActualSize + delta` is a value of `int`, the code returns `-1` when that sum
is above 2048; when it is not, and the sum `offset + delta` is a value of `int`
(`offset` is the old read offset or, in mode WRITE, the old write offset), the
code returns `-1` when `offset + delta < 0` and otherwise returns 0 and sets the
offset to `FileActualSize + delta`.  So on the file `"a"` holding `"hello"`
with read offset 0, `LseekFile(0, -3, END)` returns `-1` although the result 2
lies in `0..2048`; and after `OpenFile("a", 1)`, `LseekFile(1, 5, START)`,
`truncate_File("a")`, the call `LseekFile(1, -3, END)` returns 0 and leaves the
read offset of descriptor 1 at `-3`.  (`LseekFile(0, 2147483647, END)` on the
file holding `"hello"` overflows the sum `5 + 2147483647`.) -/
theorem C16_lseek_end_wrong_check :
    (∀ (s : State) (fd delta : Int) (ft : FILETABLE) (ino : INODE),
      0 ≤ fd ∧ fd < 50 → s.UFDTArr fd.toNat = some ft → inodeOf s ft = some ino →
      inInt (ino.FileActualSize + delta) →
      ((ft.mode = READ ∨ ft.mode = READ + WRITE) →
        (ino.FileActualSize + delta > MAXFILESIZE →
          LseekFile s fd delta END = some (-1, s)) ∧
        (ino.FileActualSize + delta ≤ MAXFILESIZE → inInt (ft.readoffset + delta) →
          (0 ≤ ft.readoffset + delta →
            LseekFile s fd delta END = some (0, setSlot s fd.toNat
              (some { ft with readoffset := ino.FileActualSize + delta }))) ∧
          (ft.readoffset + delta < 0 → LseekFile s fd delta END = some (-1, s)))) ∧
      (ft.mode = WRITE →
        (ino.FileActualSize + delta > MAXFILESIZE →
          LseekFile s fd delta END = some (-1, s)) ∧
        (ino.FileActualSize + delta ≤ MAXFILESIZE → inInt (ft.writeoffset + delta) →
          (0 ≤ ft.writeoffset + delta →
            LseekFile s fd delta END = some (0, setSlot s fd.toNat
              (some { ft with writeoffset := ino.FileActualSize + delta }))) ∧
          (ft.writeoffset + delta < 0 → LseekFile s fd delta END = some (-1, s))))) ∧
    results (initState zeroRaw)
      [Op.create (some nameA) 3 zeroBytes, Op.write 0 hello 5, Op.lseek 0 (-3) END]
      = some [0, 5, -1] ∧
    (run (initState zeroRaw) [Op.create (some nameA) 3 zeroBytes, Op.write 0 hello 5]).map
      (fun s => (offsetsAt s 0, countsAt s 0)) = some (some (0, 5, 3), some (1, 5, 1, 1)) ∧
    results (initState zeroRaw)
      [Op.create (some nameA) 3 zeroBytes, Op.write 0 hello 5,
        Op.openf (some nameA) 1 zeroTable, Op.lseek 1 5 START, Op.truncate nameA,
        Op.lseek 1 (-3) END] = some [0, 5, 1, 0, 0, 0] ∧
    (∃ s, run (initState zeroRaw)
      [Op.create (some nameA) 3 zeroBytes, Op.write 0 hello 5,
        Op.openf (some nameA) 1 zeroTable, Op.lseek 1 5 START, Op.truncate nameA,
        Op.lseek 1 (-3) END] = some s ∧ Reachable s ∧
      offsetsAt s 1 = some (-3, 0, 1)) ∧
    results (initState zeroRaw)
      [Op.create (some nameA) 3 zeroBytes, Op.write 0 hello 5, Op.lseek 0 2147483647 END]
      = none := by
  refine ⟨?_, by decide, by decide, by decide, ?_, by decide⟩
  · intro s fd delta ft ino hfd hslot hino hov
    have hs : slotAt s fd = some (some ft) := by rw [slotAt_of_range s fd hfd, hslot]
    have hfd2 : ¬ (fd < 0 ∨ END > 2) := by simp only [END]; omega
    have hec : ¬ END = CURRENT := by decide
    have hes : ¬ END = START := by decide
    refine ⟨?_, ?_⟩
    · intro hmode
      refine ⟨?_, ?_⟩
      · intro h1
        simp only [LseekFile, seekRead, hfd2, hs, hmode, hec, hes, hino, hov, h1, if_true,
          if_false]
      · intro h hov2
        have h1 : ¬ ino.FileActualSize + delta > MAXFILESIZE := by omega
        refine ⟨?_, ?_⟩
        · intro h0
          have h2 : ¬ ft.readoffset + delta < 0 := by omega
          simp only [LseekFile, seekRead, hfd2, hs, hmode, hec, hes, hino, hov, hov2, h1, h2,
            if_true, if_false]
        · intro h2
          simp only [LseekFile, seekRead, hfd2, hs, hmode, hec, hes, hino, hov, hov2, h1, h2,
            if_true, if_false]
    · intro hmode
      have hnr : ¬ (ft.mode = READ ∨ ft.mode = READ + WRITE) := by
        rw [hmode]
        decide
      refine ⟨?_, ?_⟩
      · intro h1
        simp only [LseekFile, hfd2, hs]
        rw [if_neg hnr, if_pos hmode]
        simp only [seekWrite, hec, hes, hino, hov, h1, if_true, if_false]
      · intro h hov2
        have h1 : ¬ ino.FileActualSize + delta > MAXFILESIZE := by omega
        refine ⟨?_, ?_⟩
        · intro h0
          have h2 : ¬ ft.writeoffset + delta < 0 := by omega
          simp only [LseekFile, hfd2, hs]
          rw [if_neg hnr, if_pos hmode]
          simp only [seekWrite, hec, hes, hino, hov, hov2, h1, h2, if_true, if_false]
        · intro h2
          simp only [LseekFile, hfd2, hs]
          rw [if_neg hnr, if_pos hmode]
          simp only [seekWrite, hec, hes, hino, hov, hov2, h1, h2, if_true, if_false]
  · obtain ⟨s, hs, hp⟩ := run_check
      (fun s => decide (offsetsAt s 1 = some (-3, 0, 1)))
      (show (run (initState zeroRaw)
        [Op.create (some nameA) 3 zeroBytes, Op.write 0 hello 5,
          Op.openf (some nameA) 1 zeroTable, Op.lseek 1 5 START, Op.truncate nameA,
          Op.lseek 1 (-3) END]).map _ = some true by decide)
    exact ⟨s, hs, run_reachable _ (Reachable.init zeroRaw) hs, of_decide_eq_true hp⟩

/-- C17 (the code at the failing input): on a handle in mode WRITE a
successful seek from START or CURRENT leaves the actual size at the maximum of
the old actual size and the new write offset, but after `CreateFile("a", 2)` the
call `LseekFile(0, 10, END)` returns 0 and leaves write offset 10 with actual
size 0. -/
theorem C17_lseek_end_no_extension :
    (∀ (s : State) (fd delta : Int) (ft : FILETABLE) (ino : INODE),
      0 ≤ fd ∧ fd < 50 → s.UFDTArr fd.toNat = some ft → inodeOf s ft = some ino →
      ft.mode = WRITE →
      (0 ≤ delta ∧ delta ≤ MAXFILESIZE →
        ∃ t, LseekFile s fd delta START = some (0, t) ∧
          t.UFDTArr fd.toNat = some { ft with writeoffset := delta } ∧
          (t.head[ft.ptrinode]?).map (fun i => i.FileActualSize)
            = some (max ino.FileActualSize delta)) ∧
      (0 ≤ ft.writeoffset + delta ∧ ft.writeoffset + delta ≤ MAXFILESIZE →
        ∃ t, LseekFile s fd delta CURRENT = some (0, t) ∧
          t.UFDTArr fd.toNat = some { ft with writeoffset := ft.writeoffset + delta } ∧
          (t.head[ft.ptrinode]?).map (fun i => i.FileActualSize)
            = some (max ino.FileActualSize (ft.writeoffset + delta)))) ∧
    results (initState zeroRaw) [Op.create (some nameA) 2 zeroBytes, Op.lseek 0 10 END]
      = some [0, 0] ∧
    (run (initState zeroRaw) [Op.create (some nameA) 2 zeroBytes, Op.lseek 0 10 END]).map
      (fun s => (offsetsAt s 0, countsAt s 0)) = some (some (0, 10, 2), some (1, 0, 1, 1)) := by
  refine ⟨?_, by decide, by decide⟩
  intro s fd delta ft ino hfd hslot hino hmode
  have hs : slotAt s fd = some (some ft) := by rw [slotAt_of_range s fd hfd, hslot]
  have hnr : ¬ (ft.mode = READ ∨ ft.mode = READ + WRITE) := by
    rw [hmode]
    decide
  have hget : s.head[ft.ptrinode]? = some ino := hino
  refine ⟨?_, ?_⟩
  · intro h
    have hfd2 : ¬ (fd < 0 ∨ START > 2) := by simp only [START]; omega
    have hsc : ¬ START = CURRENT := by decide
    have h1 : ¬ delta > MAXFILESIZE := by omega
    have h2 : ¬ delta < 0 := by omega
    by_cases h3 : delta > ino.FileActualSize
    · refine ⟨setInode (setSlot s fd.toNat (some { ft with writeoffset := delta }))
        ft.ptrinode { ino with FileActualSize := delta }, ?_, by simp, ?_⟩
      · simp only [LseekFile, hfd2, hs]
        rw [if_neg hnr, if_pos hmode]
        simp only [seekWrite, hsc, hino, h1, h2, h3, if_true, if_false]
      · simp only [setInode_head, setSlot_head, getElem?_set_of_some _ hget, Option.map_some',
          Option.some.injEq]
        rw [max_eq_right (by omega)]
    · refine ⟨setSlot s fd.toNat (some { ft with writeoffset := delta }), ?_, by simp, ?_⟩
      · simp only [LseekFile, hfd2, hs]
        rw [if_neg hnr, if_pos hmode]
        simp only [seekWrite, hsc, hino, h1, h2, h3, if_true, if_false]
      · simp only [setSlot_head, hget, Option.map_some', Option.some.injEq]
        rw [max_eq_left (by omega)]
  · intro h
    have hfd2 : ¬ (fd < 0 ∨ CURRENT > 2) := by simp only [CURRENT]; omega
    have h1 : ¬ ft.writeoffset + delta > MAXFILESIZE := by omega
    have h2 : ¬ ft.writeoffset + delta < 0 := by omega
    have hov : inInt (ft.writeoffset + delta) := by
      simp only [inInt, INT_MIN, INT_MAX, MAXFILESIZE] at *
      omega
    by_cases h3 : ft.writeoffset + delta > ino.FileActualSize
    · refine ⟨setInode
        (setSlot s fd.toNat (some { ft with writeoffset := ft.writeoffset + delta }))
        ft.ptrinode { ino with FileActualSize := ft.writeoffset + delta }, ?_, by simp, ?_⟩
      · simp only [LseekFile, hfd2, hs]
        rw [if_neg hnr, if_pos hmode]
        simp only [seekWrite, hov, hino, h1, h2, h3, if_true, if_false]
      · simp only [setInode_head, setSlot_head, getElem?_set_of_some _ hget, Option.map_some',
          Option.some.injEq]
        rw [max_eq_right (by omega)]
    · refine ⟨setSlot s fd.toNat (some { ft with writeoffset := ft.writeoffset + delta }),
        ?_, by simp, ?_⟩
      · simp only [LseekFile, hfd2, hs]
        rw [if_neg hnr, if_pos hmode]
        simp only [seekWrite, hov, hino, h1, h2, h3, if_true, if_false]
      · simp only [setSlot_head, hget, Option.map_some', Option.some.injEq]
        rw [max_eq_left (by omega)]

/-- C18: in a reachable state, `rm_File(name)` returns `-1` with the state
unchanged when no occupied descriptor slot points to an inode named `name`;
otherwise, for the lowest slot `fd` that does, it returns 0, lowers the link
count of that inode by one, sets its `FileType` to 0 (and frees its buffer) when
the link count has reached 0 and leaves the type alone when it has not, sets
slot `fd` to `NULL`, raises `FreeInode` by one, and leaves the other fields of
the inode, every other inode and every other slot as they were. -/
theorem C18_rm_file (s : State) (name : List Char) (hs : Reachable s) :
    ((∀ i, i < 50 → slotNamed s name i = false) → rm_File s name = some (-1, s)) ∧
    (∀ fd, fd < 50 → slotNamed s name fd = true →
      (∀ j, j < fd → slotNamed s name j = false) →
      ∃ (ft : FILETABLE) (ino new : INODE) (t : State),
        s.UFDTArr fd = some ft ∧ inodeOf s ft = some ino ∧ ino.FileName = name ∧
        rm_File s name = some (0, t) ∧
        t.UFDTArr fd = none ∧ (∀ j, j ≠ fd → t.UFDTArr j = s.UFDTArr j) ∧
        t.head[ft.ptrinode]? = some new ∧
        new.LinkCount = ino.LinkCount - 1 ∧
        (ino.LinkCount - 1 = 0 → new.FileType = 0) ∧
        (ino.LinkCount - 1 ≠ 0 → new.FileType = ino.FileType ∧ new.Buffer = ino.Buffer) ∧
        new.FileName = ino.FileName ∧ new.InodeNumber = ino.InodeNumber ∧
        new.FileSize = ino.FileSize ∧ new.FileActualSize = ino.FileActualSize ∧
        new.ReferenceCount = ino.ReferenceCount ∧ new.permission = ino.permission ∧
        (∀ k, k ≠ ft.ptrinode → t.head[k]? = s.head[k]?) ∧
        t.SUPERBLOCKobj.FreeInode = s.SUPERBLOCKobj.FreeInode + 1 ∧
        t.SUPERBLOCKobj.TotalInodes = s.SUPERBLOCKobj.TotalInodes) := by
  refine ⟨?_, ?_⟩
  · intro hnone
    simp only [rm_File, GetFDFromName_none hnone]
  · intro fd hfd hn hmin
    obtain ⟨ft, ino, hft, hino, hname⟩ := slotNamed_true hn
    have hget := GetFDFromName_some hfd hn hmin
    have hother : ∀ (x : INODE) (j : Nat), j ≠ fd →
        (incFree (setSlot (setInode s ft.ptrinode x) fd none)).UFDTArr j = s.UFDTArr j := by
      intro x j hj
      simp only [incFree_UFDTArr]
      rw [setSlot_other _ _ _ _ hj]
      rfl
    have hframe : ∀ (x : INODE) (k : Nat), k ≠ ft.ptrinode →
        (incFree (setSlot (setInode s ft.ptrinode x) fd none)).head[k]? = s.head[k]? := by
      intro x k hk
      simp only [incFree_head, setSlot_head, setInode_head]
      exact List.getElem?_set_ne (Ne.symm hk)
    by_cases hlink : ino.LinkCount - 1 = 0
    · have hlive := (linkInv_reachable hs ino (List.getElem?_mem hino)).2 (by omega)
      obtain ⟨size, bytes, hbuf⟩ := hlive
      refine ⟨ft, ino, { ino with
          LinkCount := ino.LinkCount - 1, FileType := 0, Buffer := BufferPtr.freed },
        incFree (setSlot (setInode s ft.ptrinode { ino with
          LinkCount := ino.LinkCount - 1, FileType := 0, Buffer := BufferPtr.freed }) fd none),
        hft, hino, hname, ?_, by simp, hother _, ?_, rfl, fun _ => rfl,
        fun h => absurd hlink h, rfl, rfl, rfl, rfl, rfl, rfl, hframe _, rfl, rfl⟩
      · simp only [rm_File, hget, hft, hino, hlink, if_true, hbuf, freeBuffer]
      · simp only [incFree_head, setSlot_head, setInode_head]
        exact getElem?_set_of_some _ hino
    · refine ⟨ft, ino, { ino with LinkCount := ino.LinkCount - 1 },
        incFree (setSlot (setInode s ft.ptrinode { ino with
          LinkCount := ino.LinkCount - 1 }) fd none),
        hft, hino, hname, ?_, by simp, hother _, ?_, rfl, fun h => absurd h hlink,
        fun _ => ⟨rfl, rfl⟩, rfl, rfl, rfl, rfl, rfl, rfl, hframe _, rfl, rfl⟩
      · simp only [rm_File, hget, hft, hino, hlink, if_false]
      · simp only [incFree_head, setSlot_head, setInode_head]
        exact getElem?_set_of_some _ hino

/-- C18 at a concrete input: `rm_File("a")` in the state after
`CreateFile("a", 3)`. -/
theorem C18_witness :
    ∃ t, rm_File (afterCreateA 3) nameA = some (0, t) ∧ t.UFDTArr 0 = none ∧
      t.SUPERBLOCKobj.FreeInode = 50 := by
  have hr : Reachable (afterCreateA 3) :=
    Reachable.step (Op.create (some nameA) 3 zeroBytes) (Reachable.init zeroRaw)
      (show step (initState zeroRaw) (Op.create (some nameA) 3 zeroBytes)
        = some (0, afterCreateA 3) from rfl)
  obtain ⟨ft, ino, new, t, -, -, -, h4, h5, -, -, -, -, -, -, -, -, -, -, -, -, h18, -⟩ :=
    (C18_rm_file (afterCreateA 3) nameA hr).2 0 (by decide) (by decide)
      (fun j hj => absurd hj (Nat.not_lt_zero j))
  exact ⟨t, h4, h5, by rw [h18]; rfl⟩

/-- C19 (the code at the failing input): `truncate_File` returns `-1` with the
state unchanged when no occupied slot has the name; when it finds the file
(live buffer of at least 1024 bytes) it returns 0, zeroes the offsets and the
actual size, keeps the counts, and zeroes the first 1024 bytes of the buffer
only: after `CreateFile("a", 2)`, `LseekFile(0, 1030, START)`,
`WriteFile(0, "x", 1)` and `truncate_File("a")` the byte at offset 1030 is
still `x`. -/
theorem C19_truncate_half_buffer :
    (∀ (s : State) (name : List Char),
      (∀ i, i < 50 → slotNamed s name i = false) → truncate_File s name = some (-1, s)) ∧
    (∀ (s : State) (name : List Char) (fd : Nat) (ft : FILETABLE) (ino : INODE) (size : Nat)
        (bytes : Nat → Char),
      fd < 50 → slotNamed s name fd = true → (∀ j, j < fd → slotNamed s name j = false) →
      s.UFDTArr fd = some ft → inodeOf s ft = some ino →
      ino.Buffer = BufferPtr.live size bytes → 1024 ≤ size →
      ∃ (t : State) (newb : Nat → Char),
        truncate_File s name = some (0, t) ∧
        t.UFDTArr fd = some { ft with readoffset := 0, writeoffset := 0 } ∧
        t.head[ft.ptrinode]? = some { ino with
          Buffer := BufferPtr.live size newb, FileActualSize := 0 } ∧
        (∀ j, j < 1024 → newb j = NUL) ∧ (∀ j, 1024 ≤ j → newb j = bytes j)) ∧
    results (initState zeroRaw)
      [Op.create (some nameA) 2 zeroBytes, Op.lseek 0 1030 START, Op.write 0 ['x', NUL] 1,
        Op.truncate nameA] = some [0, 0, 1, 0] ∧
    (run (initState zeroRaw)
      [Op.create (some nameA) 2 zeroBytes, Op.lseek 0 1030 START, Op.write 0 ['x', NUL] 1,
        Op.truncate nameA]).map
      (fun s => (bufferAt s 0 [0, 1023, 1024, 1030], offsetsAt s 0, countsAt s 0))
      = some ([NUL, NUL, NUL, 'x'], some (0, 0, 2), some (1, 0, 1, 1)) := by
  refine ⟨?_, ?_, by decide, by rfl⟩
  · intro s name hnone
    simp only [truncate_File, GetFDFromName_none hnone]
  · intro s name fd ft ino size bytes hfd hn hmin hft hino hbuf hsize
    have hget := GetFDFromName_some hfd hn hmin
    refine ⟨setInode (setSlot s fd (some { ft with readoffset := 0, writeoffset := 0 }))
        ft.ptrinode
        { ino with
          Buffer := BufferPtr.live size (fun j => if j < 1024 then NUL else bytes j)
          FileActualSize := 0 },
      fun j => if j < 1024 then NUL else bytes j, ?_, by simp, ?_, ?_, ?_⟩
    · simp only [truncate_File, hget, hft, hino, hbuf, hsize, if_true]
    · simp only [setInode_head, setSlot_head]
      exact getElem?_set_of_some _ hino
    · intro j hj
      simp [hj]
    · intro j hj
      have : ¬ j < 1024 := by omega
      simp [this]

/-- C20 (the code at the failing input): `CreateFile("a", 3)`,
`CloseFileByName("a")`, `CloseFileByName("a")` all return 0 and end in a
reachable state whose REGULAR inode has reference count `-1`. -/
theorem C20_reference_count_negative :
    results (initState zeroRaw)
      [Op.create (some nameA) 3 zeroBytes, Op.closeName nameA, Op.closeName nameA]
      = some [0, 0, 0] ∧
    ∃ s, run (initState zeroRaw)
      [Op.create (some nameA) 3 zeroBytes, Op.closeName nameA, Op.closeName nameA] = some s ∧
      Reachable s ∧ ∃ ino ∈ s.head, ino.FileType = REGULAR ∧ ino.ReferenceCount = -1 := by
  refine ⟨by decide, ?_⟩
  obtain ⟨s, hs, hp⟩ := run_check
    (fun s => s.head.any (fun ino => decide (ino.FileType = REGULAR ∧ ino.ReferenceCount = -1)))
    (show (run (initState zeroRaw)
      [Op.create (some nameA) 3 zeroBytes, Op.closeName nameA, Op.closeName nameA]).map _
        = some true by decide)
  obtain ⟨ino, hmem, hino⟩ := List.any_eq_true.mp hp
  exact ⟨s, hs, run_reachable _ (Reachable.init zeroRaw) hs, ino, hmem, of_decide_eq_true hino⟩

/-- C21: in every reachable state two inodes at different positions of the
list that both have type REGULAR bear different names. -/
theorem C21_regular_names_distinct (s : State) (hs : Reachable s) (i j : Nat) (x y : INODE)
    (hij : i ≠ j) (hx : s.head[i]? = some x) (hy : s.head[j]? = some y)
    (hxr : x.FileType = REGULAR) (hyr : y.FileType = REGULAR) :
    x.FileName ≠ y.FileName := by
  intro hname
  have _ := hyr
  exact hij ((fileInv_reachable hs).2.1 i j x y hx hy hxr hname.symm).symm

/-- C21 at a concrete input: after `CreateFile("a", 3)` and
`CreateFile("b", 3)` the first two inodes are REGULAR and bear different
names. -/
theorem C21_witness :
    Reachable afterCreateAB ∧
    (afterCreateAB.head.take 2).map (fun x => (x.FileType, x.FileName))
      = [(REGULAR, nameA), (REGULAR, nameB)] ∧
    (createdInode (newInode zeroInode 1) nameA 3 zeroBytes).FileName
      ≠ (createdInode (newInode zeroInode 2) nameB 3 zeroBytes).FileName :=
  ⟨afterCreateAB_reachable, by decide,
    C21_regular_names_distinct afterCreateAB afterCreateAB_reachable 0 1 _ _ (by decide)
      rfl rfl rfl rfl⟩

/-- C22 (the code at the failing input): when the slots `0..49` are all
occupied, `OpenFile` on a name that an inode bears, with a mode from 1 up to
the permission of that inode, and `CreateFile` with a name that no inode
bears, a permission in {1,2,3}, `FreeInode` not 0 and an inode of type 0 left,
have no defined result (the scan ends with `i = 50` and `UFDTArr[50]` is
assigned); `CreateFile("a", 3)` followed by 49 calls of `OpenFile("a", 1)`
leads to such a state, with `FreeInode = 49`, in which `OpenFile("a", 1)` and
`CreateFile("b", 3)` are such calls. -/
theorem C22_full_table_overrun :
    (∀ s : State, (∀ i, i < 50 → s.UFDTArr i ≠ none) →
      (∀ (nm : List Char) (m : Int) (raw : FILETABLE) (k : Nat) (ino : INODE),
        0 < m → findName s.head nm = some k → s.head[k]? = some ino → m ≤ ino.permission →
        OpenFile s (some nm) m raw = none) ∧
      (∀ (nm : List Char) (p : Int) (raw : Nat → Char),
        p = 1 ∨ p = 2 ∨ p = 3 → s.SUPERBLOCKobj.FreeInode ≠ 0 →
        findName s.head nm = none → (∃ x ∈ s.head, x.FileType = 0) →
        CreateFile s (some nm) p raw = none)) ∧
    ∃ s, run (initState zeroRaw) fillSlots = some s ∧ Reachable s ∧
      (∀ i, i < 50 → s.UFDTArr i ≠ none) ∧ s.SUPERBLOCKobj.FreeInode = 49 ∧
      OpenFile s (some nameA) 1 zeroTable = none ∧
      CreateFile s (some nameB) 3 zeroBytes = none := by
  refine ⟨?_, ?_⟩
  · intro s hfull
    have h50 := firstNull_full hfull
    refine ⟨?_, ?_⟩
    · intro nm m raw k ino hm hfind hino hperm
      have h1 : ¬ m ≤ 0 := by omega
      have h2 : ¬ ino.permission < m := by omega
      simp only [OpenFile, h1, Get_Inode, hfind, hino, h2, h50, if_false, Nat.lt_irrefl]
    · intro nm p raw hp hfree hfind hex
      obtain ⟨k, hk⟩ := firstFree_some_of_mem hex
      have hp0 : ¬ (p = 0 ∨ p > 3) := by omega
      simp only [CreateFile, hp0, hfree, Get_Inode, decFree_head, hfind, hk, firstNull_decFree,
        h50, if_false, Nat.lt_irrefl, false_and]
  · have hrun : (run (initState zeroRaw) fillSlots).map (fun s =>
        allOccupied s && decide (s.SUPERBLOCKobj.FreeInode = 49)
        && (OpenFile s (some nameA) 1 zeroTable).isNone
        && (CreateFile s (some nameB) 3 zeroBytes).isNone) = some true := by
      set_option maxRecDepth 100000 in decide
    obtain ⟨s, hs, hp⟩ := run_check _ hrun
    simp only [Bool.and_eq_true, decide_eq_true_eq, Option.isNone_iff_eq_none] at hp
    obtain ⟨⟨⟨h1, h2⟩, h3⟩, h4⟩ := hp
    refine ⟨s, hs, run_reachable _ (Reachable.init zeroRaw) hs, ?_, h2, h3, h4⟩
    intro i hi
    simp only [allOccupied, List.all_eq_true, List.mem_range] at h1
    have := h1 i hi
    intro hnone
    rw [hnone] at this
    exact absurd this (by simp)

/-- C23 (the code at the failing input): `OpenFile` with a mode above 0
returns `-2` and leaves the state alone when no inode bears the name; but
after `CreateFile("a", 3)` and `rm_File("a")` the first inode has type 0 and
still bears the name, and `OpenFile("a", 1)` returns the descriptor 0, puts a
handle on that inode into slot 0 and raises its reference count to 2. -/
theorem C23_open_removed_file :
    (∀ (s : State) (nm : List Char) (m : Int) (raw : FILETABLE),
      0 < m → (∀ x ∈ s.head, x.FileName ≠ nm) →
      OpenFile s (some nm) m raw = some (-2, s)) ∧
    results (initState zeroRaw)
      [Op.create (some nameA) 3 zeroBytes, Op.rm nameA, Op.openf (some nameA) 1 zeroTable]
      = some [0, 0, 0] ∧
    ∃ s, run (initState zeroRaw) [Op.create (some nameA) 3 zeroBytes, Op.rm nameA] = some s ∧
      Reachable s ∧ nameAt s 0 = some nameA ∧ countsAt s 0 = some (0, 0, 0, 1) ∧
      ∃ t, OpenFile s (some nameA) 1 zeroTable = some (0, t) ∧
        offsetsAt t 0 = some (0, 0, 1) ∧ countsAt t 0 = some (0, 0, 0, 2) := by
  refine ⟨?_, rfl, ?_⟩
  · intro s nm m raw hm hname
    have h1 : ¬ m ≤ 0 := by omega
    simp only [OpenFile, h1, Get_Inode, findName_none_iff.mpr hname, if_false]
  · have hrun : (run (initState zeroRaw)
          [Op.create (some nameA) 3 zeroBytes, Op.rm nameA]).map (fun s =>
        decide (nameAt s 0 = some nameA) && decide (countsAt s 0 = some (0, 0, 0, 1))
        && decide ((OpenFile s (some nameA) 1 zeroTable).map (fun r => r.1) = some 0)
        && decide ((OpenFile s (some nameA) 1 zeroTable).bind (fun r => offsetsAt r.2 0)
          = some (0, 0, 1))
        && decide ((OpenFile s (some nameA) 1 zeroTable).bind (fun r => countsAt r.2 0)
          = some (0, 0, 0, 2))) = some true := by
      decide
    obtain ⟨s, hs, hp⟩ := run_check _ hrun
    simp only [Bool.and_eq_true, decide_eq_true_eq] at hp
    obtain ⟨⟨⟨⟨h1, h2⟩, h3⟩, h4⟩, h5⟩ := hp
    refine ⟨s, hs, run_reachable _ (Reachable.init zeroRaw) hs, h1, h2, ?_⟩
    cases hopen : OpenFile s (some nameA) 1 zeroTable with
    | none =>
      rw [hopen] at h3
      exact absurd h3 (by simp)
    | some r =>
      obtain ⟨fd, t⟩ := r
      rw [hopen] at h3 h4 h5
      simp only [Option.map_some', Option.some.injEq] at h3
      subst h3
      exact ⟨t, rfl, h4, h5⟩

/-- C24: in a reachable state in which the inode that `stat_file(name)` reports
is REGULAR with actual size 0 and has a handle in some slot,
`truncate_File(name)` returns 0 and `stat_file(name)` reports afterwards what it
reported before: name, inode number, `FileSize`, actual size, link count,
reference count and permission. -/
theorem C24_truncate_empty (s : State) (name : List Char) (hs : Reachable s) (k : Nat)
    (ino : INODE) (hfind : findName s.head name = some k) (hino : s.head[k]? = some ino)
    (hreg : ino.FileType = REGULAR) (hempty : ino.FileActualSize = 0)
    (hopen : ∃ i ft, i < 50 ∧ s.UFDTArr i = some ft ∧ ft.ptrinode = k) :
    stat_file s (some name) = (0, some (report ino)) ∧
    ∃ t, truncate_File s name = some (0, t) ∧
      stat_file t (some name) = (0, some (report ino)) := by
  obtain ⟨x, hx, hname, -⟩ := findName_spec hfind
  rw [hino] at hx
  cases hx
  obtain ⟨fd, ft, hfd, hget, hft, hp⟩ := handle_of_regular hs hino hreg hopen
  rw [hname] at hget
  obtain ⟨-, -, bytes, hbuf⟩ := (fileInv_reachable hs).1 ino (List.getElem?_mem hino) |>.1 hreg
  have hino2 : inodeOf s ft = some ino := by
    simp only [inodeOf, hp, hino]
  refine ⟨by simp only [stat_file, hfind, hino], _,
    truncate_File_ok hget hft hino2 hbuf (by decide), ?_⟩
  · have hset : (s.head.set k { ino with
        Buffer := BufferPtr.live 2048 (fun j => if j < 1024 then NUL else bytes j)
        FileActualSize := 0 })[k]? = some _ := getElem?_set_of_some _ hino
    have hfs := (findName_set_same ({ ino with
        Buffer := BufferPtr.live 2048 (fun j => if j < 1024 then NUL else bytes j)
        FileActualSize := 0 } : INODE) name hino rfl).trans hfind
    simp only [stat_file, setInode_head, setSlot_head, hp, hfs, hset, report, hempty]

/-- C24 at a concrete input: `truncate_File("a")` right after
`CreateFile("a", 3)`. -/
theorem C24_witness :
    stat_file (afterCreateA 3) (some nameA)
      = (0, some (report (createdInode (newInode zeroInode 1) nameA 3 zeroBytes))) ∧
    ∃ t, truncate_File (afterCreateA 3) nameA = some (0, t) ∧
      stat_file t (some nameA)
        = (0, some (report (createdInode (newInode zeroInode 1) nameA 3 zeroBytes))) :=
  C24_truncate_empty (afterCreateA 3) nameA (afterCreateA_reachable 3 (by decide)) 0 _
    rfl rfl rfl rfl ⟨0, createdTable 3 0, by decide, rfl, rfl⟩

/-- C25: when a slot is `NULL` and `OpenFile(name, m)` returns a descriptor
(a value that is not negative), the descriptor is the smallest index `i` of a
`NULL` slot; slot `i` then holds a handle with mode `m` on the first inode `k`
that bears the name, with read offset 0 when `m` is READ or READ+WRITE and write
offset 0 when `m` is WRITE or READ+WRITE; the reference count of inode `k` has
gone up by one and its other fields, every other inode, every other slot and
the superblock are as before. -/
theorem C25_open_success (s t : State) (name : List Char) (m fd : Int) (raw : FILETABLE)
    (hslot : ∃ j, j < 50 ∧ s.UFDTArr j = none)
    (h : OpenFile s (some name) m raw = some (fd, t)) (hfd : 0 ≤ fd) :
    ∃ (i k : Nat) (ino : INODE) (ft : FILETABLE),
      fd = (i : Int) ∧ i < 50 ∧ s.UFDTArr i = none ∧
      (∀ j, j < i → s.UFDTArr j ≠ none) ∧
      findName s.head name = some k ∧ s.head[k]? = some ino ∧ ino.FileName = name ∧
      t.UFDTArr i = some ft ∧ ft.mode = m ∧ ft.ptrinode = k ∧
      (m = READ ∨ m = READ + WRITE → ft.readoffset = 0) ∧
      (m = WRITE ∨ m = READ + WRITE → ft.writeoffset = 0) ∧
      t.head[k]? = some { ino with ReferenceCount := ino.ReferenceCount + 1 } ∧
      (∀ j, j ≠ k → t.head[j]? = s.head[j]?) ∧
      (∀ j, j ≠ i → t.UFDTArr j = s.UFDTArr j) ∧
      t.SUPERBLOCKobj = s.SUPERBLOCKobj := by
  obtain ⟨hi, hnone, hmin⟩ := firstNull_spec s hslot
  simp only [OpenFile] at h
  repeat' split at h
  all_goals cases h
  all_goals first
    | (exfalso; omega)
    | (have hfind := (by assumption : Get_Inode s (some name) = some _)
       have hino := (by assumption : s.head[_]? = some _)
       obtain ⟨x, hx, hname, -⟩ := findName_spec hfind
       rw [hino] at hx
       cases hx
       refine ⟨firstNull s, _, _, openedTable raw m _, rfl, hi, hnone, hmin, hfind, hino,
         hname, by simp, rfl, rfl, ?_, ?_, ?_, ?_, ?_, rfl⟩
       · intro hm
         simp only [openedTable]
         rcases hm with hm | hm <;> simp [hm]
       · intro hm
         simp only [openedTable]
         rcases hm with hm | hm <;> simp [hm]
       · simp only [setInode_head, setSlot_head]
         exact getElem?_set_of_some _ hino
       · intro j hj
         simp only [setInode_head, setSlot_head]
         exact List.getElem?_set_ne (Ne.symm hj)
       · intro j hj
         simp only [setInode_UFDTArr]
         exact setSlot_other _ _ _ _ hj)

/-- C25 at a concrete input: `OpenFile("a", 1)` in the state after
`CreateFile("a", 3)` returns descriptor 1. -/
theorem C25_witness :
    ∃ (i k : Nat) (ino : INODE) (ft : FILETABLE),
      (1 : Int) = (i : Int) ∧ i < 50 ∧ (afterCreateA 3).UFDTArr i = none ∧
      (∀ j, j < i → (afterCreateA 3).UFDTArr j ≠ none) ∧
      findName (afterCreateA 3).head nameA = some k ∧
      (afterCreateA 3).head[k]? = some ino ∧ ino.FileName = nameA ∧
      (setInode (setSlot (afterCreateA 3) 1 (some (openedTable zeroTable 1 0))) 0
        { createdInode (newInode zeroInode 1) nameA 3 zeroBytes with
          ReferenceCount := 2 }).UFDTArr i = some ft ∧ ft.mode = 1 ∧ ft.ptrinode = k :=
  (C25_open_success (afterCreateA 3)
    (setInode (setSlot (afterCreateA 3) 1 (some (openedTable zeroTable 1 0))) 0
      { createdInode (newInode zeroInode 1) nameA 3 zeroBytes with ReferenceCount := 2 })
    nameA 1 1 zeroTable ⟨1, by decide, rfl⟩ rfl (by decide)).imp
    (fun _ hi => hi.imp (fun _ hk => hk.imp (fun _ hino => hino.imp (fun _ hft =>
      ⟨hft.1, hft.2.1, hft.2.2.1, hft.2.2.2.1, hft.2.2.2.2.1, hft.2.2.2.2.2.1,
        hft.2.2.2.2.2.2.1, hft.2.2.2.2.2.2.2.1, hft.2.2.2.2.2.2.2.2.1,
        hft.2.2.2.2.2.2.2.2.2.1⟩))))

/-- C26: `CloseFileByName(name)` returns `-1` with the state unchanged when no
occupied slot among `0..49` points to an inode named `name`; otherwise, for the
lowest slot `fd` that does, it returns 0, sets the read and the write offset of
that handle to 0, lowers the reference count of its inode by one, and leaves
the slot occupied by that handle (same mode, same inode) and every other slot,
every other field of the inode, every other inode and the superblock as they
were.  On the initial state `CreateFile("a", 3)`, `CloseFileByName("a")`,
`CloseFileByName("b")` return 0, 0, `-1`. -/
theorem C26_close_by_name :
    (∀ (s : State) (name : List Char),
      (∀ i, i < 50 → slotNamed s name i = false) → CloseFileByName s name = some (-1, s)) ∧
    (∀ (s : State) (name : List Char) (fd : Nat), fd < 50 → slotNamed s name fd = true →
      (∀ j, j < fd → slotNamed s name j = false) →
      ∃ (ft : FILETABLE) (ino : INODE) (t : State),
        s.UFDTArr fd = some ft ∧ inodeOf s ft = some ino ∧ ino.FileName = name ∧
        CloseFileByName s name = some (0, t) ∧
        t.UFDTArr fd = some { ft with readoffset := 0, writeoffset := 0 } ∧
        (∀ j, j ≠ fd → t.UFDTArr j = s.UFDTArr j) ∧
        t.head[ft.ptrinode]? = some { ino with ReferenceCount := ino.ReferenceCount - 1 } ∧
        (∀ k, k ≠ ft.ptrinode → t.head[k]? = s.head[k]?) ∧
        t.SUPERBLOCKobj = s.SUPERBLOCKobj) ∧
    results (initState zeroRaw)
      [Op.create (some nameA) 3 zeroBytes, Op.closeName nameA, Op.closeName nameB]
      = some [0, 0, -1] := by
  refine ⟨?_, ?_, rfl⟩
  · intro s name hnone
    simp only [CloseFileByName, GetFDFromName_none hnone]
  · intro s name fd hfd hn hmin
    obtain ⟨ft, ino, hft, hino, hname⟩ := slotNamed_true hn
    have hget := GetFDFromName_some hfd hn hmin
    refine ⟨ft, ino,
      setInode (setSlot s fd (some { ft with readoffset := 0, writeoffset := 0 }))
        ft.ptrinode { ino with ReferenceCount := ino.ReferenceCount - 1 },
      hft, hino, hname, ?_, by simp, ?_, ?_, ?_, rfl⟩
    · simp only [CloseFileByName, hget, closeSlot, hft, hino, Option.map_some']
    · intro j hj
      simp only [setInode_UFDTArr]
      exact setSlot_other _ _ _ _ hj
    · simp only [setInode_head, setSlot_head]
      exact getElem?_set_of_some _ hino
    · intro k hk
      simp only [setInode_head, setSlot_head]
      exact List.getElem?_set_ne (Ne.symm hk)

/-- C27 (as stated, refuted): after `CreateFile("a", 3)` and `OpenFile("a", 1)`
the slots 0 and 1 both point to the first inode, whose reference count is 2;
`CloseAllFile` leaves slot 1 as it was, and the reference count of the inode of
slot 1 is 1 afterwards. -/
theorem C27_counterexample :
    (run (initState zeroRaw)
      [Op.create (some nameA) 3 zeroBytes, Op.openf (some nameA) 1 zeroTable]).bind
      (fun s => (CloseAllFile s).map (fun t =>
        (offsetsAt s 1, refCountOfSlot s 1, offsetsAt t 1, refCountOfSlot t 1)))
      = some (some (0, 0, 1), some 2, some (0, 0, 1), some 1) := by
  rfl

/-- C27 (amended): `CloseAllFile` leaves the state alone when the slots `0..49`
are all `NULL`; otherwise, for the lowest occupied slot `i`, it sets the two
offsets of that handle to 0, lowers the reference count of the inode of that
handle by one, and leaves every other slot (so the offsets of every other
handle), every other inode and the superblock as they were.  After
`CreateFile("a", 3)` and `CreateFile("b", 3)` a call changes the reference
count of the first inode from 1 to 0 and keeps that of the second at 1. -/
theorem C27_close_all_first_only :
    (∀ s : State, (∀ i, i < 50 → s.UFDTArr i = none) → CloseAllFile s = some s) ∧
    (∀ (s : State) (i : Nat) (ft : FILETABLE) (ino : INODE), i < 50 →
      s.UFDTArr i = some ft → (∀ j, j < i → s.UFDTArr j = none) →
      inodeOf s ft = some ino →
      ∃ t, CloseAllFile s = some t ∧
        t.UFDTArr i = some { ft with readoffset := 0, writeoffset := 0 } ∧
        (∀ j, j ≠ i → t.UFDTArr j = s.UFDTArr j) ∧
        t.head[ft.ptrinode]? = some { ino with ReferenceCount := ino.ReferenceCount - 1 } ∧
        (∀ k, k ≠ ft.ptrinode → t.head[k]? = s.head[k]?) ∧
        t.SUPERBLOCKobj = s.SUPERBLOCKobj) ∧
    (run (initState zeroRaw)
      [Op.create (some nameA) 3 zeroBytes, Op.create (some nameB) 3 zeroBytes]).bind
      (fun s => (CloseAllFile s).map (fun t =>
        (refCountOfSlot s 0, refCountOfSlot s 1, refCountOfSlot t 0, refCountOfSlot t 1)))
      = some (some 1, some 1, some 0, some 1) := by
  refine ⟨?_, ?_, by rfl⟩
  · intro s hnone
    have h0 : scanOpen s.UFDTArr 50 0 = none :=
      scanOpen_none s.UFDTArr 50 0 (fun j _ hj => hnone j (by omega))
    simp only [CloseAllFile, h0]
  · intro s i ft ino hi hft hmin hino
    have h0 : scanOpen s.UFDTArr 50 0 = some i :=
      scanOpen_first s.UFDTArr 50 0 i ft (Nat.zero_le i) (by omega) hft
        (fun j _ hj => hmin j hj)
    refine ⟨setInode (setSlot s i (some { ft with readoffset := 0, writeoffset := 0 }))
        ft.ptrinode { ino with ReferenceCount := ino.ReferenceCount - 1 },
      ?_, by simp, ?_, ?_, ?_, rfl⟩
    · simp only [CloseAllFile, h0, closeSlot, hft, hino]
    · intro j hj
      simp only [setInode_UFDTArr]
      exact setSlot_other _ _ _ _ hj
    · simp only [setInode_head, setSlot_head]
      exact getElem?_set_of_some _ hino
    · intro k hk
      simp only [setInode_head, setSlot_head]
      exact List.getElem?_set_ne (Ne.symm hk)

/-- C28 (the code at the failing input): when `FreeInode` is not 50, `ls_file`
prints one row (name, inode number, actual size, link count) for every inode
whose type is not 0, in list order; when `FreeInode` is 50 it prints "There
are no files".  After `CreateFile("a", 3)`, `OpenFile("a", 1)`, `rm_File("a")`,
`rm_File("a")`, `CreateFile("b", 3)` the first inode is REGULAR with the name
`"b"`, `FreeInode` is 50 and `ls_file` prints "There are no files". -/
theorem C28_ls_hides_file :
    (∀ s : State, s.SUPERBLOCKobj.FreeInode ≠ 50 →
      ls_file s = some ((s.head.filter (fun ino => decide (ino.FileType ≠ 0))).map
        (fun ino => (ino.FileName, ino.InodeNumber, ino.FileActualSize, ino.LinkCount)))) ∧
    (∀ s : State, s.SUPERBLOCKobj.FreeInode = 50 → ls_file s = none) ∧
    results (initState zeroRaw)
      [Op.create (some nameA) 3 zeroBytes, Op.openf (some nameA) 1 zeroTable, Op.rm nameA,
        Op.rm nameA, Op.create (some nameB) 3 zeroBytes] = some [0, 1, 0, 0, 0] ∧
    ∃ s, run (initState zeroRaw)
        [Op.create (some nameA) 3 zeroBytes, Op.openf (some nameA) 1 zeroTable, Op.rm nameA,
          Op.rm nameA, Op.create (some nameB) 3 zeroBytes] = some s ∧
      Reachable s ∧ nameAt s 0 = some nameB ∧ countsAt s 0 = some (REGULAR, 0, 1, 1) ∧
      s.SUPERBLOCKobj.FreeInode = 50 ∧ ls_file s = none := by
  refine ⟨?_, ?_, rfl, ?_⟩
  · intro s h
    have h2 : ¬ s.SUPERBLOCKobj.FreeInode = (MAXINODE : Int) := h
    simp only [ls_file, h2, if_false]
    rfl
  · intro s h
    have h2 : s.SUPERBLOCKobj.FreeInode = (MAXINODE : Int) := h
    simp only [ls_file, h2, if_true]
  · have hrun : (run (initState zeroRaw)
          [Op.create (some nameA) 3 zeroBytes, Op.openf (some nameA) 1 zeroTable, Op.rm nameA,
            Op.rm nameA, Op.create (some nameB) 3 zeroBytes]).map (fun s =>
        decide (nameAt s 0 = some nameB) && decide (countsAt s 0 = some (REGULAR, 0, 1, 1))
        && decide (s.SUPERBLOCKobj.FreeInode = 50) && (ls_file s).isNone) = some true := by
      decide
    obtain ⟨s, hs, hp⟩ := run_check _ hrun
    simp only [Bool.and_eq_true, decide_eq_true_eq, Option.isNone_iff_eq_none] at hp
    obtain ⟨⟨⟨h1, h2⟩, h3⟩, h4⟩ := hp
    exact ⟨s, hs, run_reachable _ (Reachable.init zeroRaw) hs, h1, h2, h3, h4⟩

/-- C29: in every reachable state an inode of type REGULAR has link count 1
and `FileSize` 2048, and an inode of type 0 (free) has a link count of at
most 0. -/
theorem C29_link_count_by_type (s : State) (hs : Reachable s) (ino : INODE)
    (hino : ino ∈ s.head) :
    (ino.FileType = REGULAR → ino.LinkCount = 1 ∧ ino.FileSize = 2048) ∧
    (ino.FileType = 0 → ino.LinkCount ≤ 0) := by
  have h := (fileInv_reachable hs).1 ino hino
  exact ⟨fun hreg => ⟨(h.1 hreg).1, (h.1 hreg).2.1⟩, h.2⟩

/-- C29 at a concrete input: after `CreateFile("a", 3)` the first inode is
REGULAR with link count 1 and `FileSize` 2048, and the second inode has type 0
and link count 0. -/
theorem C29_witness :
    Reachable (afterCreateA 3) ∧
    ((createdInode (newInode zeroInode 1) nameA 3 zeroBytes).LinkCount = 1 ∧
      (createdInode (newInode zeroInode 1) nameA 3 zeroBytes).FileSize = 2048) ∧
    (newInode zeroInode 2).LinkCount ≤ 0 :=
  ⟨afterCreateA_reachable 3 (by decide),
    (C29_link_count_by_type (afterCreateA 3) (afterCreateA_reachable 3 (by decide)) _
      (List.getElem?_mem (show (afterCreateA 3).head[0]? = some _ from rfl))).1 rfl,
    (C29_link_count_by_type (afterCreateA 3) (afterCreateA_reachable 3 (by decide)) _
      (List.getElem?_mem (show (afterCreateA 3).head[1]? = some _ from rfl))).2 rfl⟩

/-- C30: in every reachable state an inode of type REGULAR is pointed to by
the handle of an occupied slot among `0..49`, and `rm_File`, `truncate_File`
and `CloseFileByName` called with its name return 0 (not `-1`). -/
theorem C30_regular_has_handle (s : State) (hs : Reachable s) (k : Nat) (ino : INODE)
    (hino : s.head[k]? = some ino) (hreg : ino.FileType = REGULAR) :
    (∃ i ft, i < 50 ∧ s.UFDTArr i = some ft ∧ ft.ptrinode = k) ∧
    (∃ t, rm_File s ino.FileName = some (0, t)) ∧
    (∃ t, truncate_File s ino.FileName = some (0, t)) ∧
    (∃ t, CloseFileByName s ino.FileName = some (0, t)) := by
  have hopen := (fileInv_reachable hs).2.2 k ino hino hreg
  obtain ⟨fd, ft, hfd, hget, hft, hp⟩ := handle_of_regular hs hino hreg hopen
  obtain ⟨hlink, -, bytes, hbuf⟩ :=
    (fileInv_reachable hs).1 ino (List.getElem?_mem hino) |>.1 hreg
  have hino2 : inodeOf s ft = some ino := by
    simp only [inodeOf, hp, hino]
  exact ⟨hopen, ⟨_, rm_File_ok_last hget hft hino2 hbuf hlink⟩,
    ⟨_, truncate_File_ok hget hft hino2 hbuf (by decide)⟩,
    ⟨_, CloseFileByName_ok hget hft hino2⟩⟩

/-- C30 at a concrete input: the file `"a"` right after `CreateFile("a", 3)`. -/
theorem C30_witness :
    (∃ i ft, i < 50 ∧ (afterCreateA 3).UFDTArr i = some ft ∧ ft.ptrinode = 0) ∧
    (∃ t, rm_File (afterCreateA 3) nameA = some (0, t)) ∧
    (∃ t, truncate_File (afterCreateA 3) nameA = some (0, t)) ∧
    (∃ t, CloseFileByName (afterCreateA 3) nameA = some (0, t)) :=
  C30_regular_has_handle (afterCreateA 3) (afterCreateA_reachable 3 (by decide)) 0
    (createdInode (newInode zeroInode 1) nameA 3 zeroBytes) rfl rfl

end CVFS
